import Mathlib

/-! # go-practice: the Polymarket events proxy

A shallow embedding of `src/main.go` (the HTTP handlers) and
`src/polymarket/client.go` (the API client), together with models of the
parts of the Go standard library the two files call (`strconv.Atoi`,
`fmt`'s `%d`, `net/url`, `encoding/json`, `net/http`'s response writer).

Conventions.
* A Go `string` is a Lean `String`.  `strconv` and `net/url` work on bytes:
  in their models every `Char` stands for one byte.  `encoding/json` works on
  text: bodies are taken to be valid UTF-8, one `Char` per code point.
* Go's `int` is the 64-bit two's complement integer; it is an `Int` here and
  every place where the Go code could wrap is written with `wrapInt64` or
  `% 2 ^ 64`.
* A Go slice is an `Option (List α)`: `none` is the nil slice.
* A Go `error` is its message (`err.Error()`), `none` being `nil`.
-/

namespace GoPractice

deriving instance DecidableEq for Except

/-! ## strconv -/

namespace strconv

/-- The size of Go's `int` on a 64-bit platform (`strconv.IntSize`). -/
def intSize : Nat := 64

/-- The two errors a `*strconv.NumError` wraps. -/
inductive NumError where
  | ErrSyntax
  | ErrRange
  deriving DecidableEq, Repr

/-- Conversion of an integer to `int64`/`int`: two's complement wrap-around. -/
def wrapInt64 (i : Int) : Int :=
  (i + 2 ^ 63) % 2 ^ 64 - 2 ^ 63

/-- The byte test `'0' <= c && c <= '9'`. -/
def isDigit (c : Char) : Bool :=
  decide (48 ≤ c.toNat) && decide (c.toNat ≤ 57)

/-- The loop of the fast path of `Atoi`: `ch -= '0'; if ch > 9 { syntax error };
n = n*10 + int(ch)`, with `n` an `int`. -/
def atoiFastLoop : List Char → Int → Option Int
  | [], n => some n
  | ch :: rest, n =>
    if isDigit ch then atoiFastLoop rest (wrapInt64 (n * 10 + ((ch.toNat - 48 : Nat) : Int)))
    else none

/-- The loop of `ParseUint(s, 10, 64)` over the bytes of `s`, `n` a `uint64`:
`cutoff = maxUint64/10 + 1`, `maxVal = 1<<64 - 1`.  A byte that is not a decimal
digit is a syntax error (base 10 admits neither letters nor underscores). -/
def parseUintLoop : List Char → Nat → Except NumError Nat
  | [], n => .ok n
  | c :: rest, n =>
    if isDigit c then
      let d := c.toNat - 48
      if n ≥ (2 ^ 64 - 1) / 10 + 1 then .error .ErrRange
      else
        let n10 := (n * 10) % 2 ^ 64
        let n1 := (n10 + d) % 2 ^ 64
        if n1 < n10 ∨ n1 > 2 ^ 64 - 1 then .error .ErrRange
        else parseUintLoop rest n1
    else .error .ErrSyntax

/-- Model of `strconv.ParseUint(s, 10, 0)`. -/
def ParseUint (s : List Char) : Except NumError Nat :=
  match s with
  | [] => .error .ErrSyntax
  | _ => parseUintLoop s 0

/-- Model of `strconv.ParseInt(s, 10, 0)`: the sign is picked off, the rest
goes through `ParseUint`, and the result is checked against
`cutoff = 1 << (bitSize-1)`. -/
def ParseInt (s : List Char) : Except NumError Int :=
  match s with
  | [] => .error .ErrSyntax
  | c :: rest =>
    let neg := decide (c = '-')
    let body := if c = '+' ∨ c = '-' then rest else s
    match ParseUint body with
    | .error e => .error e
    | .ok un =>
      if !neg && decide (un ≥ 2 ^ 63) then .error .ErrRange
      else if neg && decide (un > 2 ^ 63) then .error .ErrRange
      else
        let n := wrapInt64 (un : Int)
        .ok (if neg then wrapInt64 (-n) else n)

/-- Model of `strconv.Atoi` for `intSize = 64`: strings of 1 to 18 bytes take
the fast path, all others go through `ParseInt(s, 10, 0)`.  The value Go
returns beside a non-nil error is not modelled (the caller drops it). -/
def Atoi (s : String) : Except NumError Int :=
  let sLen := s.data.length
  if 0 < sLen ∧ sLen < 19 then
    match s.data with
    | [] => .error .ErrSyntax
    | s0 :: rest =>
      let body := if s0 = '-' ∨ s0 = '+' then rest else s.data
      if body.length < 1 then .error .ErrSyntax
      else
        match atoiFastLoop body 0 with
        | none => .error .ErrSyntax
        | some n => .ok (if s0 = '-' then wrapInt64 (-n) else n)
  else ParseInt s.data

/-- The decimal digit for `d < 10`. -/
def digitChar (d : Nat) : Char := Char.ofNat (48 + d)

/-- Decimal digits of `n`, most significant first, pushed in front of `acc`
(the loop of `strconv.formatBits` for base 10). -/
def formatLoop : Nat → Nat → List Char → List Char
  | 0, _, acc => acc
  | fuel + 1, n, acc =>
    if n < 10 then digitChar n :: acc
    else formatLoop fuel (n / 10) (digitChar (n % 10) :: acc)

/-- Model of `strconv.FormatInt(i, 10)`, which is also what the verb `%d`
of `fmt` prints for an `int`. -/
def FormatInt (i : Int) : String :=
  if i < 0 then String.mk ('-' :: formatLoop (i.natAbs + 1) i.natAbs [])
  else String.mk (formatLoop (i.natAbs + 1) i.natAbs [])

end strconv

/-! ## Decimal integer strings, as the specification speaks of them -/

/-- The number a list of decimal digits denotes. -/
def digitsValue (ds : List Char) : Nat :=
  ds.foldl (fun acc c => 10 * acc + (c.toNat - 48)) 0

/-- A non-empty list of decimal digits. -/
def isDigitString (ds : List Char) : Bool :=
  !ds.isEmpty && ds.all strconv.isDigit

/-- An integer string: an optional sign and at least one decimal digit. -/
def isIntegerString (s : String) : Bool :=
  match s.data with
  | [] => false
  | c :: rest => if c = '+' ∨ c = '-' then isDigitString rest else isDigitString (c :: rest)

/-- The integer an integer string denotes. -/
def integerValue (s : String) : Int :=
  match s.data with
  | [] => 0
  | c :: rest =>
    if c = '-' then -(digitsValue rest : Int)
    else if c = '+' then (digitsValue rest : Int)
    else (digitsValue (c :: rest) : Int)

end GoPractice

namespace GoPractice

/-! ## net/url

A model of the parts of Go's `net/url` that `FetchActiveEvents` and the
handler go through: `url.Parse`, `URL.Query`, `Values.Set`, `Values.Get`,
`Values.Encode` and `URL.String`.  Strings are byte strings here, one `Char`
per byte. -/

namespace url

/-- The `encoding` modes of `net/url`. -/
inductive encoding where
  | encodePath
  | encodePathSegment
  | encodeHost
  | encodeZone
  | encodeUserPassword
  | encodeQueryComponent
  | encodeFragment
  deriving DecidableEq, Repr

open encoding

/-- ASCII letters and digits, the unreserved characters of RFC 3986 §2.3. -/
def isAlnum (c : Char) : Bool :=
  (decide (97 ≤ c.toNat) && decide (c.toNat ≤ 122)) ||
  (decide (65 ≤ c.toNat) && decide (c.toNat ≤ 90)) ||
  (decide (48 ≤ c.toNat) && decide (c.toNat ≤ 57))

/-- Model of `shouldEscape(c, mode)`. -/
def shouldEscape (c : Char) (mode : encoding) : Bool :=
  if isAlnum c then false
  else if (mode = encodeHost ∨ mode = encodeZone) ∧ "!$&'()*+,;=:[]<>\"".data.contains c then false
  else if "-_.~".data.contains c then false
  else if "$&+,/:;=?@".data.contains c then
    match mode with
    | encodePath => c = '?'
    | encodePathSegment => c = '/' || c = ';' || c = ',' || c = '?'
    | encodeUserPassword => c = '@' || c = '/' || c = '?' || c = ':'
    | encodeQueryComponent => true
    | encodeFragment => false
    | _ => true
  else if mode = encodeFragment ∧ "!()*".data.contains c then false
  else true

/-- Model of `ishex`. -/
def ishex (c : Char) : Bool :=
  (decide (48 ≤ c.toNat) && decide (c.toNat ≤ 57)) ||
  (decide (97 ≤ c.toNat) && decide (c.toNat ≤ 102)) ||
  (decide (65 ≤ c.toNat) && decide (c.toNat ≤ 70))

/-- Model of `unhex`. -/
def unhex (c : Char) : Nat :=
  if 48 ≤ c.toNat ∧ c.toNat ≤ 57 then c.toNat - 48
  else if 97 ≤ c.toNat ∧ c.toNat ≤ 102 then c.toNat - 97 + 10
  else if 65 ≤ c.toNat ∧ c.toNat ≤ 70 then c.toNat - 65 + 10
  else 0

/-- The digit `"0123456789ABCDEF"[n]`. -/
def upperhex (n : Nat) : Char :=
  if n < 10 then Char.ofNat (48 + n) else Char.ofNat (55 + n)

/-- The first pass of `unescape(s, mode)`: every `%` is followed by two
hexadecimal digits, and in a host no byte stands that would need escaping.
The messages stand for `EscapeError` and `InvalidHostError`, whose text
quotes the offending bytes. -/
def unescapeCheck (mode : encoding) : List Char → Except String Unit
  | [] => .ok ()
  | '%' :: a :: b :: rest =>
    if !(ishex a && ishex b) then .error "invalid URL escape"
    else if mode = encodeHost ∧ unhex a < 8 ∧ ¬(a = '2' ∧ b = '5') then
      .error "invalid URL escape"
    else if mode = encodeZone ∧ ¬(a = '2' ∧ b = '5') ∧ unhex a * 16 + unhex b ≠ 32
        ∧ shouldEscape (Char.ofNat (unhex a * 16 + unhex b)) encodeHost = true then
      .error "invalid URL escape"
    else unescapeCheck mode rest
  | '%' :: _ => .error "invalid URL escape"
  | c :: rest =>
    if (mode = encodeHost ∨ mode = encodeZone) ∧ c.toNat < 128
        ∧ shouldEscape c encodeHost = true then
      .error "invalid character in host name"
    else unescapeCheck mode rest

/-- The second pass of `unescape(s, mode)`: the unescaped bytes. -/
def unescapeBuild (mode : encoding) : List Char → List Char
  | [] => []
  | '%' :: a :: b :: rest => Char.ofNat (unhex a * 16 + unhex b) :: unescapeBuild mode rest
  | '+' :: rest => (if mode = encodeQueryComponent then ' ' else '+') :: unescapeBuild mode rest
  | c :: rest => c :: unescapeBuild mode rest

/-- Model of `unescape(s, mode)`. -/
def unescape (s : List Char) (mode : encoding) : Except String (List Char) :=
  match unescapeCheck mode s with
  | .error e => .error e
  | .ok () => .ok (unescapeBuild mode s)

/-- Model of `escape(s, mode)`: a space becomes `+` in a query component, a
byte that `shouldEscape` names becomes `%XX`. -/
def escape (s : List Char) (mode : encoding) : List Char :=
  s.flatMap fun c =>
    if c = ' ' ∧ mode = encodeQueryComponent then ['+']
    else if shouldEscape c mode then ['%', upperhex (c.toNat / 16 % 16), upperhex (c.toNat % 16)]
    else [c]

/-- Model of `url.QueryEscape`. -/
def QueryEscape (s : String) : String :=
  String.mk (escape s.data encodeQueryComponent)

/-- Model of `url.QueryUnescape`. -/
def QueryUnescape (s : List Char) : Except String (List Char) :=
  unescape s encodeQueryComponent

/-- Model of `strings.Cut(s, sep)` for a one-byte separator: what stands
before the first `sep`, what stands after it, and whether `sep` was found. -/
def cut (sep : Char) : List Char → List Char × List Char × Bool
  | [] => ([], [], false)
  | c :: rest =>
    if c = sep then ([], rest, true)
    else
      let r := cut sep rest
      (c :: r.1, r.2.1, r.2.2)

/-- Split at the last `sep` (`strings.LastIndex`): what stands before it and
what stands after it, or `none` when `sep` does not occur. -/
def cutLast (sep : Char) (s : List Char) : Option (List Char × List Char) :=
  let r := cut sep s.reverse
  if r.2.2 then some (r.2.1.reverse, r.1.reverse) else none

/-- Split before the first occurrence of `"%25"` (`strings.Index`). -/
def cutZone : List Char → Option (List Char × List Char)
  | [] => none
  | c :: rest =>
    if ("%25".data).isPrefixOf (c :: rest) then some ([], c :: rest)
    else
      match cutZone rest with
      | some (a, b) => some (c :: a, b)
      | none => none

/-- The lexicographic order on byte strings (`sort.Strings`). -/
def bytesLt : List Char → List Char → Bool
  | _, [] => false
  | [], _ :: _ => true
  | a :: as, b :: bs =>
    if a.toNat < b.toNat then true
    else if b.toNat < a.toNat then false
    else bytesLt as bs

/-- Model of `url.Values` (`map[string][]string`): the keys are distinct and
kept in the order `Encode` visits them. -/
abbrev Values := List (String × List String)

/-- The map update `m[key] = append(m[key], value)`. -/
def Values.Add : Values → String → String → Values
  | [], key, value => [(key, [value])]
  | (k, vs) :: rest, key, value =>
    if k = key then (k, vs ++ [value]) :: rest
    else if bytesLt key.data k.data then (key, [value]) :: (k, vs) :: rest
    else (k, vs) :: Values.Add rest key value

/-- Model of `Values.Set`: `v[key] = []string{value}`. -/
def Values.Set : Values → String → String → Values
  | [], key, value => [(key, [value])]
  | (k, vs) :: rest, key, value =>
    if k = key then (k, [value]) :: rest
    else if bytesLt key.data k.data then (key, [value]) :: (k, vs) :: rest
    else (k, vs) :: Values.Set rest key value

/-- Model of `Values.Get`: the first value of `key`, or `""`. -/
def Values.Get : Values → String → String
  | [], _ => ""
  | (k, vs) :: rest, key =>
    if k = key then vs.headD "" else Values.Get rest key

/-- Model of `Values.Has`. -/
def Values.Has : Values → String → Bool
  | [], _ => false
  | (k, _) :: rest, key => k = key || Values.Has rest key

/-- The pairs `key=value` of `Values.Encode`, both sides query-escaped, in the
order of the sorted keys. -/
def Values.pairs : Values → List String
  | [] => []
  | (k, vs) :: rest =>
    vs.map (fun v => QueryEscape k ++ "=" ++ QueryEscape v) ++ Values.pairs rest

/-- Model of `Values.Encode`: the pairs joined by `&`. -/
def Values.Encode (v : Values) : String :=
  "&".intercalate v.pairs

/-- One step of the loop of `parseQuery`: a pair with a semicolon, an empty
pair, or one whose key or value does not unescape is skipped. -/
def parseQueryPair (m : Values) (pair : List Char) : Values :=
  if pair.contains ';' then m
  else if pair = [] then m
  else
    let kv := cut '=' pair
    match QueryUnescape kv.1, QueryUnescape kv.2.1 with
    | .ok key, .ok value => m.Add (String.mk key) (String.mk value)
    | _, _ => m

/-- The pieces of `query` between the `&` separators. -/
def splitAmp : List Char → List (List Char)
  | [] => [[]]
  | c :: rest =>
    match splitAmp rest with
    | [] => [[c]]
    | p :: ps => if c = '&' then [] :: p :: ps else (c :: p) :: ps

/-- Go's `defaultMaxParams`: the most query parameters `parseQuery` reads when
the `urlmaxqueryparams` setting is left alone. -/
def defaultMaxParams : Nat := 10000

/-- Model of `urlParamsWithinMax(params)` for the default setting. -/
def urlParamsWithinMax (params : Nat) : Bool :=
  decide (params ≤ defaultMaxParams)

/-- Model of `url.ParseQuery` without its error (which `URL.Query` drops): a
query with more parameters than `defaultMaxParams`, counted as one more than
its `&` separators, is refused before any pair is read and the map stays
empty. -/
def ParseQuery (query : String) : Values :=
  if !urlParamsWithinMax (query.data.count '&' + 1) then []
  else (splitAmp query.data).foldl parseQueryPair []

/-- Model of `url.Userinfo`. -/
structure Userinfo where
  username : String
  password : String
  passwordSet : Bool
  deriving DecidableEq, Repr

/-- Model of `url.URL`. -/
structure URL where
  Scheme : String := ""
  Opaque : String := ""
  User : Option Userinfo := none
  Host : String := ""
  Path : String := ""
  RawPath : String := ""
  OmitHost : Bool := false
  ForceQuery : Bool := false
  RawQuery : String := ""
  Fragment : String := ""
  RawFragment : String := ""
  deriving DecidableEq, Repr

/-- Model of `stringContainsCTLByte`. -/
def stringContainsCTLByte (s : List Char) : Bool :=
  s.any fun b => decide (b.toNat < 32) || decide (b.toNat = 127)

/-- ASCII letter. -/
def isLetter (c : Char) : Bool :=
  (decide (97 ≤ c.toNat) && decide (c.toNat ≤ 122)) ||
  (decide (65 ≤ c.toNat) && decide (c.toNat ≤ 90))

/-- The loop of `getScheme`; `seen` holds the bytes read so far, last first. -/
def getSchemeLoop (rawURL : List Char) : List Char → List Char →
    Except String (List Char × List Char)
  | [], _ => .ok ([], rawURL)
  | c :: rest, seen =>
    if isLetter c then getSchemeLoop rawURL rest (c :: seen)
    else if strconv.isDigit c ∨ c = '+' ∨ c = '-' ∨ c = '.' then
      if seen = [] then .ok ([], rawURL) else getSchemeLoop rawURL rest (c :: seen)
    else if c = ':' then
      if seen = [] then .error "missing protocol scheme" else .ok (seen.reverse, rest)
    else .ok ([], rawURL)

/-- Model of `getScheme`: the scheme and what follows its colon. -/
def getScheme (rawURL : List Char) : Except String (List Char × List Char) :=
  getSchemeLoop rawURL rawURL []

/-- ASCII lower case (`strings.ToLower` on a scheme). -/
def toLower (s : List Char) : List Char :=
  s.map fun c => if 65 ≤ c.toNat ∧ c.toNat ≤ 90 then Char.ofNat (c.toNat + 32) else c

/-- Model of `validOptionalPort`. -/
def validOptionalPort : List Char → Bool
  | [] => true
  | c :: rest => c = ':' && rest.all strconv.isDigit

/-- Model of `validUserinfo`. -/
def validUserinfo (s : List Char) : Bool :=
  s.all fun r => isAlnum r || "-._:~!$&'()*+,;=%@".data.contains r

/-- The loop of `netip.parseIPv4Fields`, for whether it succeeds: `first` says
the byte is the first of the text, `prevDot` that a dot stands right before it;
`val`, `pos` and `digLen` are Go's variables. -/
def parseIPv4FieldsLoop : List Char → Bool → Bool → Nat → Nat → Nat → Bool
  | [], _, _, _, pos, _ => decide (3 ≤ pos)
  | c :: rest, first, prevDot, val, pos, digLen =>
    if strconv.isDigit c then
      if digLen = 1 ∧ val = 0 then false
      else if 255 < val * 10 + (c.toNat - 48) then false
      else parseIPv4FieldsLoop rest false false (val * 10 + (c.toNat - 48)) pos (digLen + 1)
    else if c = '.' then
      if first ∨ rest = [] ∨ prevDot then false
      else if pos = 3 then false
      else parseIPv4FieldsLoop rest false true 0 (pos + 1) 0
    else false

/-- Whether `netip.parseIPv4Fields` accepts the text: four decimal fields of
at most 255 without a leading zero, separated by dots. -/
def parseIPv4Fields (s : List Char) : Bool :=
  parseIPv4FieldsLoop s true false 0 0 0

/-- The loop of `netip.parseIPv6` over the groups of the address, for whether
it succeeds: the text left, the index `i` into the sixteen bytes and whether an
ellipsis `::` was seen, at the end of the loop; `none` for an error.  The loop
runs while `i < 16`, so eight rounds are all it can make. -/
def parseIPv6Loop : Nat → List Char → Nat → Bool → Option (List Char × Nat × Bool)
  | 0, s, i, ellipsis => some (s, i, ellipsis)
  | fuel + 1, s, i, ellipsis =>
    if ¬ i < 16 then some (s, i, ellipsis)
    else
      let digits := s.takeWhile ishex
      let after := s.dropWhile ishex
      if 4 < digits.length then none
      else if digits = [] then none
      else if after.head? = some '.' then
        if !ellipsis ∧ i ≠ 12 then none
        else if 16 < i + 4 then none
        else if parseIPv4Fields s then some ([], i + 4, ellipsis)
        else none
      else
        match after with
        | [] => some ([], i + 2, ellipsis)
        | c :: rest =>
          if c ≠ ':' then none
          else
            match rest with
            | [] => none
            | d :: rest' =>
              if d = ':' then
                if ellipsis then none
                else if rest' = [] then some ([], i + 2, true)
                else parseIPv6Loop fuel rest' (i + 2) true
              else parseIPv6Loop fuel (d :: rest') (i + 2) ellipsis

/-- Whether `netip.parseIPv6` accepts the text: the zone after a `%` is not
empty, the groups are read by `parseIPv6Loop`, nothing is left over, and an
ellipsis stands for at least one group and is there when groups are missing. -/
def parseIPv6 (s : List Char) : Bool :=
  let z := cut '%' s
  if z.2.2 ∧ z.2.1 = [] then false
  else
    let lead := ("::".data).isPrefixOf z.1
    let body := if lead then z.1.drop 2 else z.1
    if lead ∧ body = [] then true
    else
      match parseIPv6Loop 8 body 0 lead with
      | none => false
      | some (left, i, ellipsis) =>
        if left ≠ [] then false
        else if i < 16 then ellipsis
        else !ellipsis

/-- Whether `netip.ParseAddr(s)` returns an address that is not an IPv4
address: the first of `.`, `:` and `%` in the text decides how it is read, and
only a colon makes it an IPv6 address. -/
def isIPv6Addr (s : List Char) : Bool :=
  match s.find? fun c => c = '.' || c = ':' || c = '%' with
  | some ':' => parseIPv6 s
  | _ => false

/-- Model of `parseHost`.  A host that starts with `[` is an IP literal: the
text up to the last `]`, unescaped, has to be an IPv6 address, and an optional
port may follow; a `[` further on is an error.  In any other host what follows
the first colon has to be a port. -/
def parseHost (host : List Char) : Except String (List Char) :=
  if host.tail.contains '[' then .error "invalid IP-literal"
  else if host.head? = some '[' then
    match cutLast ']' host with
    | none => .error "missing ']' in host"
    | some (inner, colonPort) =>
      if !validOptionalPort colonPort then .error "invalid port after host"
      else
        match unescape colonPort encodeHost with
        | .error e => .error e
        | .ok port =>
          let hostname : Except String (List Char) :=
            match cutZone (inner.drop 1) with
            | some (h1, zone) =>
              match unescape h1 encodeHost, unescape zone encodeZone with
              | .ok hostPart, .ok zonePart => .ok (hostPart ++ zonePart)
              | .error e, _ => .error e
              | _, .error e => .error e
            | none => unescape (inner.drop 1) encodeHost
          match hostname with
          | .error e => .error e
          | .ok name =>
            if !isIPv6Addr name then .error "invalid host"
            else .ok ('[' :: name ++ ']' :: port)
  else
    let c := cut ':' host
    if c.2.2 ∧ !validOptionalPort (':' :: c.2.1) then .error "invalid port after host"
    else unescape host encodeHost

/-- Model of `parseAuthority`. -/
def parseAuthority (authority : List Char) : Except String (Option Userinfo × List Char) :=
  match cutLast '@' authority with
  | none =>
    match parseHost authority with
    | .error e => .error e
    | .ok host => .ok (none, host)
  | some (userinfo, hostPart) =>
    match parseHost hostPart with
    | .error e => .error e
    | .ok host =>
      if !validUserinfo userinfo then .error "net/url: invalid userinfo"
      else if !userinfo.contains ':' then
        match unescape userinfo encodeUserPassword with
        | .error e => .error e
        | .ok name => .ok (some ⟨String.mk name, "", false⟩, host)
      else
        let up := cut ':' userinfo
        match unescape up.1 encodeUserPassword, unescape up.2.1 encodeUserPassword with
        | .ok name, .ok pass => .ok (some ⟨String.mk name, String.mk pass, true⟩, host)
        | .error e, _ => .error e
        | _, .error e => .error e

/-- Model of `URL.setPath`. -/
def URL.setPath (u : URL) (p : List Char) : Except String URL :=
  match unescape p encodePath with
  | .error e => .error e
  | .ok path =>
    .ok { u with Path := String.mk path,
                 RawPath := if p = escape path encodePath then "" else String.mk p }

/-- Model of `URL.setFragment`. -/
def URL.setFragment (u : URL) (f : List Char) : Except String URL :=
  match unescape f encodeFragment with
  | .error e => .error e
  | .ok frag =>
    .ok { u with Fragment := String.mk frag,
                 RawFragment := if f = escape frag encodeFragment then "" else String.mk f }

/-- Model of the unexported `parse(rawURL, viaRequest)` for `viaRequest = false`. -/
def parse (rawURL : List Char) : Except String URL :=
  if stringContainsCTLByte rawURL then .error "net/url: invalid control character in URL"
  else if rawURL = ['*'] then .ok { Path := "*" }
  else
    match getScheme rawURL with
    | .error e => .error e
    | .ok (scheme, afterScheme) =>
      let scheme := toLower scheme
      let force := afterScheme.getLast? = some '?' ∧ afterScheme.count '?' = 1
      let rest := if force then afterScheme.dropLast else (cut '?' afterScheme).1
      let rawQuery := if force then [] else (cut '?' afterScheme).2.1
      let u : URL := { Scheme := String.mk scheme, ForceQuery := force,
                       RawQuery := String.mk rawQuery }
      if rest.head? ≠ some '/' ∧ scheme ≠ [] then .ok { u with Opaque := String.mk rest }
      else if rest.head? ≠ some '/' ∧ (cut '/' rest).1.contains ':' then
        .error "first path segment in URL cannot contain colon"
      else if (scheme ≠ [] ∨ !("///".data).isPrefixOf rest) ∧ ("//".data).isPrefixOf rest then
        let auth := cut '/' (rest.drop 2)
        let path := if auth.2.2 then '/' :: auth.2.1 else []
        match parseAuthority auth.1 with
        | .error e => .error e
        | .ok (user, host) => URL.setPath { u with User := user, Host := String.mk host } path
      else if scheme ≠ [] ∧ rest.head? = some '/' then
        URL.setPath { u with OmitHost := true } rest
      else URL.setPath u rest

/-- Model of `url.Parse`: the fragment is cut off and set after the rest is
parsed.  The message stands for `*url.Error`, whose text also quotes the URL. -/
def Parse (rawURL : String) : Except String URL :=
  let r := cut '#' rawURL.data
  match parse r.1 with
  | .error e => .error ("parse: " ++ e)
  | .ok u =>
    if r.2.1 = [] then .ok u
    else
      match u.setFragment r.2.1 with
      | .error e => .error ("parse: " ++ e)
      | .ok u => .ok u

/-- Model of `URL.Query`: `ParseQuery(u.RawQuery)`, its error dropped. -/
def URL.Query (u : URL) : Values :=
  ParseQuery u.RawQuery

/-- Model of `validEncoded`. -/
def validEncoded (s : List Char) (mode : encoding) : Bool :=
  s.all fun c => "!$&'()*+,;=:@[]%".data.contains c || !shouldEscape c mode

/-- Model of `URL.EscapedPath`. -/
def URL.EscapedPath (u : URL) : List Char :=
  if u.RawPath ≠ "" ∧ validEncoded u.RawPath.data encodePath = true
      ∧ unescape u.RawPath.data encodePath = .ok u.Path.data then u.RawPath.data
  else if u.Path = "*" then ['*']
  else escape u.Path.data encodePath

/-- Model of `URL.EscapedFragment`. -/
def URL.EscapedFragment (u : URL) : List Char :=
  if u.RawFragment ≠ "" ∧ validEncoded u.RawFragment.data encodeFragment = true
      ∧ unescape u.RawFragment.data encodeFragment = .ok u.Fragment.data then u.RawFragment.data
  else escape u.Fragment.data encodeFragment

/-- Model of `Userinfo.String`. -/
def Userinfo.String (ui : Userinfo) : List Char :=
  escape ui.username.data encodeUserPassword ++
    (if ui.passwordSet then ':' :: escape ui.password.data encodeUserPassword else [])

/-- The part of `URL.String` before the path: scheme, `//`, user and host. -/
def URL.authorityString (u : URL) : List Char :=
  (if u.Scheme ≠ "" then u.Scheme.data ++ [':'] else []) ++
  (if u.Scheme ≠ "" ∨ u.Host ≠ "" ∨ u.User ≠ none then
    if u.OmitHost ∧ u.Host = "" ∧ u.User = none then []
    else
      (if u.Host ≠ "" ∨ u.Path ≠ "" ∨ u.User ≠ none then ['/', '/'] else []) ++
      (match u.User with
        | some ui => ui.String ++ ['@']
        | none => []) ++
      (if u.Host ≠ "" then escape u.Host.data encodeHost else [])
   else [])

/-- Model of `URL.String`. -/
def URL.String (u : URL) : String :=
  let head :=
    if u.Opaque ≠ "" then
      (if u.Scheme ≠ "" then u.Scheme.data ++ [':'] else []) ++ u.Opaque.data
    else
      let buf := u.authorityString
      let path := u.EscapedPath
      let buf := if path ≠ [] ∧ path.head? ≠ some '/' ∧ u.Host ≠ "" then buf ++ ['/'] else buf
      let buf := if buf = [] ∧ (cut '/' path).1.contains ':' then ['.', '/'] else buf
      buf ++ path
  let query := if u.ForceQuery ∨ u.RawQuery ≠ "" then '?' :: u.RawQuery.data else []
  let frag := if u.Fragment ≠ "" then '#' :: u.EscapedFragment else []
  String.mk (head ++ query ++ frag)

end url

end GoPractice

namespace GoPractice

/-! ## The data model of `polymarket/client.go` -/

namespace polymarket

/-- Go's `Tag`: a tag/category for an event. -/
structure Tag where
  ID : String
  Label : String
  Slug : String
  deriving DecidableEq, Repr

/-- Go's `Market`: a market within an event.  The last three fields hold JSON
string arrays as text. -/
structure Market where
  ID : String
  Question : String
  ClobTokenIds : String
  Outcomes : String
  OutcomePrices : String
  deriving DecidableEq, Repr

/-- Go's `Event`: a Polymarket event. -/
structure Event where
  ID : String
  Slug : String
  Title : String
  Active : Bool
  Closed : Bool
  Tags : Option (List Tag)
  Markets : Option (List Market)
  deriving DecidableEq, Repr

/-- Go's `FetchActiveEventsOptions`. -/
structure FetchActiveEventsOptions where
  Limit : Int
  deriving DecidableEq, Repr

end polymarket

/-! ## encoding/json

A model of `json.Unmarshal` into `[]Event` and of `json.Marshal` of `[]Event`
and of `map[string]string`.  `Unmarshal` first checks the whole text against
the JSON grammar and then stores the values; here the text is cut into tokens
(`lex`), the tokens are read into a value (`parseTokens`), and the value is
stored (`unmarshalEvents`). -/

namespace json

/-- The tokens of JSON text. -/
inductive Token where
  | beginObject
  | endObject
  | beginArray
  | endArray
  | colon
  | comma
  | litTrue
  | litFalse
  | litNull
  | number (raw : List Char)
  | string (s : List Char)
  deriving DecidableEq, Repr

/-- Where the scanner stands inside a number: Go's `stateNeg`, `state0`,
`state1`, `stateDot`, `stateDot0`, `stateE`, `stateESign`, `stateE0`. -/
inductive NumState where
  | neg
  | zero
  | int
  | dot
  | frac
  | e
  | eSign
  | exp
  deriving DecidableEq, Repr

/-- Where the scanner stands: between tokens (`value`); inside a literal name
whose remaining letters are `rest`; inside a number whose text so far is `acc`;
or inside a string literal whose decoded characters so far are `acc`: in its
plain text (`str`), after a backslash (`strEsc`), inside the four digits of a
`\u` escape (`strU`, with the surrogate `hi` that stood just before, if one
did), right after a `\u` escape that names a surrogate (`strHi`), or after the
backslash that follows such an escape (`strHiEsc`). -/
inductive Mode where
  | value
  | lit (rest : List Char) (tok : Token)
  | num (st : NumState) (acc : List Char)
  | str (acc : List Char)
  | strEsc (acc : List Char)
  | strU (acc : List Char) (hi : Option Nat) (digits : List Char)
  | strHi (acc : List Char) (hi : Nat)
  | strHiEsc (acc : List Char) (hi : Nat)
  deriving DecidableEq, Repr

/-- Model of `isSpace`: space, tab, carriage return, line feed. -/
def isSpace (c : Char) : Bool :=
  c = ' ' || c = '\t' || c = '\r' || c = '\n'

/-- The one-character tokens. -/
def punct (c : Char) : Option Token :=
  if c = '{' then some .beginObject
  else if c = '}' then some .endObject
  else if c = '[' then some .beginArray
  else if c = ']' then some .endArray
  else if c = ':' then some .colon
  else if c = ',' then some .comma
  else none

/-- A number may end in the states `state0`, `state1`, `stateDot0`, `stateE0`. -/
def NumState.accepting : NumState → Bool
  | .zero | .int | .frac | .exp => true
  | _ => false

/-- The next state inside a number, `none` when `c` does not continue it. -/
def NumState.step (st : NumState) (c : Char) : Option NumState :=
  match st with
  | .neg => if c = '0' then some .zero else if strconv.isDigit c then some .int else none
  | .zero => if c = '.' then some .dot else if c = 'e' ∨ c = 'E' then some .e else none
  | .int =>
    if strconv.isDigit c then some .int
    else if c = '.' then some .dot else if c = 'e' ∨ c = 'E' then some .e else none
  | .dot => if strconv.isDigit c then some .frac else none
  | .frac =>
    if strconv.isDigit c then some .frac else if c = 'e' ∨ c = 'E' then some .e else none
  | .e => if c = '+' ∨ c = '-' then some .eSign else if strconv.isDigit c then some .exp else none
  | .eSign => if strconv.isDigit c then some .exp else none
  | .exp => if strconv.isDigit c then some .exp else none

/-- The character of a one-letter escape `\"`, `\\`, `\/`, `\b`, `\f`, `\n`,
`\r`, `\t`. -/
def simpleEscape (c : Char) : Option Char :=
  if c = '"' then some '"'
  else if c = '\\' then some '\\'
  else if c = '/' then some '/'
  else if c = 'b' then some (Char.ofNat 8)
  else if c = 'f' then some (Char.ofNat 12)
  else if c = 'n' then some '\n'
  else if c = 'r' then some '\r'
  else if c = 't' then some '\t'
  else none

/-- The value of a list of hexadecimal digits. -/
def hexValue (ds : List Char) : Nat :=
  ds.foldl (fun n d => n * 16 + url.unhex d) 0

/-- Model of `utf16.IsSurrogate`. -/
def isSurrogate (r : Nat) : Bool :=
  decide (0xD800 ≤ r) && decide (r < 0xE000)

/-- Model of `utf16.DecodeRune`: the code point of a surrogate pair, `none`
(U+FFFD in Go) when the two do not form one. -/
def decodeSurrogates (r1 r2 : Nat) : Option Nat :=
  if 0xD800 ≤ r1 ∧ r1 < 0xDC00 ∧ 0xDC00 ≤ r2 ∧ r2 < 0xE000 then
    some ((r1 - 0xD800) * 1024 + (r2 - 0xDC00) + 0x10000)
  else none

/-- The replacement character U+FFFD. -/
def replacementChar : Char := Char.ofNat 0xFFFD

/-- A character that starts a token. -/
def stepValue (c : Char) : Option (List Token × Mode) :=
  if isSpace c then some ([], .value)
  else
    match punct c with
    | some t => some ([t], .value)
    | none =>
      if c = '"' then some ([], .str [])
      else if c = '-' then some ([], .num .neg [c])
      else if c = '0' then some ([], .num .zero [c])
      else if strconv.isDigit c then some ([], .num .int [c])
      else if c = 't' then some ([], .lit "rue".data .litTrue)
      else if c = 'f' then some ([], .lit "alse".data .litFalse)
      else if c = 'n' then some ([], .lit "ull".data .litNull)
      else none

/-- A character of the plain text of a string literal: the closing quote ends
the token, a backslash starts an escape, a control character is an error. -/
def stepStr (acc : List Char) (c : Char) : Option (List Token × Mode) :=
  if c = '"' then some ([.string acc], .value)
  else if c = '\\' then some ([], .strEsc acc)
  else if c.toNat < 32 then none
  else some ([], .str (acc ++ [c]))

/-- The character after a backslash. -/
def stepEsc (acc : List Char) (c : Char) : Option (List Token × Mode) :=
  if c = 'u' then some ([], .strU acc none [])
  else
    match simpleEscape c with
    | some ch => some ([], .str (acc ++ [ch]))
    | none => none

/-- A `\u` escape is complete with value `r`: a surrogate waits for its
partner, any other code point is the next character. -/
def endU (acc : List Char) (r : Nat) : Mode :=
  if isSurrogate r then .strHi acc r else .str (acc ++ [Char.ofNat r])

/-- One character of the scanner's state machine: the tokens it completes and
the next mode, `none` for a syntax error.  A string literal is decoded as
`unquote` does it: escapes are resolved, a surrogate pair is one character, a
surrogate without its partner is U+FFFD. -/
def stepChar : Mode → Char → Option (List Token × Mode)
  | .value, c => stepValue c
  | .lit rest tok, c =>
    match rest with
    | [] => none
    | x :: xs =>
      if c = x then (if xs = [] then some ([tok], .value) else some ([], .lit xs tok))
      else none
  | .num st acc, c =>
    match st.step c with
    | some st' => some ([], .num st' (acc ++ [c]))
    | none =>
      if st.accepting then
        if isSpace c then some ([.number acc], .value)
        else
          match punct c with
          | some t => some ([.number acc, t], .value)
          | none => none
      else none
  | .str acc, c => stepStr acc c
  | .strEsc acc, c => stepEsc acc c
  | .strU acc hi digits, c =>
    if url.ishex c then
      if digits.length < 3 then some ([], .strU acc hi (digits ++ [c]))
      else
        let r := hexValue (digits ++ [c])
        match hi with
        | none => some ([], endU acc r)
        | some h =>
          match decodeSurrogates h r with
          | some rr => some ([], .str (acc ++ [Char.ofNat rr]))
          | none => some ([], endU (acc ++ [replacementChar]) r)
    else none
  | .strHi acc hi, c =>
    if c = '\\' then some ([], .strHiEsc acc hi)
    else stepStr (acc ++ [replacementChar]) c
  | .strHiEsc acc hi, c =>
    if c = 'u' then some ([], .strU acc (some hi) [])
    else stepEsc (acc ++ [replacementChar]) c

/-- The end of the text: it may stand between tokens or end a number. -/
def finish : Mode → Option (List Token)
  | .value => some []
  | .num st acc => if st.accepting then some [.number acc] else none
  | _ => none

/-- The state machine run over a piece of text from mode `m`: the tokens
completed and the mode reached, `none` for a syntax error. -/
def scan : List Char → Mode → Option (List Token × Mode)
  | [], m => some ([], m)
  | c :: rest, m =>
    match stepChar m c with
    | none => none
    | some (ts, m') =>
      match scan rest m' with
      | none => none
      | some (out, m'') => some (ts ++ out, m'')

/-- The scanner: JSON text to tokens, `none` for a syntax error. -/
def lex (text : List Char) : Option (List Token) :=
  match scan text .value with
  | none => none
  | some (ts, m) =>
    match finish m with
    | none => none
    | some last => some (ts ++ last)

/-- A JSON value.  A number keeps its text. -/
inductive JSON where
  | null
  | bool (b : Bool)
  | number (raw : String)
  | string (s : String)
  | array (elems : List JSON)
  | object (members : List (String × JSON))
  deriving Repr

/-- An open array or object on the scanner's stack (`parseState`): the
elements or members read so far and, in an object, the key whose value is
being read. -/
inductive Frame where
  | arr (elems : List JSON)
  | obj (members : List (String × JSON)) (key : Option String)

/-- What the scanner expects next: Go's `stateBeginValue`,
`stateBeginValueOrEmpty`, `stateBeginStringOrEmpty`, `stateBeginString`,
`stateEndValue` (after an object key: `objectKey`) and `stateEndTop`. -/
inductive Expect where
  | beginValue
  | beginValueOrEmpty
  | beginStringOrEmpty
  | beginString
  | objectKey
  | endValue
  | endTop (v : JSON)

/-- The scanner's nesting limit, `maxNestingDepth`. -/
def maxNestingDepth : Nat := 10000

/-- A value is complete: it is the top-level value, the next element of the
open array, or the value of the pending key of the open object. -/
def complete (v : JSON) : List Frame → Option (List Frame × Expect)
  | [] => some ([], .endTop v)
  | .arr elems :: stack => some (.arr (elems ++ [v]) :: stack, .endValue)
  | .obj members (some k) :: stack => some (.obj (members ++ [(k, v)]) none :: stack, .endValue)
  | .obj _ none :: _ => none

/-- A token that starts a value: a scalar is complete at once, `[` and `{`
open a frame (`pushParseState`, which fails past `maxNestingDepth`). -/
def beginValue (stack : List Frame) : Token → Option (List Frame × Expect)
  | .litNull => complete .null stack
  | .litTrue => complete (.bool true) stack
  | .litFalse => complete (.bool false) stack
  | .number raw => complete (.number (String.mk raw)) stack
  | .string s => complete (.string (String.mk s)) stack
  | .beginArray =>
    if stack.length + 1 ≤ maxNestingDepth then some (.arr [] :: stack, .beginValueOrEmpty)
    else none
  | .beginObject =>
    if stack.length + 1 ≤ maxNestingDepth then some (.obj [] none :: stack, .beginStringOrEmpty)
    else none
  | _ => none

/-- An object key has been read. -/
def beginKey (k : List Char) : List Frame → Option (List Frame × Expect)
  | .obj members none :: stack => some (.obj members (some (String.mk k)) :: stack, .objectKey)
  | _ => none

/-- One token of the scanner's state machine. -/
def step : List Frame × Expect → Token → Option (List Frame × Expect)
  | (stack, .beginValue), t => beginValue stack t
  | (stack, .beginValueOrEmpty), t =>
    match t, stack with
    | .endArray, .arr elems :: stack' => complete (.array elems) stack'
    | .endArray, _ => none
    | _, _ => beginValue stack t
  | (stack, .beginStringOrEmpty), t =>
    match t, stack with
    | .endObject, .obj members none :: stack' => complete (.object members) stack'
    | .string k, _ => beginKey k stack
    | _, _ => none
  | (stack, .beginString), t =>
    match t with
    | .string k => beginKey k stack
    | _ => none
  | (stack, .objectKey), t =>
    match t with
    | .colon => some (stack, .beginValue)
    | _ => none
  | (stack, .endValue), t =>
    match t, stack with
    | .comma, .arr elems :: stack' => some (.arr elems :: stack', .beginValue)
    | .endArray, .arr elems :: stack' => complete (.array elems) stack'
    | .comma, .obj members none :: stack' => some (.obj members none :: stack', .beginString)
    | .endObject, .obj members none :: stack' => complete (.object members) stack'
    | _, _ => none
  | (_, .endTop _), _ => none

/-- The state machine run over a list of tokens. -/
def run : List Frame × Expect → List Token → Option (List Frame × Expect)
  | st, [] => some st
  | st, t :: ts =>
    match step st t with
    | some st' => run st' ts
    | none => none

/-- The state machine run on from a state that may be a syntax error. -/
def resume (st : Option (List Frame × Expect)) (ts : List Token) :
    Option (List Frame × Expect) :=
  match st with
  | some st => run st ts
  | none => none

/-- The value a complete list of tokens denotes. -/
def parseTokens (ts : List Token) : Option JSON :=
  match run ([], .beginValue) ts with
  | some ([], .endTop v) => some v
  | _ => none

/-- The value a JSON text denotes, `none` for text that is not valid JSON
(a `*json.SyntaxError` in Go). -/
def parse (text : String) : Option JSON :=
  match lex text.data with
  | some ts => parseTokens ts
  | none => none

/-- Upper case of the characters that fold onto ASCII letters: the letters
themselves, U+017F (long s) and U+212A (Kelvin sign).  Object keys are matched
against field names up to this folding (`foldName`). -/
def foldChar (c : Char) : Char :=
  if 97 ≤ c.toNat ∧ c.toNat ≤ 122 then Char.ofNat (c.toNat - 32)
  else if c.toNat = 0x17F then 'S'
  else if c.toNat = 0x212A then 'K'
  else c

/-- An object key names the field with JSON name `name`. -/
def keyMatches (key name : String) : Bool :=
  key.data.map foldChar = name.data.map foldChar

/-- The message of a `*json.UnmarshalTypeError`; its text names the JSON value
and the Go type, which is not modelled. -/
def typeError (goType : String) : String :=
  "json: cannot unmarshal value into Go value of type " ++ goType

/-- Storing a JSON value in a `string`: `null` leaves it as it is. -/
def unmarshalString (cur : String) : JSON → Except String String
  | .null => .ok cur
  | .string s => .ok s
  | _ => .error (typeError "string")

/-- Storing a JSON value in a `bool`: `null` leaves it as it is. -/
def unmarshalBool (cur : Bool) : JSON → Except String Bool
  | .null => .ok cur
  | .bool b => .ok b
  | _ => .error (typeError "bool")

/-- The elements of an array stored in turn, stopping at the first error.
Element `i` is stored in what the backing array already holds at index `i`,
which `array` does not clear, and in a zero value beyond its end; `old` is what
the backing array holds from the index of the first element on. -/
def unmarshalElems {α : Type} (elem : α → JSON → Except String α) (zero : α) :
    List α → List JSON → Except String (List α)
  | _, [] => .ok []
  | old, v :: vs =>
    match elem (old.headD zero) v with
    | .error e => .error e
    | .ok a =>
      match unmarshalElems elem zero old.tail vs with
      | .error e => .error e
      | .ok as => .ok (a :: as)

/-- Storing a JSON value in a slice whose backing array holds `old`: `null`
makes it nil, an empty array makes it a fresh empty slice, another array the
slice of its elements.  The result is the slice and what its backing array
holds beyond its length. -/
def unmarshalSlice {α : Type} (elem : α → JSON → Except String α) (zero : α) (goType : String)
    (old : List α) : JSON → Except String (Option (List α) × List α)
  | .null => .ok (none, [])
  | .array vs =>
    match unmarshalElems elem zero old vs with
    | .error e => .error e
    | .ok as => .ok (some as, if vs.isEmpty then [] else old.drop vs.length)
  | _ => .error (typeError goType)

/-- The members of an object stored in turn, stopping at the first error. -/
def unmarshalMembers {α : Type} (field : α → String → JSON → Except String α) :
    α → List (String × JSON) → Except String α
  | cur, [] => .ok cur
  | cur, (k, v) :: rest =>
    match field cur k v with
    | .error e => .error e
    | .ok next => unmarshalMembers field next rest

open polymarket

/-- One member of a JSON object stored in a `Tag`; an unknown key is skipped. -/
def tagField (t : Tag) (key : String) (v : JSON) : Except String Tag :=
  if keyMatches key "id" then (unmarshalString t.ID v).map fun s => { t with ID := s }
  else if keyMatches key "label" then (unmarshalString t.Label v).map fun s => { t with Label := s }
  else if keyMatches key "slug" then (unmarshalString t.Slug v).map fun s => { t with Slug := s }
  else .ok t

/-- Storing a JSON value in a `Tag`. -/
def unmarshalTag (cur : Tag) : JSON → Except String Tag
  | .null => .ok cur
  | .object members => unmarshalMembers tagField cur members
  | _ => .error (typeError "polymarket.Tag")

/-- One member of a JSON object stored in a `Market`. -/
def marketField (m : Market) (key : String) (v : JSON) : Except String Market :=
  if keyMatches key "id" then (unmarshalString m.ID v).map fun s => { m with ID := s }
  else if keyMatches key "question" then
    (unmarshalString m.Question v).map fun s => { m with Question := s }
  else if keyMatches key "clobTokenIds" then
    (unmarshalString m.ClobTokenIds v).map fun s => { m with ClobTokenIds := s }
  else if keyMatches key "outcomes" then
    (unmarshalString m.Outcomes v).map fun s => { m with Outcomes := s }
  else if keyMatches key "outcomePrices" then
    (unmarshalString m.OutcomePrices v).map fun s => { m with OutcomePrices := s }
  else .ok m

/-- Storing a JSON value in a `Market`. -/
def unmarshalMarket (cur : Market) : JSON → Except String Market
  | .null => .ok cur
  | .object members => unmarshalMembers marketField cur members
  | _ => .error (typeError "polymarket.Market")

/-- The zero `Tag`. -/
def zeroTag : Tag := ⟨"", "", ""⟩

/-- The zero `Market`. -/
def zeroMarket : Market := ⟨"", "", "", "", ""⟩

/-- The zero `Event`. -/
def zeroEvent : Event := ⟨"", "", "", false, false, none, none⟩

/-- An `Event` in memory while it is decoded: its value, and what the backing
arrays of its two slices hold beyond their lengths. -/
structure EventTarget where
  val : Event
  tagsSpare : List Tag
  marketsSpare : List Market
  deriving DecidableEq, Repr

/-- A zero `Event` in fresh memory. -/
def zeroEventTarget : EventTarget := ⟨zeroEvent, [], []⟩

/-- One member of a JSON object stored in an `Event`. -/
def eventField (t : EventTarget) (key : String) (v : JSON) : Except String EventTarget :=
  if keyMatches key "id" then
    (unmarshalString t.val.ID v).map fun s => { t with val := { t.val with ID := s } }
  else if keyMatches key "slug" then
    (unmarshalString t.val.Slug v).map fun s => { t with val := { t.val with Slug := s } }
  else if keyMatches key "title" then
    (unmarshalString t.val.Title v).map fun s => { t with val := { t.val with Title := s } }
  else if keyMatches key "active" then
    (unmarshalBool t.val.Active v).map fun b => { t with val := { t.val with Active := b } }
  else if keyMatches key "closed" then
    (unmarshalBool t.val.Closed v).map fun b => { t with val := { t.val with Closed := b } }
  else if keyMatches key "tags" then
    (unmarshalSlice unmarshalTag zeroTag "[]polymarket.Tag"
      (t.val.Tags.getD [] ++ t.tagsSpare) v).map
      fun r => { t with val := { t.val with Tags := r.1 }, tagsSpare := r.2 }
  else if keyMatches key "markets" then
    (unmarshalSlice unmarshalMarket zeroMarket "[]polymarket.Market"
      (t.val.Markets.getD [] ++ t.marketsSpare) v).map
      fun r => { t with val := { t.val with Markets := r.1 }, marketsSpare := r.2 }
  else .ok t

/-- Storing a JSON value in an `Event`. -/
def unmarshalEvent (cur : EventTarget) : JSON → Except String EventTarget
  | .null => .ok cur
  | .object members => unmarshalMembers eventField cur members
  | _ => .error (typeError "polymarket.Event")

/-- Storing a JSON value in a nil `[]Event`. -/
def unmarshalEvents (v : JSON) : Except String (Option (List Event)) :=
  (unmarshalSlice unmarshalEvent zeroEventTarget "[]polymarket.Event" [] v).map
    fun r => r.1.map (List.map EventTarget.val)

/-- Model of `json.Unmarshal(body, &events)` for `var events []Event`: the
events, or the message of the error.  The message of a syntax error stands for
Go's, which names the offending character. -/
def Unmarshal (body : String) : Except String (Option (List Event)) :=
  match parse body with
  | none => .error "invalid JSON"
  | some v => unmarshalEvents v

/-- The digit `"0123456789abcdef"[n]`. -/
def hexLower (n : Nat) : Char :=
  if n < 10 then Char.ofNat (48 + n) else Char.ofNat (87 + n)

/-- How `Marshal` writes one character of a string (with HTML escaping, as
`Encoder` does by default): `"` and `\` get a backslash; backspace, form feed,
line feed, carriage return and tab their letter; the other control characters,
`<`, `>` and `&` become `\u00XX`; U+2028 and U+2029 become `\u2028` and
`\u2029`; every other character stands for itself. -/
def escapeChar (c : Char) : List Char :=
  if c = '"' ∨ c = '\\' then ['\\', c]
  else if c.toNat = 8 then ['\\', 'b']
  else if c.toNat = 12 then ['\\', 'f']
  else if c = '\n' then ['\\', 'n']
  else if c = '\r' then ['\\', 'r']
  else if c = '\t' then ['\\', 't']
  else if c.toNat < 32 ∨ c = '<' ∨ c = '>' ∨ c = '&' then
    ['\\', 'u', '0', '0', hexLower (c.toNat / 16), hexLower (c.toNat % 16)]
  else if c.toNat = 0x2028 then "\\u2028".data
  else if c.toNat = 0x2029 then "\\u2029".data
  else [c]

/-- A string as `Marshal` writes it. -/
def marshalString (s : String) : List Char :=
  '"' :: (s.data.flatMap escapeChar ++ ['"'])

/-- A `bool` as `Marshal` writes it. -/
def marshalBool (b : Bool) : List Char :=
  if b then "true".data else "false".data

/-- The elements, each followed by a comma but for the last. -/
def joinComma : List (List Char) → List Char
  | [] => []
  | [x] => x
  | x :: y :: rest => x ++ ',' :: joinComma (y :: rest)

/-- A slice as `Marshal` writes it: `null` for the nil slice, else the
elements between brackets. -/
def marshalSlice {α : Type} (elem : α → List Char) : Option (List α) → List Char
  | none => "null".data
  | some xs => '[' :: (joinComma (xs.map elem) ++ [']'])

/-- A `Tag` as `Marshal` writes it. -/
def marshalTag (t : Tag) : List Char :=
  "\x7b\"id\":".data ++ marshalString t.ID ++ ",\"label\":".data ++ marshalString t.Label
    ++ ",\"slug\":".data ++ marshalString t.Slug ++ "\x7d".data

/-- A `Market` as `Marshal` writes it. -/
def marshalMarket (m : Market) : List Char :=
  "\x7b\"id\":".data ++ marshalString m.ID ++ ",\"question\":".data ++ marshalString m.Question
    ++ ",\"clobTokenIds\":".data ++ marshalString m.ClobTokenIds
    ++ ",\"outcomes\":".data ++ marshalString m.Outcomes
    ++ ",\"outcomePrices\":".data ++ marshalString m.OutcomePrices ++ "\x7d".data

/-- An `Event` as `Marshal` writes it. -/
def marshalEvent (e : Event) : List Char :=
  "\x7b\"id\":".data ++ marshalString e.ID ++ ",\"slug\":".data ++ marshalString e.Slug
    ++ ",\"title\":".data ++ marshalString e.Title
    ++ ",\"active\":".data ++ marshalBool e.Active
    ++ ",\"closed\":".data ++ marshalBool e.Closed
    ++ ",\"tags\":".data ++ marshalSlice marshalTag e.Tags
    ++ ",\"markets\":".data ++ marshalSlice marshalMarket e.Markets ++ "\x7d".data

/-- Model of `json.Marshal(events)` for `events []Event`. -/
def MarshalEvents (events : Option (List Event)) : String :=
  String.mk (marshalSlice marshalEvent events)

/-- Model of `json.Marshal(map[string]string{"error": msg})`. -/
def MarshalError (msg : String) : String :=
  String.mk ("\x7b\"error\":".data ++ marshalString msg ++ "\x7d".data)

/-! ### The values `Unmarshal` accepts for a `[]Event` -/

/-- A JSON string or `null`. -/
def stringOrNull : JSON → Bool
  | .null => true
  | .string _ => true
  | _ => false

/-- A JSON boolean or `null`. -/
def boolOrNull : JSON → Bool
  | .null => true
  | .bool _ => true
  | _ => false

/-- `null` or an array whose elements all satisfy `elem`. -/
def sliceAccepted (elem : JSON → Bool) : JSON → Bool
  | .null => true
  | .array vs => vs.all elem
  | _ => false

/-- A member of a `Tag` object: one named like a field holds a string or
`null`, any other is free. -/
def tagMemberAccepted (m : String × JSON) : Bool :=
  if keyMatches m.1 "id" then stringOrNull m.2
  else if keyMatches m.1 "label" then stringOrNull m.2
  else if keyMatches m.1 "slug" then stringOrNull m.2
  else true

/-- `null` or an object whose members are accepted for a `Tag`. -/
def tagAccepted : JSON → Bool
  | .null => true
  | .object members => members.all tagMemberAccepted
  | _ => false

/-- A member of a `Market` object. -/
def marketMemberAccepted (m : String × JSON) : Bool :=
  if keyMatches m.1 "id" then stringOrNull m.2
  else if keyMatches m.1 "question" then stringOrNull m.2
  else if keyMatches m.1 "clobTokenIds" then stringOrNull m.2
  else if keyMatches m.1 "outcomes" then stringOrNull m.2
  else if keyMatches m.1 "outcomePrices" then stringOrNull m.2
  else true

/-- `null` or an object whose members are accepted for a `Market`. -/
def marketAccepted : JSON → Bool
  | .null => true
  | .object members => members.all marketMemberAccepted
  | _ => false

/-- A member of an `Event` object. -/
def eventMemberAccepted (m : String × JSON) : Bool :=
  if keyMatches m.1 "id" then stringOrNull m.2
  else if keyMatches m.1 "slug" then stringOrNull m.2
  else if keyMatches m.1 "title" then stringOrNull m.2
  else if keyMatches m.1 "active" then boolOrNull m.2
  else if keyMatches m.1 "closed" then boolOrNull m.2
  else if keyMatches m.1 "tags" then sliceAccepted tagAccepted m.2
  else if keyMatches m.1 "markets" then sliceAccepted marketAccepted m.2
  else true

/-- `null` or an object whose members are accepted for an `Event`. -/
def eventAccepted : JSON → Bool
  | .null => true
  | .object members => members.all eventMemberAccepted
  | _ => false

/-- The JSON values that can be stored in a `[]Event`: `null`, or an array
whose elements are `null` or objects in which every member named like a field
(up to case) holds a value of the field's JSON type or `null`. -/
def eventsAccepted (v : JSON) : Bool :=
  sliceAccepted eventAccepted v

/-! ### The events an array of Event objects describes -/

/-- An ASCII letter. -/
def asciiLetter (c : Char) : Bool :=
  (decide (65 ≤ c.toNat) && decide (c.toNat ≤ 90))
    || (decide (97 ≤ c.toNat) && decide (c.toNat ≤ 122))

/-- The three characters that are the letter s: `s` (115), `S` (83) and the
long s, U+017F. -/
def isLetterS (c : Char) : Bool :=
  decide (c.toNat = 115) || decide (c.toNat = 83) || decide (c.toNat = 0x17F)

/-- The three characters that are the letter k: `k` (107), `K` (75) and the
Kelvin sign, U+212A. -/
def isLetterK (c : Char) : Bool :=
  decide (c.toNat = 107) || decide (c.toNat = 75) || decide (c.toNat = 0x212A)

/-- Two characters that differ at most in case: they are equal, or the lower
and the upper case of one ASCII letter (32 apart), or both the letter s, or
both the letter k. -/
def sameLetter (a b : Char) : Bool :=
  decide (a = b)
    || (asciiLetter a && asciiLetter b
          && (decide (a.toNat + 32 = b.toNat) || decide (b.toNat + 32 = a.toNat)))
    || (isLetterS a && isLetterS b)
    || (isLetterK a && isLetterK b)

/-- Two texts of the same length with the same letter at every place. -/
def sameLetters : List Char → List Char → Bool
  | [], [] => true
  | k :: ks, n :: ns => sameLetter k n && sameLetters ks ns
  | _, _ => false

/-- A key that is the name of a field up to case. -/
def namedLike (key name : String) : Bool :=
  sameLetters key.data name.data

/-- The value of the first member of an object that is named `name`, up to
case. -/
def member (ms : List (String × JSON)) (name : String) : Option JSON :=
  (ms.find? fun m => namedLike m.1 name).map fun m => m.2

/-- At most one member of the object is named `name`, up to case. -/
def namedOnce (ms : List (String × JSON)) (name : String) : Bool :=
  decide ((ms.filter fun m => namedLike m.1 name).length ≤ 1)

/-- The string a member gives to a field that holds `cur`: its value if it is
a string, `cur` if the member is absent or `null`. -/
def stringField (cur : String) : Option JSON → String
  | some (.string s) => s
  | _ => cur

/-- The boolean a member gives to a field that holds `cur`. -/
def boolField (cur : Bool) : Option JSON → Bool
  | some (.bool b) => b
  | _ => cur

/-- The slice a member gives to a field that holds `cur`: the elements of its
array, nil if it is `null`, `cur` if the member is absent. -/
def sliceField {α : Type} (elem : JSON → α) (cur : Option (List α)) :
    Option JSON → Option (List α)
  | none => cur
  | some (.array vs) => some (vs.map elem)
  | some _ => none

/-- The `Tag` a JSON object describes: each field is the member of its name,
the zero value if there is none. -/
def tagOf : JSON → Tag
  | .object ms =>
    { ID := stringField "" (member ms "id")
      Label := stringField "" (member ms "label")
      Slug := stringField "" (member ms "slug") }
  | _ => zeroTag

/-- The `Market` a JSON object describes. -/
def marketOf : JSON → Market
  | .object ms =>
    { ID := stringField "" (member ms "id")
      Question := stringField "" (member ms "question")
      ClobTokenIds := stringField "" (member ms "clobTokenIds")
      Outcomes := stringField "" (member ms "outcomes")
      OutcomePrices := stringField "" (member ms "outcomePrices") }
  | _ => zeroMarket

/-- The `Event` a JSON object describes. -/
def eventOf : JSON → Event
  | .object ms =>
    { ID := stringField "" (member ms "id")
      Slug := stringField "" (member ms "slug")
      Title := stringField "" (member ms "title")
      Active := boolField false (member ms "active")
      Closed := boolField false (member ms "closed")
      Tags := sliceField tagOf none (member ms "tags")
      Markets := sliceField marketOf none (member ms "markets") }
  | _ => zeroEvent

/-- A member of a Tag object: one named like a field holds a string or
`null`, any other is free. -/
def tagObjectMember (m : String × JSON) : Bool :=
  if namedLike m.1 "id" then stringOrNull m.2
  else if namedLike m.1 "label" then stringOrNull m.2
  else if namedLike m.1 "slug" then stringOrNull m.2
  else true

/-- A Tag object: a JSON object in which every member named like a field holds
a string or `null`, and no field is named twice. -/
def tagObject : JSON → Bool
  | .object ms => ms.all tagObjectMember && ["id", "label", "slug"].all (namedOnce ms)
  | _ => false

/-- A member of a Market object. -/
def marketObjectMember (m : String × JSON) : Bool :=
  if namedLike m.1 "id" then stringOrNull m.2
  else if namedLike m.1 "question" then stringOrNull m.2
  else if namedLike m.1 "clobTokenIds" then stringOrNull m.2
  else if namedLike m.1 "outcomes" then stringOrNull m.2
  else if namedLike m.1 "outcomePrices" then stringOrNull m.2
  else true

/-- A Market object. -/
def marketObject : JSON → Bool
  | .object ms =>
    ms.all marketObjectMember
      && ["id", "question", "clobTokenIds", "outcomes", "outcomePrices"].all (namedOnce ms)
  | _ => false

/-- A member of an Event object: one named like a field holds a value of the
field's JSON type or `null`, the elements of `tags` and `markets` being Tag and
Market objects; any other member is free. -/
def eventObjectMember (m : String × JSON) : Bool :=
  if namedLike m.1 "id" then stringOrNull m.2
  else if namedLike m.1 "slug" then stringOrNull m.2
  else if namedLike m.1 "title" then stringOrNull m.2
  else if namedLike m.1 "active" then boolOrNull m.2
  else if namedLike m.1 "closed" then boolOrNull m.2
  else if namedLike m.1 "tags" then sliceAccepted tagObject m.2
  else if namedLike m.1 "markets" then sliceAccepted marketObject m.2
  else true

/-- An Event object: a JSON object whose members are those of an Event object
and in which no field is named twice. -/
def eventObject : JSON → Bool
  | .object ms =>
    ms.all eventObjectMember
      && ["id", "slug", "title", "active", "closed", "tags", "markets"].all (namedOnce ms)
  | _ => false

/-! ### The JSON values and tokens of the data model -/

/-- The JSON object of a `Tag`: its three members in the order of the fields. -/
def tagJSON (t : Tag) : JSON :=
  .object [("id", .string t.ID), ("label", .string t.Label), ("slug", .string t.Slug)]

/-- The JSON object of a `Market`. -/
def marketJSON (m : Market) : JSON :=
  .object [("id", .string m.ID), ("question", .string m.Question),
    ("clobTokenIds", .string m.ClobTokenIds), ("outcomes", .string m.Outcomes),
    ("outcomePrices", .string m.OutcomePrices)]

/-- The JSON value of a slice: `null` for the nil slice, else the array of its
elements. -/
def sliceJSON {α : Type} (elem : α → JSON) : Option (List α) → JSON
  | none => .null
  | some xs => .array (xs.map elem)

/-- The JSON object of an `Event`. -/
def eventJSON (e : Event) : JSON :=
  .object [("id", .string e.ID), ("slug", .string e.Slug), ("title", .string e.Title),
    ("active", .bool e.Active), ("closed", .bool e.Closed),
    ("tags", sliceJSON tagJSON e.Tags), ("markets", sliceJSON marketJSON e.Markets)]

/-- The JSON value of a `[]Event`. -/
def eventsJSON (events : Option (List Event)) : JSON :=
  sliceJSON eventJSON events

/-- The token of a string. -/
def stringToken (s : String) : Token := .string s.data

/-- Lists of tokens, a comma between each two. -/
def joinTokens : List (List Token) → List Token
  | [] => []
  | [x] => x
  | x :: y :: rest => x ++ Token.comma :: joinTokens (y :: rest)

/-- The tokens of a slice. -/
def sliceTokens {α : Type} (elem : α → List Token) : Option (List α) → List Token
  | none => [.litNull]
  | some xs => .beginArray :: (joinTokens (xs.map elem) ++ [.endArray])

/-- The tokens of the JSON object of a `Tag`. -/
def tagTokens (t : Tag) : List Token :=
  [.beginObject, stringToken "id", .colon, stringToken t.ID, .comma,
   stringToken "label", .colon, stringToken t.Label, .comma,
   stringToken "slug", .colon, stringToken t.Slug, .endObject]

/-- The tokens of the JSON object of a `Market`. -/
def marketTokens (m : Market) : List Token :=
  [.beginObject, stringToken "id", .colon, stringToken m.ID, .comma,
   stringToken "question", .colon, stringToken m.Question, .comma,
   stringToken "clobTokenIds", .colon, stringToken m.ClobTokenIds, .comma,
   stringToken "outcomes", .colon, stringToken m.Outcomes, .comma,
   stringToken "outcomePrices", .colon, stringToken m.OutcomePrices, .endObject]

/-- The token of a `bool`. -/
def boolToken (b : Bool) : Token := if b then .litTrue else .litFalse

/-- The tokens of the JSON object of an `Event`. -/
def eventTokens (e : Event) : List Token :=
  [.beginObject, stringToken "id", .colon, stringToken e.ID, .comma,
   stringToken "slug", .colon, stringToken e.Slug, .comma,
   stringToken "title", .colon, stringToken e.Title, .comma,
   stringToken "active", .colon, boolToken e.Active, .comma,
   stringToken "closed", .colon, boolToken e.Closed, .comma,
   stringToken "tags", .colon] ++ sliceTokens tagTokens e.Tags ++
  [.comma, stringToken "markets", .colon] ++ sliceTokens marketTokens e.Markets ++
  [.endObject]

/-- A list of tokens is read as the value `v` wherever a value may start, as
long as `depth` more frames fit on the stack. -/
def Reads (depth : Nat) (toks : List Token) (v : JSON) : Prop :=
  ∀ (stack : List Frame) (e : Expect), (e = .beginValue ∨ e = .beginValueOrEmpty) →
    stack.length + depth ≤ maxNestingDepth →
    ∀ rest, run (stack, e) (toks ++ rest) = resume (complete v stack) rest

end json


end GoPractice

namespace GoPractice

/-! ## net/http -/

namespace http

/-- Go's `http.MethodGet`. -/
def MethodGet : String := "GET"

/-- Go's `http.StatusOK`. -/
def StatusOK : Int := 200

/-- Go's `http.StatusBadRequest`. -/
def StatusBadRequest : Int := 400

/-- Go's `http.StatusMethodNotAllowed`. -/
def StatusMethodNotAllowed : Int := 405

/-- Go's `http.StatusInternalServerError`. -/
def StatusInternalServerError : Int := 500

/-- What the client code reads of an `*http.Response`: the status code, the
bytes `io.ReadAll(resp.Body)` returns, and the error it returns with them. -/
structure Response where
  StatusCode : Int
  Body : String
  ReadErr : Option String := none
  deriving DecidableEq, Repr

/-- The transport behind `(*http.Client).Get`: for a URL, the response or the
message of the error.  It stands for the network and the upstream service. -/
abbrev Client := String → Except String Response

/-- What the handler reads of an `*http.Request`. -/
structure Request where
  Method : String
  URL : url.URL
  deriving DecidableEq, Repr

/-- Go's `http.Header`, for keys in canonical form, one value a key. -/
abbrev Header := List (String × String)

/-- Model of `Header.Set`. -/
def Header.Set : Header → String → String → Header
  | [], key, value => [(key, value)]
  | (k, v) :: rest, key, value =>
    if k = key then (k, value) :: rest else (k, v) :: Header.Set rest key value

/-- Model of `Header.Get`. -/
def Header.Get : Header → String → String
  | [], _ => ""
  | (k, v) :: rest, key => if k = key then v else Header.Get rest key

/-- The state behind an `http.ResponseWriter`: the header map, whether the
status line has been written, the status and the headers sent with it, the
body written so far, and the error every `Write` returns when the connection
is broken. -/
structure ResponseWriter where
  header : Header := []
  wroteHeader : Bool := false
  status : Int := 0
  sentHeader : Header := []
  body : String := ""
  writeErr : Option String := none
  deriving DecidableEq, Repr

/-- `w.Header().Set(key, value)`. -/
def ResponseWriter.SetHeader (w : ResponseWriter) (key value : String) : ResponseWriter :=
  { w with header := w.header.Set key value }

/-- Model of `ResponseWriter.WriteHeader`: the first call fixes the status and
the headers sent; a later call is ignored. -/
def ResponseWriter.WriteHeader (w : ResponseWriter) (code : Int) : ResponseWriter :=
  if w.wroteHeader then w
  else { w with wroteHeader := true, status := code, sentHeader := w.header }

/-- Model of `ResponseWriter.Write`: it first sends the status 200 when none
was written, then appends the data, or returns the connection's error. -/
def ResponseWriter.Write (w : ResponseWriter) (data : String) :
    ResponseWriter × Option String :=
  let w := w.WriteHeader StatusOK
  match w.writeErr with
  | some e => (w, some e)
  | none => ({ w with body := w.body ++ data }, none)

end http

namespace json

/-- Model of `json.NewEncoder(w).Encode(v)` for a value whose `Marshal` text is
`text`: the text and a line feed are written in one `Write`. -/
def Encode (w : http.ResponseWriter) (text : String) : http.ResponseWriter × Option String :=
  w.Write (text ++ "\n")

end json

/-! ## polymarket/client.go -/

namespace polymarket

/-- Go's `GammaAPIBaseURL`. -/
def GammaAPIBaseURL : String := "https://gamma-api.polymarket.com"

/-- Go's `Client`. -/
structure Client where
  BaseURL : String
  HTTPClient : http.Client

/-- Go's `NewClient`; the transport of the `&http.Client{}` it builds is a
parameter here. -/
def NewClient (transport : http.Client) : Client :=
  { BaseURL := GammaAPIBaseURL, HTTPClient := transport }

/-- What a call of `FetchActiveEvents` returns (`events`, `err`) and the
outbound calls it made: the URLs `c.HTTPClient.Get` was called with, one for
each call. -/
structure FetchResult where
  events : Option (List Event)
  err : Option String
  requests : List String
  deriving DecidableEq, Repr

/-- The query `FetchActiveEvents` builds: `active` and `closed` are set, and
`limit` when the options are not nil and their limit is positive. -/
def buildQuery (q : url.Values) (options : Option FetchActiveEventsOptions) : url.Values :=
  let q := q.Set "active" "true"
  let q := q.Set "closed" "false"
  match options with
  | some o => if o.Limit > 0 then q.Set "limit" (strconv.FormatInt o.Limit) else q
  | none => q

/-- The second half of `FetchActiveEvents`, from "Check status code" on: what
is returned for the outcome `got` of `c.HTTPClient.Get(target)`. -/
def readResponse (target : String) (got : Except String http.Response) : FetchResult :=
  match got with
  | .error err => ⟨none, some ("failed to make request: " ++ err), [target]⟩
  | .ok resp =>
    if resp.StatusCode ≠ http.StatusOK then
      ⟨none, some ("API returned status " ++ strconv.FormatInt resp.StatusCode ++ ": "
        ++ resp.Body), [target]⟩
    else
      match resp.ReadErr with
      | some err => ⟨none, some ("failed to read response body: " ++ err), [target]⟩
      | none =>
        match json.Unmarshal resp.Body with
        | .error err => ⟨none, some ("failed to unmarshal JSON: " ++ err), [target]⟩
        | .ok events => ⟨events, none, [target]⟩

/-- Go's `(*Client).FetchActiveEvents`: the URL is built, requested with
`c.HTTPClient.Get`, and the response is read by `readResponse`. -/
def Client.FetchActiveEvents (c : Client) (options : Option FetchActiveEventsOptions) :
    FetchResult :=
  match url.Parse (c.BaseURL ++ "/events") with
  | .error err => ⟨none, some ("failed to parse base URL: " ++ err), []⟩
  | .ok u =>
    let q := buildQuery u.Query options
    let u := { u with RawQuery := q.Encode }
    readResponse u.String (c.HTTPClient u.String)

/-- The `limit` parameter as the specification states it: `&limit=<N>` in
decimal for a positive limit, nothing for nil options or a limit that is zero
or negative. -/
def limitParam (options : Option FetchActiveEventsOptions) : String :=
  match options with
  | some o => if 0 < o.Limit then "&limit=" ++ strconv.FormatInt o.Limit else ""
  | none => ""

/-- The URL `<GammaAPIBaseURL>/events` with the raw query `rawQuery`, as
`net/url` holds it. -/
def eventsURL (rawQuery : String) : url.URL :=
  { Scheme := "https", Host := "gamma-api.polymarket.com", Path := "/events",
    RawQuery := rawQuery }

/-- The URL requested for the default base URL, as the specification states
it. -/
def requestURL (options : Option FetchActiveEventsOptions) : String :=
  "https://gamma-api.polymarket.com/events?active=true&closed=false" ++ limitParam options

end polymarket

/-! ## main.go -/

/-- What one call of a handler leaves behind: the response writer, the lines
it logged, and the outbound calls made (the URLs `HTTPClient.Get` was called
with). -/
structure Outcome where
  w : http.ResponseWriter
  log : List String := []
  requests : List String := []
  deriving DecidableEq, Repr

/-- Go's `handleRoot`. -/
def handleRoot (w : http.ResponseWriter) (_r : http.Request) : Outcome :=
  let w := w.SetHeader "Content-Type" "text/plain"
  { w := (w.Write "Hello, World! Welcome to the Go HTTP server.").1 }

/-- Go's `handleHealth`. -/
def handleHealth (w : http.ResponseWriter) (_r : http.Request) : Outcome :=
  let w := w.SetHeader "Content-Type" "application/json"
  { w := (w.Write "\x7b\"status\":\"ok\"\x7d").1 }

/-- The response writer a handler is given: nothing set, nothing written, the
connection working. -/
def freshWriter : http.ResponseWriter := {}

/-- The response writer after one reply with the status `code`, the header
`Content-Type: contentType` and the body `body`. -/
def replied (code : Int) (contentType body : String) : http.ResponseWriter :=
  { header := [("Content-Type", contentType)], wroteHeader := true, status := code,
    sentHeader := [("Content-Type", contentType)], body := body }

/-- The value of the `limit` query parameter as the handler reads it:
`r.URL.Query().Get("limit")`. -/
def limitOf (r : http.Request) : String :=
  r.URL.Query.Get "limit"

/-- A value that stands for itself in a raw query: it has no `&`, `;`, `%` or
`+`. -/
def plainValue (v : String) : Bool :=
  !(v.data.contains '&' || v.data.contains ';' || v.data.contains '%' || v.data.contains '+')

/-- The limits the handler passes on: no value, or an integer string that
denotes a number from 0 to 2^63 - 1. -/
def limitAccepted (s : String) : Prop :=
  s = "" ∨ (isIntegerString s = true ∧ 0 ≤ integerValue s ∧ integerValue s < 9223372036854775808)

/-- The limit the handler passes on for the text `s`: 0 for no value. -/
def parsedLimit (s : String) : Int :=
  if s = "" then 0 else integerValue s

/-- A request to `/api/events` with the given method and raw query. -/
def eventsRequest (method rawQuery : String) : http.Request :=
  { Method := method, URL := { Path := "/api/events", RawQuery := rawQuery } }

/-- An upstream that answers every request with `resp`. -/
def upstream (resp : http.Response) : http.Client :=
  fun _ => .ok resp

/-- An example of an upstream body: an array of one event with one tag and one
market. Its objects have their members in an order of their own, keys in a
case of their own, members the data model does not have, white space between
the tokens, and a title written with escapes. -/
def exampleBody : String :=
  "[ \x7b\"Title\":\"T\\ud83d\\ude00\\u00e9\\/\",\"ID\":\"1\",\"volume\":12.5,\"slug\":\"s\",\n" ++
  "\"ACTIVE\":true, \"closed\" : false,\"negRisk\":\x7b\"id\":[\"x\"]\x7d," ++
  "\"Markets\":[\x7b\"question\":\"Q?\",\"id\":\"m\"," ++
  "\"outcomes\":\"[\\\"Yes\\\",\\\"No\\\"]\"," ++
  "\"OutcomePrices\":\"[\\\"0.5\\\",\\\"0.5\\\"]\"," ++
  "\"clobtokenids\":\"[\\\"1\\\",\\\"2\\\"]\",\"liquidity\":null\x7d]," ++
  "\"tags\":[\x7b\"LABEL\":\"L\",\"id\":\"t\",\"Slug\":\"l\",\"forceShow\":false\x7d]\x7d ]"

/-- The elements of the array `exampleBody` is the text of. -/
def exampleArray : List json.JSON :=
  [.object [("Title", .string "T😀é/"), ("ID", .string "1"), ("volume", .number "12.5"),
    ("slug", .string "s"), ("ACTIVE", .bool true), ("closed", .bool false),
    ("negRisk", .object [("id", .array [.string "x"])]),
    ("Markets", .array [.object [("question", .string "Q?"), ("id", .string "m"),
      ("outcomes", .string "[\"Yes\",\"No\"]"), ("OutcomePrices", .string "[\"0.5\",\"0.5\"]"),
      ("clobtokenids", .string "[\"1\",\"2\"]"), ("liquidity", .null)]]),
    ("tags", .array [.object [("LABEL", .string "L"), ("id", .string "t"),
      ("Slug", .string "l"), ("forceShow", .bool false)]])]]

/-- The events `exampleBody` describes. -/
def exampleEvents : List polymarket.Event :=
  [⟨"1", "s", "T😀é/", true, false, some [⟨"t", "L", "l"⟩],
    some [⟨"m", "Q?", "[\"1\",\"2\"]", "[\"Yes\",\"No\"]", "[\"0.5\",\"0.5\"]"⟩]⟩]

/-- The three lines every error reply of `handleEvents` consists of: the
content type, the status, and the JSON object `{"error": msg}`. -/
def writeError (w : http.ResponseWriter) (code : Int) (msg : String) : http.ResponseWriter :=
  let w := w.SetHeader "Content-Type" "application/json"
  let w := w.WriteHeader code
  (json.Encode w (json.MarshalError msg)).1

/-- The second half of `handleEvents`, from "Create client and fetch events"
on, for the parsed `limit`; `transport` is the network the client it
constructs talks to. -/
def respondEvents (transport : http.Client) (w : http.ResponseWriter) (limit : Int) :
    Outcome :=
  let client := polymarket.NewClient transport
  let options : polymarket.FetchActiveEventsOptions := { Limit := limit }
  let res := client.FetchActiveEvents (some options)
  match res.err with
  | some err =>
    { w := writeError w http.StatusInternalServerError ("Failed to fetch events: " ++ err),
      log := ["Error fetching events: " ++ err],
      requests := res.requests }
  | none =>
    let w := w.SetHeader "Content-Type" "application/json"
    match json.Encode w (json.MarshalEvents res.events) with
    | (w, some err) =>
      { w := w.WriteHeader http.StatusInternalServerError,
        log := ["Error encoding response: " ++ err],
        requests := res.requests }
    | (w, none) => { w := w, requests := res.requests }

/-- Go's `handleEvents`: the method check, the parsing of the `limit` query
parameter, and then `respondEvents`. -/
def handleEvents (transport : http.Client) (w : http.ResponseWriter) (r : http.Request) :
    Outcome :=
  if r.Method ≠ http.MethodGet then
    { w := writeError w http.StatusMethodNotAllowed "Method not allowed" }
  else
    let limitStr := r.URL.Query.Get "limit"
    if limitStr ≠ "" then
      match strconv.Atoi limitStr with
      | .error _ => { w := writeError w http.StatusBadRequest "Invalid limit parameter" }
      | .ok limit =>
        if limit < 0 then
          { w := writeError w http.StatusBadRequest "Invalid limit parameter" }
        else respondEvents transport w limit
    else respondEvents transport w 0

end GoPractice

namespace GoPractice

/-! ## strconv.Atoi computes the decimal value -/

section AtoiLemmas

open strconv

theorem wrapInt64_eq_self (i : Int) (h1 : -9223372036854775808 ≤ i)
    (h2 : i < 9223372036854775808) : wrapInt64 i = i := by
  unfold wrapInt64
  norm_num
  omega

theorem wrapInt64_neg_wrapInt64 (n : Nat) (h : n ≤ 9223372036854775808) :
    wrapInt64 (-(wrapInt64 (n : Int))) = -(n : Int) := by
  unfold wrapInt64
  norm_num
  omega

theorem isDigit_sub_le (c : Char) (h : isDigit c = true) : c.toNat - 48 ≤ 9 := by
  simp only [isDigit, Bool.and_eq_true, decide_eq_true_eq] at h
  omega

theorem digitsFold_ge (ds : List Char) (acc : Nat) :
    acc ≤ ds.foldl (fun acc c => 10 * acc + (c.toNat - 48)) acc := by
  induction ds generalizing acc with
  | nil => simp
  | cons c cs ih =>
    simp only [List.foldl_cons]
    exact le_trans (by omega) (ih _)

theorem digitsFold_lt_pow (ds : List Char) (acc : Nat) (h : ds.all isDigit = true) :
    ds.foldl (fun acc c => 10 * acc + (c.toNat - 48)) acc < (acc + 1) * 10 ^ ds.length := by
  induction ds generalizing acc with
  | nil => simp
  | cons c cs ih =>
    simp only [List.all_cons, Bool.and_eq_true] at h
    have hc := isDigit_sub_le c h.1
    simp only [List.foldl_cons, List.length_cons]
    refine lt_of_lt_of_le (ih _ h.2) ?_
    rw [pow_succ, mul_comm (10 ^ cs.length) 10, ← mul_assoc]
    exact Nat.mul_le_mul_right _ (by omega)

theorem digitsValue_lt_pow (ds : List Char) (h : ds.all isDigit = true) :
    digitsValue ds < 10 ^ ds.length := by
  have := digitsFold_lt_pow ds 0 h
  simpa [digitsValue] using this

theorem atoiFastLoop_digits (ds : List Char) (n : Nat) (h : ds.all isDigit = true)
    (hb : ds.foldl (fun acc c => 10 * acc + (c.toNat - 48)) n < 9223372036854775808) :
    atoiFastLoop ds (n : Int)
      = some ((ds.foldl (fun acc c => 10 * acc + (c.toNat - 48)) n : Nat) : Int) := by
  induction ds generalizing n with
  | nil => simp [atoiFastLoop]
  | cons c cs ih =>
    simp only [List.all_cons, Bool.and_eq_true] at h
    simp only [List.foldl_cons] at hb ⊢
    have hge := digitsFold_ge cs (10 * n + (c.toNat - 48))
    have hw : wrapInt64 ((n : Int) * 10 + ((c.toNat - 48 : Nat) : Int))
        = ((10 * n + (c.toNat - 48) : Nat) : Int) := by
      rw [wrapInt64_eq_self] <;> push_cast <;> omega
    simp only [atoiFastLoop, h.1, if_true, hw]
    exact ih _ h.2 hb

theorem atoiFastLoop_not_digits (ds : List Char) (n : Int) (h : ds.all isDigit = false) :
    atoiFastLoop ds n = none := by
  induction ds generalizing n with
  | nil => simp at h
  | cons c cs ih =>
    by_cases hc : isDigit c = true
    · simp only [List.all_cons, hc, Bool.true_and] at h
      simp only [atoiFastLoop, hc, if_true]
      exact ih _ h
    · simp [atoiFastLoop, hc]

theorem parseUintLoop_digits (ds : List Char) (n : Nat) (h : ds.all isDigit = true)
    (hn : n < 18446744073709551616) :
    parseUintLoop ds n
      = if ds.foldl (fun acc c => 10 * acc + (c.toNat - 48)) n < 18446744073709551616
        then .ok (ds.foldl (fun acc c => 10 * acc + (c.toNat - 48)) n)
        else .error .ErrRange := by
  induction ds generalizing n with
  | nil => simp [parseUintLoop, hn]
  | cons c cs ih =>
    simp only [List.all_cons, Bool.and_eq_true] at h
    have hc := isDigit_sub_le c h.1
    have hge := digitsFold_ge cs (10 * n + (c.toNat - 48))
    simp only [List.foldl_cons]
    simp only [parseUintLoop, h.1, if_true]
    norm_num
    by_cases h1 : 1844674407370955162 ≤ n
    · rw [if_pos h1, if_neg (by omega)]
    · rw [if_neg h1]
      have e10 : n * 10 % 18446744073709551616 = n * 10 := Nat.mod_eq_of_lt (by omega)
      rw [e10]
      by_cases h2 : n * 10 + (c.toNat - 48) < 18446744073709551616
      · have e1 : (n * 10 + (c.toNat - 48)) % 18446744073709551616 = n * 10 + (c.toNat - 48) :=
          Nat.mod_eq_of_lt h2
        rw [e1, if_neg (by omega)]
        have := ih (n * 10 + (c.toNat - 48)) h.2 h2
        rw [this]
        have e : n * 10 + (c.toNat - 48) = 10 * n + (c.toNat - 48) := by omega
        rw [e]
      · rw [if_pos (by omega), if_neg (by omega)]

theorem parseUintLoop_not_digits (ds : List Char) (n : Nat) (h : ds.all isDigit = false) :
    ∃ e, parseUintLoop ds n = .error e := by
  induction ds generalizing n with
  | nil => simp at h
  | cons c cs ih =>
    by_cases hc : isDigit c = true
    · simp only [List.all_cons, hc, Bool.true_and] at h
      simp only [parseUintLoop, hc, if_true]
      split
      · exact ⟨_, rfl⟩
      · split
        · exact ⟨_, rfl⟩
        · exact ih _ h
    · exact ⟨.ErrSyntax, by simp [parseUintLoop, hc]⟩

theorem ParseUint_digits (ds : List Char) (h : isDigitString ds = true) :
    ParseUint ds = if digitsValue ds < 18446744073709551616 then .ok (digitsValue ds)
      else .error .ErrRange := by
  simp only [isDigitString, Bool.and_eq_true, Bool.not_eq_true', List.isEmpty_eq_false] at h
  obtain ⟨hne, hall⟩ := h
  cases ds with
  | nil => exact absurd rfl hne
  | cons c cs =>
    simp only [ParseUint]
    exact parseUintLoop_digits (c :: cs) 0 hall (by norm_num)

theorem ParseUint_not_digits (ds : List Char) (h : isDigitString ds = false) :
    ∃ e, ParseUint ds = .error e := by
  cases ds with
  | nil => exact ⟨.ErrSyntax, rfl⟩
  | cons c cs =>
    simp only [isDigitString, List.isEmpty_cons, Bool.not_false, Bool.true_and] at h
    simp only [ParseUint]
    exact parseUintLoop_not_digits (c :: cs) 0 h

/-- The digits of an integer string: what follows its sign. -/
theorem integerString_cases (c : Char) :
    (c = '+' ∨ c = '-') ∨ (c ≠ '+' ∧ c ≠ '-') := by
  by_cases h1 : c = '+'
  · exact Or.inl (Or.inl h1)
  · by_cases h2 : c = '-'
    · exact Or.inl (Or.inr h2)
    · exact Or.inr ⟨h1, h2⟩

theorem ParseInt_integerString (s : String) (h : isIntegerString s = true) :
    ParseInt s.data
      = if -9223372036854775808 ≤ integerValue s ∧ integerValue s < 9223372036854775808
        then .ok (integerValue s) else .error .ErrRange := by
  rcases s with ⟨l⟩
  cases l with
  | nil => simp [isIntegerString] at h
  | cons c rest =>
    simp only [isIntegerString] at h
    simp only [ParseInt, integerValue]
    rcases integerString_cases c with hs | ⟨hp, hm⟩
    · rw [if_pos hs] at h
      rw [if_pos hs, ParseUint_digits rest h]
      rcases hs with hs | hs
      · subst hs
        simp only [show ('+' : Char) ≠ '-' by decide, if_false, decide_False, Bool.not_false,
          Bool.true_and, Bool.false_and, if_true, decide_eq_true_eq, reduceCtorEq]
        by_cases hb : digitsValue rest < 9223372036854775808
        · rw [if_pos (by omega)]
          simp only [ge_iff_le, Bool.false_eq_true, if_false]
          rw [if_neg (by omega), if_pos (by constructor <;> omega)]
          rw [wrapInt64_eq_self _ (by omega) (by omega)]
        · by_cases hb2 : digitsValue rest < 18446744073709551616
          · rw [if_pos hb2]
            simp only [ge_iff_le]
            rw [if_pos (by omega), if_neg (by omega)]
          · rw [if_neg hb2, if_neg (by omega)]
      · subst hs
        simp only [if_true, decide_True, Bool.not_true, Bool.false_and, Bool.true_and,
          decide_eq_true_eq, Bool.false_eq_true, if_false]
        by_cases hb : digitsValue rest ≤ 9223372036854775808
        · rw [if_pos (by omega)]
          simp only [gt_iff_lt]
          rw [if_neg (by omega), if_pos (by constructor <;> omega)]
          rw [wrapInt64_neg_wrapInt64 _ hb]
        · by_cases hb2 : digitsValue rest < 18446744073709551616
          · rw [if_pos hb2]
            simp only [gt_iff_lt]
            rw [if_pos (by omega), if_neg (by omega)]
          · rw [if_neg hb2, if_neg (by omega)]
    · have hs : ¬(c = '+' ∨ c = '-') := by tauto
      rw [if_neg hs] at h
      rw [if_neg hs, ParseUint_digits (c :: rest) h]
      simp only [hm, hp, if_false, decide_False, Bool.not_false, Bool.true_and, Bool.false_and,
        decide_eq_true_eq]
      by_cases hb : digitsValue (c :: rest) < 9223372036854775808
      · rw [if_pos (by omega)]
        simp only [ge_iff_le, Bool.false_eq_true, if_false]
        rw [if_neg (by omega), if_pos (by constructor <;> omega)]
        rw [wrapInt64_eq_self _ (by omega) (by omega)]
      · by_cases hb2 : digitsValue (c :: rest) < 18446744073709551616
        · rw [if_pos hb2]
          simp only [ge_iff_le]
          rw [if_pos (by omega), if_neg (by omega)]
        · rw [if_neg hb2, if_neg (by omega)]

theorem ParseInt_not_integerString (s : String) (h : isIntegerString s = false) :
    ∃ e, ParseInt s.data = .error e := by
  rcases s with ⟨l⟩
  cases l with
  | nil => exact ⟨.ErrSyntax, rfl⟩
  | cons c rest =>
    simp only [isIntegerString] at h
    simp only [ParseInt]
    rcases integerString_cases c with hs | ⟨hp, hm⟩
    · rw [if_pos hs] at h
      rw [if_pos hs]
      obtain ⟨e, he⟩ := ParseUint_not_digits rest h
      exact ⟨e, by rw [he]⟩
    · have hs : ¬(c = '+' ∨ c = '-') := by tauto
      rw [if_neg hs] at h
      rw [if_neg hs]
      obtain ⟨e, he⟩ := ParseUint_not_digits (c :: rest) h
      exact ⟨e, by rw [he]⟩

theorem atoiFast_digitString (ds : List Char) (h : isDigitString ds = true)
    (hlen : ds.length < 19) :
    digitsValue ds < 9223372036854775808 ∧ 1 ≤ ds.length ∧
      atoiFastLoop ds 0 = some (digitsValue ds : Int) := by
  simp only [isDigitString, Bool.and_eq_true, Bool.not_eq_true', List.isEmpty_eq_false] at h
  obtain ⟨hne, hall⟩ := h
  have hlt := digitsValue_lt_pow ds hall
  have hpow : 10 ^ ds.length ≤ 10 ^ 18 := Nat.pow_le_pow_right (by norm_num) (by omega)
  have hb : digitsValue ds < 9223372036854775808 := by
    have : (10 : Nat) ^ 18 < 9223372036854775808 := by norm_num
    omega
  refine ⟨hb, ?_, ?_⟩
  · cases ds with
    | nil => exact absurd rfl hne
    | cons c cs => simp
  · have := atoiFastLoop_digits ds 0 hall hb
    simpa [digitsValue] using this

theorem atoiFast_not_digitString (ds : List Char) (h : isDigitString ds = false)
    (hlen : ¬ ds.length < 1) : atoiFastLoop ds 0 = none := by
  cases ds with
  | nil => simp at hlen
  | cons c cs =>
    simp only [isDigitString, List.isEmpty_cons, Bool.not_false, Bool.true_and] at h
    exact atoiFastLoop_not_digits _ _ h

theorem Atoi_integerString (s : String) (h : isIntegerString s = true) :
    Atoi s
      = if -9223372036854775808 ≤ integerValue s ∧ integerValue s < 9223372036854775808
        then .ok (integerValue s) else .error .ErrRange := by
  unfold Atoi
  by_cases hfast : 0 < s.data.length ∧ s.data.length < 19
  · simp only [hfast, and_self, if_true]
    rcases s with ⟨l⟩
    cases l with
    | nil => simp [isIntegerString] at h
    | cons c rest =>
      simp only [isIntegerString] at h
      simp only [integerValue]
      simp only [List.length_cons] at hfast
      rcases integerString_cases c with hs | ⟨hp, hm⟩
      · rw [if_pos hs] at h
        obtain ⟨hb, hl, hv⟩ := atoiFast_digitString rest h (by omega)
        have hl' : ¬ rest.length < 1 := by omega
        rcases hs with hs | hs
        · subst hs
          simp only [show ('+' : Char) ≠ '-' by decide, if_false, if_true, or_true, hl', hv]
          rw [if_pos (by constructor <;> omega)]
        · subst hs
          simp only [if_true, true_or, hl', if_false, hv]
          rw [if_pos (by constructor <;> omega), wrapInt64_eq_self _ (by omega) (by omega)]
      · have hs' : ¬(c = '+' ∨ c = '-') := by tauto
        rw [if_neg hs'] at h
        obtain ⟨hb, hl, hv⟩ := atoiFast_digitString (c :: rest) h (by simp; omega)
        have hl' : ¬ (c :: rest).length < 1 := by simp
        simp only [hm, hp, or_self, if_false, hl', hv]
        rw [if_pos (by constructor <;> omega)]
  · rw [if_neg hfast]
    exact ParseInt_integerString s h

theorem Atoi_not_integerString (s : String) (h : isIntegerString s = false) :
    ∃ e, Atoi s = .error e := by
  unfold Atoi
  by_cases hfast : 0 < s.data.length ∧ s.data.length < 19
  · simp only [hfast, and_self, if_true]
    rcases s with ⟨l⟩
    cases l with
    | nil => exact ⟨.ErrSyntax, rfl⟩
    | cons c rest =>
      simp only [isIntegerString] at h
      rcases integerString_cases c with hs | ⟨hp, hm⟩
      · rw [if_pos hs] at h
        simp only [show (c = '-' ∨ c = '+') by tauto, if_true]
        by_cases hl : rest.length < 1
        · exact ⟨.ErrSyntax, by rw [if_pos hl]⟩
        · rw [if_neg hl, atoiFast_not_digitString rest h hl]
          exact ⟨.ErrSyntax, rfl⟩
      · have hs : ¬(c = '+' ∨ c = '-') := by tauto
        rw [if_neg hs] at h
        simp only [show ¬(c = '-' ∨ c = '+') by tauto, if_false]
        rw [if_neg (by simp), atoiFast_not_digitString (c :: rest) h (by simp)]
        exact ⟨.ErrSyntax, rfl⟩
  · rw [if_neg hfast]
    exact ParseInt_not_integerString s h

/-- `strconv.Atoi` returns `n` without an error exactly for the integer
strings that denote `n`, for `n` in the range of a 64-bit `int`. -/
theorem Atoi_eq_ok_iff (s : String) (n : Int) :
    Atoi s = .ok n ↔ isIntegerString s = true ∧ integerValue s = n
      ∧ -9223372036854775808 ≤ n ∧ n < 9223372036854775808 := by
  by_cases h : isIntegerString s = true
  · rw [Atoi_integerString s h]
    by_cases hr : -9223372036854775808 ≤ integerValue s ∧ integerValue s < 9223372036854775808
    · rw [if_pos hr]
      constructor
      · intro e
        have e' : integerValue s = n := by injection e
        exact ⟨h, e', e' ▸ hr.1, e' ▸ hr.2⟩
      · rintro ⟨_, e, _⟩
        rw [e]
    · rw [if_neg hr]
      constructor
      · intro e
        cases e
      · rintro ⟨_, e, h1, h2⟩
        exact absurd ⟨e ▸ h1, e ▸ h2⟩ hr
  · have h' : isIntegerString s = false := by simpa using h
    obtain ⟨e, he⟩ := Atoi_not_integerString s h'
    rw [he]
    constructor
    · intro e
      cases e
    · rintro ⟨h1, _⟩
      exact absurd h1 h

end AtoiLemmas

end GoPractice

namespace GoPractice

/-! ## The query `FetchActiveEvents` builds -/

section QueryLemmas

open url polymarket

theorem Values_Get_Set_same (q : Values) (k v : String) : (q.Set k v).Get k = v := by
  induction q with
  | nil => simp [Values.Set, Values.Get]
  | cons p rest ih =>
    obtain ⟨k0, vs⟩ := p
    simp only [Values.Set]
    by_cases h : k0 = k
    · simp [h, Values.Get]
    · rw [if_neg h]
      by_cases h2 : bytesLt k.data k0.data = true
      · simp [h2, Values.Get]
      · simp [h2, Values.Get, h, ih]

theorem Values_Get_Set_other (q : Values) (k k' v : String) (hne : k' ≠ k) :
    (q.Set k v).Get k' = q.Get k' := by
  induction q with
  | nil => simp [Values.Set, Values.Get, Ne.symm hne]
  | cons p rest ih =>
    obtain ⟨k0, vs⟩ := p
    simp only [Values.Set]
    by_cases h : k0 = k
    · subst h
      simp [Values.Get, Ne.symm hne]
    · rw [if_neg h]
      by_cases h2 : bytesLt k.data k0.data = true
      · simp [h2, Values.Get, Ne.symm hne]
      · simp only [h2, Bool.false_eq_true, if_false, Values.Get, ih]

theorem Values_Has_Set_same (q : Values) (k v : String) : (q.Set k v).Has k = true := by
  induction q with
  | nil => simp [Values.Set, Values.Has]
  | cons p rest ih =>
    obtain ⟨k0, vs⟩ := p
    simp only [Values.Set]
    by_cases h : k0 = k
    · simp [h, Values.Has]
    · rw [if_neg h]
      by_cases h2 : bytesLt k.data k0.data = true
      · simp [h2, Values.Has]
      · simp [h2, Values.Has, ih]

theorem Values_Has_Set_other (q : Values) (k k' v : String) (hne : k' ≠ k) :
    (q.Set k v).Has k' = q.Has k' := by
  induction q with
  | nil => simp [Values.Set, Values.Has, Ne.symm hne]
  | cons p rest ih =>
    obtain ⟨k0, vs⟩ := p
    simp only [Values.Set]
    by_cases h : k0 = k
    · subst h
      simp [Values.Has, Ne.symm hne]
    · rw [if_neg h]
      by_cases h2 : bytesLt k.data k0.data = true
      · simp [h2, Values.Has, Ne.symm hne]
      · simp only [h2, Bool.false_eq_true, if_false, Values.Has, ih]

theorem digitChar_isDigit (d : Nat) (h : d < 10) : strconv.isDigit (strconv.digitChar d) = true := by
  interval_cases d <;> decide

theorem formatLoop_all_digits (fuel n : Nat) (acc : List Char)
    (hacc : acc.all strconv.isDigit = true) :
    (strconv.formatLoop fuel n acc).all strconv.isDigit = true := by
  induction fuel generalizing n acc with
  | zero => simpa [strconv.formatLoop] using hacc
  | succ f ih =>
    simp only [strconv.formatLoop]
    by_cases h : n < 10
    · rw [if_pos h]
      simp only [List.all_cons, Bool.and_eq_true]
      exact ⟨digitChar_isDigit n h, hacc⟩
    · rw [if_neg h]
      apply ih
      simp only [List.all_cons, Bool.and_eq_true]
      exact ⟨digitChar_isDigit _ (Nat.mod_lt _ (by norm_num)), hacc⟩

theorem FormatInt_pos_digits (i : Int) (h : 0 < i) :
    (strconv.FormatInt i).data.all strconv.isDigit = true := by
  unfold strconv.FormatInt
  rw [if_neg (by omega)]
  exact formatLoop_all_digits _ _ [] rfl

theorem isDigit_not_shouldEscape (c : Char) (m : encoding) (h : strconv.isDigit c = true) :
    shouldEscape c m = false := by
  have : isAlnum c = true := by
    simp only [strconv.isDigit, Bool.and_eq_true, decide_eq_true_eq] at h
    simp [isAlnum, h.1, h.2]
  simp [shouldEscape, this]

theorem isDigit_ne_space (c : Char) (h : strconv.isDigit c = true) : c ≠ ' ' := by
  intro e
  subst e
  revert h
  decide

theorem escape_digits (ds : List Char) (m : encoding) (h : ds.all strconv.isDigit = true) :
    escape ds m = ds := by
  induction ds with
  | nil => rfl
  | cons c cs ih =>
    simp only [List.all_cons, Bool.and_eq_true] at h
    have h1 := isDigit_not_shouldEscape c m h.1
    have h2 := isDigit_ne_space c h.1
    have ih' := ih h.2
    simp only [escape] at ih' ⊢
    simp [List.flatMap_cons, h1, h2, ih']

theorem QueryEscape_FormatInt (i : Int) (h : 0 < i) :
    QueryEscape (strconv.FormatInt i) = strconv.FormatInt i := by
  unfold QueryEscape
  rw [escape_digits _ _ (FormatInt_pos_digits i h)]

theorem buildQuery_Get_active (q : Values) (options : Option FetchActiveEventsOptions) :
    (buildQuery q options).Get "active" = "true" := by
  have h : ((q.Set "active" "true").Set "closed" "false").Get "active" = "true" := by
    rw [Values_Get_Set_other _ _ _ _ (by decide), Values_Get_Set_same]
  unfold buildQuery
  cases options with
  | none => exact h
  | some o =>
    simp only
    split
    · rw [Values_Get_Set_other _ _ _ _ (by decide)]
      exact h
    · exact h

theorem buildQuery_Get_closed (q : Values) (options : Option FetchActiveEventsOptions) :
    (buildQuery q options).Get "closed" = "false" := by
  have h : ((q.Set "active" "true").Set "closed" "false").Get "closed" = "false" :=
    Values_Get_Set_same _ _ _
  unfold buildQuery
  cases options with
  | none => exact h
  | some o =>
    simp only
    split
    · rw [Values_Get_Set_other _ _ _ _ (by decide)]
      exact h
    · exact h

theorem buildQuery_Has_limit (q : Values) (options : Option FetchActiveEventsOptions)
    (hq : q.Has "limit" = false) :
    (buildQuery q options).Has "limit" = true ↔ ∃ o, options = some o ∧ 0 < o.Limit := by
  have h : ((q.Set "active" "true").Set "closed" "false").Has "limit" = false := by
    rw [Values_Has_Set_other _ _ _ _ (by decide), Values_Has_Set_other _ _ _ _ (by decide)]
    exact hq
  unfold buildQuery
  cases options with
  | none => simp [h]
  | some o =>
    simp only
    by_cases hl : o.Limit > 0
    · rw [if_pos hl, Values_Has_Set_same]
      exact ⟨fun _ => ⟨o, rfl, hl⟩, fun _ => rfl⟩
    · rw [if_neg hl, h]
      constructor
      · intro e
        cases e
      · rintro ⟨o', e, hl'⟩
        cases e
        exact absurd hl' hl

theorem buildQuery_Get_limit (q : Values) (o : FetchActiveEventsOptions) (hl : 0 < o.Limit) :
    (buildQuery q (some o)).Get "limit" = strconv.FormatInt o.Limit := by
  unfold buildQuery
  simp only
  rw [if_pos hl, Values_Get_Set_same]

theorem buildQuery_nil_Encode (options : Option FetchActiveEventsOptions) :
    (buildQuery [] options).Encode = "active=true&closed=false" ++ limitParam options := by
  have h0 : Values.Set (Values.Set [] "active" "true") "closed" "false"
      = [("active", ["true"]), ("closed", ["false"])] := by decide
  cases options with
  | none => decide
  | some o =>
    simp only [buildQuery, limitParam, h0]
    by_cases hl : o.Limit > 0
    · rw [if_pos hl, if_pos hl]
      have h1 : Values.Set [("active", ["true"]), ("closed", ["false"])] "limit"
          (strconv.FormatInt o.Limit)
          = [("active", ["true"]), ("closed", ["false"]), ("limit", [strconv.FormatInt o.Limit])] := by
        have b1 : bytesLt "limit".data "active".data = false := by decide
        have b2 : bytesLt "limit".data "closed".data = false := by decide
        simp [Values.Set, b1, b2]
      rw [h1]
      simp only [Values.Encode, Values.pairs, List.map_cons, List.map_nil, List.append_nil,
        List.cons_append, List.nil_append, QueryEscape_FormatInt _ hl]
      have e1 : QueryEscape "active" ++ "=" ++ QueryEscape "true" = "active=true" := by decide
      have e2 : QueryEscape "closed" ++ "=" ++ QueryEscape "false" = "closed=false" := by decide
      have e3 : QueryEscape "limit" = "limit" := by decide
      rw [e1, e2, e3]
      apply String.ext
      simp [String.intercalate, String.intercalate.go, String.data_append]
    · rw [if_neg hl, if_neg hl]
      decide

theorem readResponse_requests (target : String) (got : Except String http.Response) :
    (readResponse target got).requests = [target] := by
  unfold readResponse
  split
  · rfl
  · split
    · rfl
    · split
      · rfl
      · split <;> rfl

theorem FetchActiveEvents_of_parse (c : Client) (options : Option FetchActiveEventsOptions)
    (u : URL) (h : url.Parse (c.BaseURL ++ "/events") = .ok u) :
    c.FetchActiveEvents options
      = readResponse ({ u with RawQuery := (buildQuery u.Query options).Encode }).String
          (c.HTTPClient ({ u with RawQuery := (buildQuery u.Query options).Encode }).String) := by
  unfold Client.FetchActiveEvents
  rw [h]

theorem Parse_default : url.Parse (GammaAPIBaseURL ++ "/events") = .ok (eventsURL "") := by
  decide

theorem String_default (q : String) (hq : q ≠ "") :
    (eventsURL q).String = "https://gamma-api.polymarket.com/events?" ++ q := by
  have ha : URL.authorityString (eventsURL q) = "https://gamma-api.polymarket.com".data := rfl
  have hp : URL.EscapedPath (eventsURL q) = "/events".data := rfl
  have ho : (eventsURL q).Opaque = "" := rfl
  have hf : (eventsURL q).Fragment = "" := rfl
  have hr : (eventsURL q).RawQuery = q := rfl
  have hh : (eventsURL q).Host = "gamma-api.polymarket.com" := rfl
  unfold URL.String
  simp only [ha, hp, ho, hf, hr, hh]
  apply String.ext
  simp [hq]

theorem requestURL_eq (options : Option FetchActiveEventsOptions) :
    (eventsURL (buildQuery [] options).Encode).String = requestURL options := by
  rw [buildQuery_nil_Encode, String_default]
  · unfold requestURL
    apply String.ext
    simp [String.data_append]
  · intro e
    have := congrArg String.length e
    simp [String.length_append] at this
    exact absurd this.1 (by decide)

theorem NewClient_FetchActiveEvents (transport : http.Client)
    (options : Option FetchActiveEventsOptions) :
    (NewClient transport).FetchActiveEvents options
      = readResponse (requestURL options) (transport (requestURL options)) := by
  rw [FetchActiveEvents_of_parse _ _ _ Parse_default]
  have hq : URL.Query (eventsURL "") = [] := by decide
  have hu : ∀ q, ({ eventsURL "" with RawQuery := q } : URL) = eventsURL q := fun _ => rfl
  rw [hq, hu, requestURL_eq]
  rfl

end QueryLemmas

end GoPractice

namespace GoPractice

/-! ## The query and the URL as `net/url` reads them -/

section UrlLemmas

open url polymarket

/-- A query with more than `defaultMaxParams` parameters is read as the empty
map. -/
theorem ParseQuery_too_many (q : String) (h : 10000 ≤ q.data.count '&') :
    ParseQuery q = [] := by
  unfold ParseQuery urlParamsWithinMax defaultMaxParams
  rw [if_pos]
  simp only [Bool.not_eq_true', decide_eq_false_iff_not, not_le]
  omega

theorem splitAmp_single (l : List Char) (h : l.contains '&' = false) : splitAmp l = [l] := by
  induction l with
  | nil => rfl
  | cons c rest ih =>
    simp only [List.contains_cons, Bool.or_eq_false_iff, beq_eq_false_iff_ne, ne_eq] at h
    have hc : c ≠ '&' := fun e => h.1 e.symm
    simp only [splitAmp, ih h.2, if_neg hc]

theorem count_eq_zero_of_contains (l : List Char) (c : Char) (h : l.contains c = false) :
    l.count c = 0 := by
  rw [List.count_eq_zero]
  intro hm
  have : l.contains c = true := by simpa using hm
  rw [h] at this
  cases this

theorem unescapeCheck_plain (l : List Char) (h : l.contains '%' = false) :
    unescapeCheck encoding.encodeQueryComponent l = .ok () := by
  induction l with
  | nil => rfl
  | cons c rest ih =>
    simp only [List.contains_cons, Bool.or_eq_false_iff, beq_eq_false_iff_ne, ne_eq] at h
    have hc : c ≠ '%' := fun e => h.1 e.symm
    unfold unescapeCheck
    split
    · rfl
    · rename_i heq
      cases heq
      exact absurd rfl hc
    · rename_i heq
      cases heq
      exact absurd rfl hc
    · rename_i c' rest' _ _ heq
      cases heq
      simp only [reduceCtorEq, or_self, false_and, if_false]
      exact ih h.2

theorem unescapeBuild_plain (l : List Char) (h1 : l.contains '%' = false)
    (h2 : l.contains '+' = false) :
    unescapeBuild encoding.encodeQueryComponent l = l := by
  induction l with
  | nil => rfl
  | cons c rest ih =>
    simp only [List.contains_cons, Bool.or_eq_false_iff, beq_eq_false_iff_ne, ne_eq] at h1 h2
    have hc1 : c ≠ '%' := fun e => h1.1 e.symm
    have hc2 : c ≠ '+' := fun e => h2.1 e.symm
    unfold unescapeBuild
    split
    · rename_i heq
      cases heq
    · rename_i heq
      cases heq
      exact absurd rfl hc1
    · rename_i heq
      cases heq
      exact absurd rfl hc2
    · rename_i heq
      cases heq
      rw [ih h1.2 h2.2]

theorem QueryUnescape_plain (l : List Char) (h1 : l.contains '%' = false)
    (h2 : l.contains '+' = false) : QueryUnescape l = .ok l := by
  unfold QueryUnescape unescape
  rw [unescapeCheck_plain l h1]
  simp only [unescapeBuild_plain l h1 h2]

/-- In the raw query `limit=v`, for a value `v` that stands for itself, the
handler reads the limit `v`. -/
theorem limitOf_plain (method v : String) (h : plainValue v = true) :
    limitOf (eventsRequest method ("limit=" ++ v)) = v := by
  simp only [plainValue, Bool.not_eq_true', Bool.or_eq_false_iff] at h
  obtain ⟨⟨⟨ha, hs⟩, hp⟩, hplus⟩ := h
  have hd : ("limit=" ++ v).data = 'l' :: 'i' :: 'm' :: 'i' :: 't' :: '=' :: v.data := by
    rw [String.data_append]
    rfl
  have hamp : ("limit=" ++ v).data.contains '&' = false := by
    rw [hd]
    simp only [List.contains_cons, ha, Bool.or_false]
    decide
  have hsemi : ("limit=" ++ v).data.contains ';' = false := by
    rw [hd]
    simp only [List.contains_cons, hs, Bool.or_false]
    decide
  have hcut : cut '=' ("limit=" ++ v).data = ("limit".data, v.data, true) := by
    rw [hd]
    rfl
  have hk : QueryUnescape "limit".data = .ok "limit".data := by decide
  have hv : QueryUnescape v.data = .ok v.data := QueryUnescape_plain _ hp hplus
  have hne : ("limit=" ++ v).data ≠ [] := by
    rw [hd]
    exact List.cons_ne_nil _ _
  have hq : ParseQuery ("limit=" ++ v) = [("limit", [v])] := by
    unfold ParseQuery urlParamsWithinMax defaultMaxParams
    rw [count_eq_zero_of_contains _ _ hamp, splitAmp_single _ hamp]
    simp only [Nat.zero_add, Nat.one_le_ofNat, decide_True, Bool.not_true, Bool.false_eq_true,
      if_false, List.foldl_cons, List.foldl_nil, parseQueryPair, hsemi, hne, hcut, hk, hv]
    rfl
  show (ParseQuery ("limit=" ++ v)).Get "limit" = v
  rw [hq]
  rfl

theorem cut_not_contains (c : Char) (l : List Char) (h : l.contains c = false) :
    cut c l = (l, [], false) := by
  induction l with
  | nil => rfl
  | cons x rest ih =>
    simp only [List.contains_cons, Bool.or_eq_false_iff, beq_eq_false_iff_ne, ne_eq] at h
    have hx : x ≠ c := fun e => h.1 e.symm
    simp only [cut, if_neg hx, ih h.2]

theorem getSchemeLoop_not_contains (c : Char) (raw : List Char)
    (hraw : raw.contains c = false) (l : List Char) :
    ∀ seen scheme after, l.contains c = false →
      getSchemeLoop raw l seen = .ok (scheme, after) → after.contains c = false := by
  induction l with
  | nil =>
    intro seen scheme after _ h
    simp only [getSchemeLoop, Except.ok.injEq, Prod.mk.injEq] at h
    rw [← h.2]
    exact hraw
  | cons x rest ih =>
    intro seen scheme after hl h
    simp only [List.contains_cons, Bool.or_eq_false_iff] at hl
    unfold getSchemeLoop at h
    split at h
    · exact ih _ _ _ hl.2 h
    · split at h
      · split at h
        · simp only [Except.ok.injEq, Prod.mk.injEq] at h
          rw [← h.2]
          exact hraw
        · exact ih _ _ _ hl.2 h
      · split at h
        · split at h
          · cases h
          · simp only [Except.ok.injEq, Prod.mk.injEq] at h
            rw [← h.2]
            exact hl.2
        · simp only [Except.ok.injEq, Prod.mk.injEq] at h
          rw [← h.2]
          exact hraw

theorem setPath_fields (u u' : URL) (p : List Char) (h : URL.setPath u p = .ok u') :
    u'.RawQuery = u.RawQuery ∧ u'.ForceQuery = u.ForceQuery ∧ u'.Fragment = u.Fragment := by
  unfold URL.setPath at h
  split at h
  · cases h
  · simp only [Except.ok.injEq] at h
    rw [← h]
    exact ⟨rfl, rfl, rfl⟩

/-- A URL without a `?` is read without a query. -/
theorem parse_no_query (s : List Char) (hs : s.contains '?' = false) (u : URL)
    (h : parse s = .ok u) :
    u.RawQuery = "" ∧ u.ForceQuery = false ∧ u.Fragment = "" := by
  unfold parse at h
  split at h
  · cases h
  · split at h
    · simp only [Except.ok.injEq] at h
      rw [← h]
      exact ⟨rfl, rfl, rfl⟩
    · split at h
      · cases h
      · rename_i scheme after hg
        have ha : after.contains '?' = false :=
          getSchemeLoop_not_contains '?' s hs s [] scheme after hs hg
        have hforce : ¬(after.getLast? = some '?' ∧ after.count '?' = 1) := by
          rw [count_eq_zero_of_contains _ _ ha]
          exact fun h => absurd h.2 (by decide)
        have hcut := cut_not_contains '?' after ha
        simp only [hforce, if_false, hcut, decide_False] at h
        split at h
        · simp only [Except.ok.injEq] at h
          rw [← h]
          exact ⟨rfl, rfl, rfl⟩
        · split at h
          · cases h
          · split at h
            · split at h
              · cases h
              · exact setPath_fields _ _ _ h
            · split at h
              · exact setPath_fields _ _ _ h
              · exact setPath_fields _ _ _ h

/-- A URL without `?` and `#` is read without a query and a fragment. -/
theorem Parse_no_query (s : String) (hq : s.data.contains '?' = false)
    (hf : s.data.contains '#' = false) (u : URL) (h : url.Parse s = .ok u) :
    u.RawQuery = "" ∧ u.ForceQuery = false ∧ u.Fragment = "" := by
  unfold url.Parse at h
  rw [cut_not_contains '#' _ hf] at h
  simp only at h
  split at h
  · cases h
  · rename_i u0 hp
    simp only [if_true, Except.ok.injEq] at h
    rw [← h]
    exact parse_no_query _ hq u0 hp

/-- Setting the query of a URL that has no query and no fragment writes it
after the URL and a `?`. -/
theorem String_with_query (u : URL) (h1 : u.RawQuery = "") (h2 : u.ForceQuery = false)
    (h3 : u.Fragment = "") (q : String) (hq : q ≠ "") :
    ({ u with RawQuery := q } : URL).String = u.String ++ "?" ++ q := by
  cases u
  simp only at h1 h2 h3
  subst h1 h2 h3
  apply String.ext
  simp only [URL.String, URL.authorityString, URL.EscapedPath, ne_eq, hq, not_false_eq_true,
    or_true, if_true, not_true_eq_false, Bool.false_eq_true, or_self, if_false,
    List.append_nil, String.data_append, List.append_assoc]
  congr 1

theorem digitChar_toNat (d : Nat) (h : d < 10) : (strconv.digitChar d).toNat - 48 = d := by
  interval_cases d <;> decide

theorem digitsValue_append_one (ds : List Char) (d : Char) :
    digitsValue (ds ++ [d]) = 10 * digitsValue ds + (d.toNat - 48) := by
  simp only [digitsValue, List.foldl_append, List.foldl_cons, List.foldl_nil]

theorem formatLoop_value (fuel : Nat) :
    ∀ (n : Nat) (acc : List Char), n < fuel →
      ∃ ds, strconv.formatLoop fuel n acc = ds ++ acc ∧ ds ≠ []
        ∧ ds.all strconv.isDigit = true ∧ digitsValue ds = n := by
  induction fuel with
  | zero => intro n acc h; omega
  | succ f ih =>
    intro n acc h
    simp only [strconv.formatLoop]
    by_cases h10 : n < 10
    · rw [if_pos h10]
      refine ⟨[strconv.digitChar n], rfl, List.cons_ne_nil _ _, ?_, ?_⟩
      · simp only [List.all_cons, List.all_nil, Bool.and_true]
        exact digitChar_isDigit n h10
      · simp only [digitsValue, List.foldl_cons, List.foldl_nil, Nat.mul_zero, Nat.zero_add]
        exact digitChar_toNat n h10
    · rw [if_neg h10]
      obtain ⟨ds, h1, _, h3, h4⟩ := ih (n / 10) (strconv.digitChar (n % 10) :: acc) (by omega)
      have hm : n % 10 < 10 := Nat.mod_lt _ (by norm_num)
      refine ⟨ds ++ [strconv.digitChar (n % 10)], ?_, ?_, ?_, ?_⟩
      · rw [h1]
        simp
      · simp
      · simp only [List.all_append, h3, List.all_cons, List.all_nil, Bool.and_true,
          Bool.true_and]
        exact digitChar_isDigit _ hm
      · rw [digitsValue_append_one, h4, digitChar_toNat _ hm]
        omega

theorem isDigit_not_sign (c : Char) (h : strconv.isDigit c = true) : c ≠ '+' ∧ c ≠ '-' := by
  constructor <;> intro e <;> subst e <;> revert h <;> decide

/-- `FormatInt` writes an integer string, and the string denotes the integer
it was given: `%d` prints the number in decimal. -/
theorem FormatInt_value (i : Int) :
    isIntegerString (strconv.FormatInt i) = true ∧ integerValue (strconv.FormatInt i) = i := by
  obtain ⟨ds, h1, h2, h3, h4⟩ := formatLoop_value (i.natAbs + 1) i.natAbs [] (by omega)
  rw [List.append_nil] at h1
  unfold strconv.FormatInt
  by_cases hneg : i < 0
  · rw [if_pos hneg, h1]
    constructor
    · have : isDigitString ds = true := by
        simp only [isDigitString, Bool.and_eq_true, Bool.not_eq_true', List.isEmpty_eq_false]
        exact ⟨h2, h3⟩
      simpa [isIntegerString] using this
    · simp only [integerValue, if_true, h4]
      omega
  · rw [if_neg hneg, h1]
    cases ds with
    | nil => exact absurd rfl h2
    | cons c rest =>
      simp only [List.all_cons, Bool.and_eq_true] at h3
      obtain ⟨hp, hm⟩ := isDigit_not_sign c h3.1
      constructor
      · simp only [isIntegerString, hp, hm, or_self, if_false, isDigitString,
          List.isEmpty_cons, Bool.not_false, List.all_cons, h3.1, h3.2, Bool.and_self]
      · simp only [integerValue, hm, hp, if_false, h4]
        omega

theorem contains_append (l1 l2 : List Char) (c : Char) :
    (l1 ++ l2).contains c = (l1.contains c || l2.contains c) := by
  induction l1 with
  | nil => simp
  | cons x rest ih => simp only [List.cons_append, List.contains_cons, ih, Bool.or_assoc]

end UrlLemmas

end GoPractice

namespace GoPractice

/-! ## encoding/json reads back what it writes -/

section JsonLemmas

open json polymarket

theorem scan_cons (c : Char) (cs : List Char) (m : Mode) :
    scan (c :: cs) m
      = match stepChar m c with
        | none => none
        | some (ts, m') =>
          match scan cs m' with
          | none => none
          | some (out, m'') => some (ts ++ out, m'') := rfl

theorem scan_append (p q : List Char) (m : Mode) :
    scan (p ++ q) m
      = match scan p m with
        | none => none
        | some (ts, m') =>
          match scan q m' with
          | none => none
          | some (ts', m'') => some (ts ++ ts', m'') := by
  induction p generalizing m with
  | nil =>
    simp only [List.nil_append, scan]
    cases scan q m with
    | none => rfl
    | some r => simp
  | cons c cs ih =>
    rw [List.cons_append, scan_cons, scan_cons]
    cases h : stepChar m c with
    | none => rfl
    | some r =>
      obtain ⟨ts, m'⟩ := r
      simp only
      rw [ih]
      cases h1 : scan cs m' with
      | none => rfl
      | some r1 =>
        obtain ⟨ts1, m1⟩ := r1
        simp only
        cases h2 : scan q m1 with
        | none => rfl
        | some r2 => simp [List.append_assoc]

theorem scan_append_of (p q : List Char) (m m' m'' : Mode) (ts ts' : List Token)
    (h1 : scan p m = some (ts, m')) (h2 : scan q m' = some (ts', m'')) :
    scan (p ++ q) m = some (ts ++ ts', m'') := by
  rw [scan_append, h1]
  simp only [h2]

theorem char_eq_ofNat (c : Char) (n : Nat) (h : c.toNat = n) : c = Char.ofNat n := by
  rw [← h, Char.ofNat_toNat]

theorem scan_escapeChar_control (n : Nat) (h : n < 32) (acc : List Char) :
    scan (escapeChar (Char.ofNat n)) (.str acc) = some ([], .str (acc ++ [Char.ofNat n])) := by
  interval_cases n <;> rfl

theorem scan_escapeChar (c : Char) (acc : List Char) :
    scan (escapeChar c) (.str acc) = some ([], .str (acc ++ [c])) := by
  by_cases hlt : c.toNat < 32
  · rw [char_eq_ofNat c _ rfl]
    exact scan_escapeChar_control _ hlt acc
  · by_cases h1 : c = '"'
    · subst h1; rfl
    · by_cases h2 : c = '\\'
      · subst h2; rfl
      · by_cases h3 : c = '<'
        · subst h3; rfl
        · by_cases h4 : c = '>'
          · subst h4; rfl
          · by_cases h5 : c = '&'
            · subst h5; rfl
            · by_cases h6 : c.toNat = 0x2028
              · rw [char_eq_ofNat c _ h6]; rfl
              · by_cases h7 : c.toNat = 0x2029
                · rw [char_eq_ofNat c _ h7]; rfl
                · have e : escapeChar c = [c] := by
                    have n8 : c.toNat ≠ 8 := by omega
                    have n12 : c.toNat ≠ 12 := by omega
                    have n10 : c ≠ '\n' := by
                      intro e; subst e; exact hlt (by decide)
                    have n13 : c ≠ '\r' := by
                      intro e; subst e; exact hlt (by decide)
                    have n9 : c ≠ '\t' := by
                      intro e; subst e; exact hlt (by decide)
                    simp [escapeChar, h1, h2, h3, h4, h5, h6, h7, n8, n12, n10, n13, n9, hlt]
                  rw [e]
                  simp [scan, stepChar, stepStr, h1, h2, hlt]

theorem scan_escaped (s acc : List Char) :
    scan (s.flatMap escapeChar) (.str acc) = some ([], .str (acc ++ s)) := by
  induction s generalizing acc with
  | nil => simp [scan]
  | cons c cs ih =>
    rw [List.flatMap_cons]
    rw [scan_append_of _ _ _ _ _ _ _ (scan_escapeChar c acc) (ih (acc ++ [c]))]
    simp

theorem scan_marshalString (s : String) :
    scan (marshalString s) .value = some ([stringToken s], .value) := by
  unfold marshalString
  have h1 : scan ['"'] .value = some ([], .str []) := rfl
  have h2 : scan (s.data.flatMap escapeChar) (.str []) = some ([], .str ([] ++ s.data)) :=
    scan_escaped _ _
  have h3 : scan ['"'] (.str ([] ++ s.data)) = some ([stringToken s], .value) := by
    simp [scan, stepChar, stepStr, stringToken]
  have := scan_append_of _ _ _ _ _ _ _ h1 (scan_append_of _ _ _ _ _ _ _ h2 h3)
  simpa using this

theorem scan_value_append (p q : List Char) (ts ts' : List Token)
    (h1 : scan p .value = some (ts, .value)) (h2 : scan q .value = some (ts', .value)) :
    scan (p ++ q) .value = some (ts ++ ts', .value) :=
  scan_append_of p q _ _ _ ts ts' h1 h2

theorem scan_joinComma {α : Type} (elem : α → List Char) (toks : α → List Token)
    (h : ∀ x, scan (elem x) .value = some (toks x, .value)) (xs : List α) :
    scan (joinComma (xs.map elem)) .value = some (joinTokens (xs.map toks), .value) := by
  induction xs with
  | nil => rfl
  | cons x rest ih =>
    cases rest with
    | nil => simpa [joinComma, joinTokens] using h x
    | cons y r =>
      simp only [List.map_cons, joinComma, joinTokens] at ih ⊢
      have hc : scan (',' :: joinComma (elem y :: List.map elem r)) .value
          = some (Token.comma :: joinTokens (toks y :: List.map toks r), .value) := by
        rw [scan_cons]
        have : stepChar .value ',' = some ([Token.comma], .value) := rfl
        simp only [this, ih]
        rfl
      exact scan_value_append _ _ _ _ (h x) hc

theorem scan_marshalSlice {α : Type} (elem : α → List Char) (toks : α → List Token)
    (h : ∀ x, scan (elem x) .value = some (toks x, .value)) (xs : Option (List α)) :
    scan (marshalSlice elem xs) .value = some (sliceTokens toks xs, .value) := by
  cases xs with
  | none => rfl
  | some l =>
    simp only [marshalSlice, sliceTokens]
    have h1 : scan ['['] .value = some ([Token.beginArray], .value) := rfl
    have h2 := scan_joinComma elem toks h l
    have h3 : scan [']'] .value = some ([Token.endArray], .value) := rfl
    have := scan_value_append _ _ _ _ h1 (scan_value_append _ _ _ _ h2 h3)
    simpa using this

theorem scan_marshalBool (b : Bool) :
    scan (marshalBool b) .value = some ([boolToken b], .value) := by
  cases b <;> rfl

theorem scan_marshalTag (t : Tag) :
    scan (marshalTag t) .value = some (tagTokens t, .value) := by
  have f1 : scan "\x7b\"id\":".data .value
      = some ([.beginObject, stringToken "id", .colon], .value) := by decide
  have f2 : scan ",\"label\":".data .value
      = some ([.comma, stringToken "label", .colon], .value) := by decide
  have f3 : scan ",\"slug\":".data .value
      = some ([.comma, stringToken "slug", .colon], .value) := by decide
  have f4 : scan "\x7d".data .value = some ([.endObject], .value) := by decide
  exact scan_value_append _ _ _ _ (scan_value_append _ _ _ _ (scan_value_append _ _ _ _
    (scan_value_append _ _ _ _ (scan_value_append _ _ _ _ (scan_value_append _ _ _ _
      f1 (scan_marshalString t.ID)) f2) (scan_marshalString t.Label)) f3)
      (scan_marshalString t.Slug)) f4

theorem scan_marshalMarket (m : Market) :
    scan (marshalMarket m) .value = some (marketTokens m, .value) := by
  have f1 : scan "\x7b\"id\":".data .value
      = some ([.beginObject, stringToken "id", .colon], .value) := by decide
  have f2 : scan ",\"question\":".data .value
      = some ([.comma, stringToken "question", .colon], .value) := by decide
  have f3 : scan ",\"clobTokenIds\":".data .value
      = some ([.comma, stringToken "clobTokenIds", .colon], .value) := by decide
  have f4 : scan ",\"outcomes\":".data .value
      = some ([.comma, stringToken "outcomes", .colon], .value) := by decide
  have f5 : scan ",\"outcomePrices\":".data .value
      = some ([.comma, stringToken "outcomePrices", .colon], .value) := by decide
  have f6 : scan "\x7d".data .value = some ([.endObject], .value) := by decide
  exact scan_value_append _ _ _ _ (scan_value_append _ _ _ _ (scan_value_append _ _ _ _
    (scan_value_append _ _ _ _ (scan_value_append _ _ _ _ (scan_value_append _ _ _ _
    (scan_value_append _ _ _ _ (scan_value_append _ _ _ _ (scan_value_append _ _ _ _
    (scan_value_append _ _ _ _
      f1 (scan_marshalString m.ID)) f2) (scan_marshalString m.Question)) f3)
      (scan_marshalString m.ClobTokenIds)) f4) (scan_marshalString m.Outcomes)) f5)
      (scan_marshalString m.OutcomePrices)) f6

theorem scan_marshalEvent (e : Event) :
    scan (marshalEvent e) .value = some (eventTokens e, .value) := by
  have f1 : scan "\x7b\"id\":".data .value
      = some ([.beginObject, stringToken "id", .colon], .value) := by decide
  have f2 : scan ",\"slug\":".data .value
      = some ([.comma, stringToken "slug", .colon], .value) := by decide
  have f3 : scan ",\"title\":".data .value
      = some ([.comma, stringToken "title", .colon], .value) := by decide
  have f4 : scan ",\"active\":".data .value
      = some ([.comma, stringToken "active", .colon], .value) := by decide
  have f5 : scan ",\"closed\":".data .value
      = some ([.comma, stringToken "closed", .colon], .value) := by decide
  have f6 : scan ",\"tags\":".data .value
      = some ([.comma, stringToken "tags", .colon], .value) := by decide
  have f7 : scan ",\"markets\":".data .value
      = some ([.comma, stringToken "markets", .colon], .value) := by decide
  have f8 : scan "\x7d".data .value = some ([.endObject], .value) := by decide
  have := scan_value_append _ _ _ _ (scan_value_append _ _ _ _ (scan_value_append _ _ _ _
    (scan_value_append _ _ _ _ (scan_value_append _ _ _ _ (scan_value_append _ _ _ _
    (scan_value_append _ _ _ _ (scan_value_append _ _ _ _ (scan_value_append _ _ _ _
    (scan_value_append _ _ _ _ (scan_value_append _ _ _ _ (scan_value_append _ _ _ _
    (scan_value_append _ _ _ _ (scan_value_append _ _ _ _
      f1 (scan_marshalString e.ID)) f2) (scan_marshalString e.Slug)) f3)
      (scan_marshalString e.Title)) f4) (scan_marshalBool e.Active)) f5)
      (scan_marshalBool e.Closed)) f6) (scan_marshalSlice _ _ scan_marshalTag e.Tags)) f7)
      (scan_marshalSlice _ _ scan_marshalMarket e.Markets)) f8
  simpa [eventTokens, marshalEvent] using this

theorem scan_MarshalEvents (events : Option (List Event)) :
    scan (MarshalEvents events).data .value = some (sliceTokens eventTokens events, .value) :=
  scan_marshalSlice _ _ scan_marshalEvent events

theorem run_cons (st : List Frame × Expect) (t : Token) (ts : List Token) :
    run st (t :: ts) = resume (step st t) ts := rfl

theorem resume_some (st : List Frame × Expect) (ts : List Token) :
    resume (some st) ts = run st ts := rfl

theorem string_mk_data (s : String) : String.mk s.data = s := rfl

theorem step_string (stack : List Frame) (e : Expect)
    (he : e = .beginValue ∨ e = .beginValueOrEmpty) (s : String) :
    step (stack, e) (stringToken s) = complete (.string s) stack := by
  rcases he with rfl | rfl
  · rfl
  · cases stack with
    | nil => rfl
    | cons f fs => cases f <;> rfl

theorem step_bool (stack : List Frame) (e : Expect)
    (he : e = .beginValue ∨ e = .beginValueOrEmpty) (b : Bool) :
    step (stack, e) (boolToken b) = complete (.bool b) stack := by
  rcases he with rfl | rfl
  · cases b <;> rfl
  · cases stack with
    | nil => cases b <;> rfl
    | cons f fs => cases f <;> cases b <;> rfl

theorem step_null (stack : List Frame) (e : Expect)
    (he : e = .beginValue ∨ e = .beginValueOrEmpty) :
    step (stack, e) .litNull = complete .null stack := by
  rcases he with rfl | rfl
  · rfl
  · cases stack with
    | nil => rfl
    | cons f fs => cases f <;> rfl

theorem step_beginObject (stack : List Frame) (e : Expect)
    (he : e = .beginValue ∨ e = .beginValueOrEmpty)
    (hd : stack.length + 1 ≤ maxNestingDepth) :
    step (stack, e) .beginObject = some (.obj [] none :: stack, .beginStringOrEmpty) := by
  rcases he with rfl | rfl
  · simp only [step, beginValue, if_pos hd]
  · cases stack with
    | nil => simp only [step, beginValue, if_pos hd]
    | cons f fs => cases f <;> simp only [step, beginValue, if_pos hd]

theorem step_beginArray (stack : List Frame) (e : Expect)
    (he : e = .beginValue ∨ e = .beginValueOrEmpty)
    (hd : stack.length + 1 ≤ maxNestingDepth) :
    step (stack, e) .beginArray = some (.arr [] :: stack, .beginValueOrEmpty) := by
  rcases he with rfl | rfl
  · simp only [step, beginValue, if_pos hd]
  · cases stack with
    | nil => simp only [step, beginValue, if_pos hd]
    | cons f fs => cases f <;> simp only [step, beginValue, if_pos hd]

/-- The first member of an object: its key, the colon, and the state in which
its value starts. -/
theorem run_first_key (stack : List Frame) (k : String) (ts : List Token) :
    run (.obj [] none :: stack, .beginStringOrEmpty) (stringToken k :: .colon :: ts)
      = run (.obj [] (some k) :: stack, .beginValue) ts := rfl

/-- A later member of an object: the comma, its key and the colon. -/
theorem run_next_key (stack : List Frame) (ms : List (String × JSON)) (k : String)
    (ts : List Token) :
    run (.obj ms none :: stack, .endValue) (.comma :: stringToken k :: .colon :: ts)
      = run (.obj ms (some k) :: stack, .beginValue) ts := rfl

/-- The value of a member that is a string. -/
theorem run_string_member (stack : List Frame) (ms : List (String × JSON)) (k v : String)
    (ts : List Token) :
    run (.obj ms (some k) :: stack, .beginValue) (stringToken v :: ts)
      = run (.obj (ms ++ [(k, .string v)]) none :: stack, .endValue) ts := rfl

/-- The value of a member that is a boolean. -/
theorem run_bool_member (stack : List Frame) (ms : List (String × JSON)) (k : String)
    (b : Bool) (ts : List Token) :
    run (.obj ms (some k) :: stack, .beginValue) (boolToken b :: ts)
      = run (.obj (ms ++ [(k, .bool b)]) none :: stack, .endValue) ts := by
  cases b <;> rfl

/-- The closing brace of an object. -/
theorem run_endObject (stack : List Frame) (ms : List (String × JSON)) (ts : List Token) :
    run (.obj ms none :: stack, .endValue) (.endObject :: ts)
      = resume (complete (.object ms) stack) ts := rfl

theorem Reads_tag (t : Tag) : Reads 1 (tagTokens t) (tagJSON t) := by
  intro stack e he hd rest
  simp only [tagTokens, List.cons_append, List.nil_append]
  rw [run_cons, step_beginObject stack e he hd, resume_some]
  simp only [run_first_key, run_next_key, run_string_member, run_endObject, List.nil_append,
    List.cons_append, tagJSON]

theorem Reads_market (m : Market) : Reads 1 (marketTokens m) (marketJSON m) := by
  intro stack e he hd rest
  simp only [marketTokens, List.cons_append, List.nil_append]
  rw [run_cons, step_beginObject stack e he hd, resume_some]
  simp only [run_first_key, run_next_key, run_string_member, run_endObject, List.nil_append,
    List.cons_append, marketJSON]

theorem complete_arr (v : JSON) (acc : List JSON) (stack : List Frame) :
    complete v (.arr acc :: stack) = some (.arr (acc ++ [v]) :: stack, .endValue) := rfl

theorem complete_obj (v : JSON) (ms : List (String × JSON)) (k : String)
    (stack : List Frame) :
    complete v (.obj ms (some k) :: stack)
      = some (.obj (ms ++ [(k, v)]) none :: stack, .endValue) := rfl

theorem run_elems {α : Type} (toks : α → List Token) (toJ : α → JSON) (d : Nat)
    (h : ∀ x, Reads d (toks x) (toJ x)) (stack : List Frame)
    (hd : stack.length + 1 + d ≤ maxNestingDepth) (l : List α) :
    ∀ (acc : List JSON) (e : Expect), (e = .beginValue ∨ e = .beginValueOrEmpty) →
      (l ≠ [] ∨ e = .beginValueOrEmpty) → ∀ rest,
      run (.arr acc :: stack, e) (joinTokens (l.map toks) ++ (.endArray :: rest))
        = resume (complete (.array (acc ++ l.map toJ)) stack) rest := by
  induction l with
  | nil =>
    intro acc e _ hne rest
    rcases hne with hne | rfl
    · exact absurd rfl hne
    · simp only [List.map_nil, joinTokens, List.nil_append, List.append_nil]
      rfl
  | cons x r ih =>
    intro acc e he _ rest
    have hx := h x (.arr acc :: stack) e he (by simpa using hd)
    cases r with
    | nil =>
      simp only [List.map_cons, List.map_nil, joinTokens]
      rw [hx, complete_arr]
      rfl
    | cons y r' =>
      simp only [List.map_cons, joinTokens, List.append_assoc, List.cons_append]
      rw [hx, complete_arr, resume_some]
      have hc : ∀ ts, run (.arr (acc ++ [toJ x]) :: stack, .endValue) (.comma :: ts)
          = run (.arr (acc ++ [toJ x]) :: stack, .beginValue) ts := fun _ => rfl
      simp only [hc]
      have := ih (acc ++ [toJ x]) .beginValue (Or.inl rfl) (Or.inl (by simp)) rest
      simp only [List.map_cons, joinTokens, List.append_assoc, List.cons_append,
        List.nil_append] at this
      exact this

theorem Reads_slice {α : Type} (toks : α → List Token) (toJ : α → JSON) (d : Nat)
    (h : ∀ x, Reads d (toks x) (toJ x)) (xs : Option (List α)) :
    Reads (d + 1) (sliceTokens toks xs) (sliceJSON toJ xs) := by
  intro stack e he hd rest
  cases xs with
  | none =>
    simp only [sliceTokens, sliceJSON, List.cons_append, List.nil_append]
    rw [run_cons, step_null stack e he]
  | some l =>
    simp only [sliceTokens, sliceJSON, List.cons_append, List.append_assoc, List.nil_append]
    rw [run_cons, step_beginArray stack e he (by omega), resume_some]
    have := run_elems toks toJ d h stack (by omega) l [] .beginValueOrEmpty (Or.inr rfl)
      (Or.inr rfl) rest
    simpa using this

theorem Reads_event (e : Event) : Reads 3 (eventTokens e) (eventJSON e) := by
  intro stack ex he hd rest
  have hTags := Reads_slice tagTokens tagJSON 1 Reads_tag e.Tags
  have hMarkets := Reads_slice marketTokens marketJSON 1 Reads_market e.Markets
  simp only [eventTokens, List.cons_append, List.nil_append, List.append_assoc]
  rw [run_cons, step_beginObject stack ex he (by omega), resume_some]
  simp only [run_first_key, run_next_key, run_string_member, run_bool_member, List.nil_append,
    List.cons_append]
  rw [hTags _ .beginValue (Or.inl rfl) (by simp; omega), complete_obj, resume_some]
  simp only [run_next_key]
  rw [hMarkets _ .beginValue (Or.inl rfl) (by simp; omega), complete_obj, resume_some]
  simp only [run_endObject, List.cons_append, List.nil_append, eventJSON]

theorem Reads_events (events : Option (List Event)) :
    Reads 4 (sliceTokens eventTokens events) (eventsJSON events) :=
  Reads_slice eventTokens eventJSON 3 Reads_event events

theorem parseTokens_of_Reads (d : Nat) (toks : List Token) (v : JSON) (h : Reads d toks v)
    (hd : d ≤ maxNestingDepth) : parseTokens toks = some v := by
  have := h [] .beginValue (Or.inl rfl) (by simpa using hd) []
  simp only [List.append_nil] at this
  unfold parseTokens
  rw [this]
  rfl

theorem unmarshalTag_tagJSON (t : Tag) : unmarshalTag zeroTag (tagJSON t) = .ok t := by
  cases t
  rfl

theorem unmarshalMarket_marketJSON (m : Market) :
    unmarshalMarket zeroMarket (marketJSON m) = .ok m := by
  cases m
  rfl

theorem unmarshalElems_map {α β : Type} (elem : α → JSON → Except String α) (zero : α)
    (toJ : β → JSON) (f : β → α) (h : ∀ x, elem zero (toJ x) = .ok (f x)) (l : List β) :
    unmarshalElems elem zero [] (l.map toJ) = .ok (l.map f) := by
  induction l with
  | nil => rfl
  | cons x r ih =>
    simp only [List.map_cons, unmarshalElems, List.headD_nil, List.tail_nil, h x, ih]

theorem unmarshalSlice_sliceJSON {α β : Type} (elem : α → JSON → Except String α) (zero : α)
    (toJ : β → JSON) (f : β → α) (goType : String) (h : ∀ x, elem zero (toJ x) = .ok (f x))
    (xs : Option (List β)) :
    unmarshalSlice elem zero goType [] (sliceJSON toJ xs) = .ok (xs.map (List.map f), []) := by
  cases xs with
  | none => rfl
  | some l =>
    simp only [sliceJSON, unmarshalSlice, unmarshalElems_map elem zero toJ f h l, List.drop_nil,
      ite_self, Option.map_some']

theorem unmarshalEvent_eventJSON (e : Event) :
    unmarshalEvent zeroEventTarget (eventJSON e) = .ok ⟨e, [], []⟩ := by
  have hT := unmarshalSlice_sliceJSON unmarshalTag zeroTag tagJSON id "[]polymarket.Tag"
    unmarshalTag_tagJSON e.Tags
  have hM := unmarshalSlice_sliceJSON unmarshalMarket zeroMarket marketJSON id
    "[]polymarket.Market" unmarshalMarket_marketJSON e.Markets
  simp only [List.map_id_fun, Option.map_id_fun, id_eq] at hT hM
  have k1 : ∀ (c : EventTarget) v, eventField c "id" v
      = (unmarshalString c.val.ID v).map
          fun s => { c with val := { c.val with ID := s } } := fun _ _ => rfl
  have k2 : ∀ (c : EventTarget) v, eventField c "slug" v
      = (unmarshalString c.val.Slug v).map
          fun s => { c with val := { c.val with Slug := s } } := fun _ _ => rfl
  have k3 : ∀ (c : EventTarget) v, eventField c "title" v
      = (unmarshalString c.val.Title v).map
          fun s => { c with val := { c.val with Title := s } } := fun _ _ => rfl
  have k4 : ∀ (c : EventTarget) v, eventField c "active" v
      = (unmarshalBool c.val.Active v).map
          fun b => { c with val := { c.val with Active := b } } := fun _ _ => rfl
  have k5 : ∀ (c : EventTarget) v, eventField c "closed" v
      = (unmarshalBool c.val.Closed v).map
          fun b => { c with val := { c.val with Closed := b } } := fun _ _ => rfl
  have k6 : ∀ (c : EventTarget) v, eventField c "tags" v
      = (unmarshalSlice unmarshalTag zeroTag "[]polymarket.Tag"
          (c.val.Tags.getD [] ++ c.tagsSpare) v).map
          fun r => { c with val := { c.val with Tags := r.1 }, tagsSpare := r.2 } :=
    fun _ _ => rfl
  have k7 : ∀ (c : EventTarget) v, eventField c "markets" v
      = (unmarshalSlice unmarshalMarket zeroMarket "[]polymarket.Market"
          (c.val.Markets.getD [] ++ c.marketsSpare) v).map
          fun r => { c with val := { c.val with Markets := r.1 }, marketsSpare := r.2 } :=
    fun _ _ => rfl
  cases e
  simp only [eventJSON, unmarshalEvent, unmarshalMembers, k1, k2, k3, k4, k5, k6, k7,
    unmarshalString, unmarshalBool, Except.map, zeroEventTarget, zeroEvent, Option.getD_none,
    List.append_nil] at hT hM ⊢
  simp only [hT, hM, Option.getD_none, List.append_nil, List.nil_append]

theorem unmarshalEvents_eventsJSON (events : Option (List Event)) :
    unmarshalEvents (eventsJSON events) = .ok events := by
  have h := unmarshalSlice_sliceJSON unmarshalEvent zeroEventTarget eventJSON
    (fun e => ⟨e, [], []⟩) "[]polymarket.Event" unmarshalEvent_eventJSON events
  unfold unmarshalEvents eventsJSON
  rw [h]
  cases events with
  | none => rfl
  | some l =>
    simp only [Except.map, Option.map_some', List.map_map]
    congr 2
    exact List.map_id l

theorem lex_of_scan (text : List Char) (ts : List Token)
    (h : scan text .value = some (ts, .value)) : lex text = some ts := by
  unfold lex
  rw [h]
  simp [finish]

theorem scan_newline (text : List Char) (ts : List Token)
    (h : scan text .value = some (ts, .value)) :
    scan (text ++ "\n".data) .value = some (ts, .value) := by
  have h2 : scan "\n".data .value = some ([], .value) := by decide
  simpa using scan_value_append _ _ _ _ h h2

/-- The text `Marshal` writes for a `[]Event`, with or without the line feed
`Encode` appends, is read as the JSON value of the events. -/
theorem parse_MarshalEvents (events : Option (List Event)) :
    parse (MarshalEvents events) = some (eventsJSON events)
      ∧ parse (MarshalEvents events ++ "\n") = some (eventsJSON events) := by
  have hs := scan_MarshalEvents events
  have hp := parseTokens_of_Reads 4 _ _ (Reads_events events) (by decide)
  constructor
  · unfold parse
    rw [lex_of_scan _ _ hs]
    exact hp
  · unfold parse
    rw [String.data_append, lex_of_scan _ _ (scan_newline _ _ hs)]
    exact hp

/-- `Unmarshal` reads back the events `Marshal` wrote. -/
theorem Unmarshal_MarshalEvents (events : Option (List Event)) :
    Unmarshal (MarshalEvents events) = .ok events
      ∧ Unmarshal (MarshalEvents events ++ "\n") = .ok events := by
  obtain ⟨h1, h2⟩ := parse_MarshalEvents events
  constructor
  · unfold Unmarshal
    rw [h1]
    exact unmarshalEvents_eventsJSON events
  · unfold Unmarshal
    rw [h2]
    exact unmarshalEvents_eventsJSON events

/-- The text of an error envelope is read as the object whose one member
`error` is the message. -/
theorem parse_MarshalError (msg : String) :
    parse (MarshalError msg ++ "\n") = some (.object [("error", .string msg)]) := by
  have f1 : scan "\x7b\"error\":".data .value
      = some ([.beginObject, stringToken "error", .colon], .value) := by decide
  have f2 : scan "\x7d".data .value = some ([.endObject], .value) := by decide
  have hs := scan_newline _ _
    (scan_value_append _ _ _ _ (scan_value_append _ _ _ _ f1 (scan_marshalString msg)) f2)
  unfold parse
  rw [String.data_append]
  have hl := lex_of_scan _ _ hs
  simp only [MarshalError] at hl ⊢
  rw [hl]
  rfl

end JsonLemmas

end GoPractice

namespace GoPractice

/-! ## The events handler, branch by branch -/

section HandlerLemmas

open polymarket

theorem writeError_fresh (code : Int) (msg : String) :
    writeError freshWriter code msg
      = replied code "application/json" (json.MarshalError msg ++ "\n") := by
  simp only [writeError, freshWriter, replied, http.ResponseWriter.SetHeader,
    http.ResponseWriter.WriteHeader, json.Encode, http.ResponseWriter.Write, http.Header.Set]
  simp

theorem handleEvents_of_not_get (transport : http.Client) (w : http.ResponseWriter)
    (r : http.Request) (h : r.Method ≠ "GET") :
    handleEvents transport w r
      = { w := writeError w http.StatusMethodNotAllowed "Method not allowed" } := by
  unfold handleEvents
  rw [if_pos (show r.Method ≠ http.MethodGet from h)]

theorem handleEvents_of_accepted (transport : http.Client) (w : http.ResponseWriter)
    (r : http.Request) (hm : r.Method = "GET") (hl : limitAccepted (limitOf r)) :
    handleEvents transport w r = respondEvents transport w (parsedLimit (limitOf r)) := by
  unfold handleEvents
  rw [if_neg (show ¬ r.Method ≠ http.MethodGet from fun hne => hne hm)]
  simp only [limitOf, parsedLimit] at hl ⊢
  by_cases he : r.URL.Query.Get "limit" = ""
  · simp [he]
  · rcases hl with h0 | ⟨h1, h2, h3⟩
    · exact absurd h0 he
    · have hA := (Atoi_eq_ok_iff _ _).mpr ⟨h1, rfl, by omega, h3⟩
      simp only [ne_eq, he, not_false_eq_true, if_true, hA, if_false]
      rw [if_neg (by omega)]

theorem handleEvents_of_rejected (transport : http.Client) (w : http.ResponseWriter)
    (r : http.Request) (hm : r.Method = "GET") (hl : ¬ limitAccepted (limitOf r)) :
    handleEvents transport w r
      = { w := writeError w http.StatusBadRequest "Invalid limit parameter" } := by
  unfold handleEvents
  rw [if_neg (show ¬ r.Method ≠ http.MethodGet from fun hne => hne hm)]
  simp only [limitOf, limitAccepted, not_or] at hl ⊢
  obtain ⟨he, hn⟩ := hl
  simp only [ne_eq, he, not_false_eq_true, if_true]
  cases hA : strconv.Atoi (r.URL.Query.Get "limit") with
  | error e => rfl
  | ok n =>
    obtain ⟨h1, h2, h3, h4⟩ := (Atoi_eq_ok_iff _ _).mp hA
    simp only
    by_cases hneg : n < 0
    · rw [if_pos hneg]
    · exact absurd ⟨h1, by omega, by omega⟩ hn

theorem respondEvents_requests (transport : http.Client) (w : http.ResponseWriter)
    (limit : Int) :
    (respondEvents transport w limit).requests = [requestURL (some ⟨limit⟩)] := by
  unfold respondEvents
  simp only [NewClient_FetchActiveEvents]
  have hr := readResponse_requests (requestURL (some ⟨limit⟩))
    (transport (requestURL (some ⟨limit⟩)))
  split
  · exact hr
  · split
    · exact hr
    · exact hr

theorem respondEvents_of_err (transport : http.Client) (limit : Int) (e : String)
    (h : ((NewClient transport).FetchActiveEvents (some ⟨limit⟩)).err = some e) :
    respondEvents transport freshWriter limit
      = { w := replied 500 "application/json"
            (json.MarshalError ("Failed to fetch events: " ++ e) ++ "\n"),
          log := ["Error fetching events: " ++ e],
          requests := [requestURL (some ⟨limit⟩)] } := by
  have hr := respondEvents_requests transport freshWriter limit
  unfold respondEvents at hr ⊢
  simp only [h] at hr ⊢
  simp only [writeError_fresh] at hr ⊢
  rw [hr]
  rfl

theorem respondEvents_of_ok (transport : http.Client) (limit : Int)
    (h : ((NewClient transport).FetchActiveEvents (some ⟨limit⟩)).err = none) :
    respondEvents transport freshWriter limit
      = { w := replied 200 "application/json"
            (json.MarshalEvents
              ((NewClient transport).FetchActiveEvents (some ⟨limit⟩)).events ++ "\n"),
          log := [],
          requests := [requestURL (some ⟨limit⟩)] } := by
  have hr := respondEvents_requests transport freshWriter limit
  unfold respondEvents at hr ⊢
  simp only [h] at hr ⊢
  have hw : json.Encode (freshWriter.SetHeader "Content-Type" "application/json")
      (json.MarshalEvents ((NewClient transport).FetchActiveEvents (some ⟨limit⟩)).events)
      = (replied 200 "application/json"
          (json.MarshalEvents
            ((NewClient transport).FetchActiveEvents (some ⟨limit⟩)).events ++ "\n"), none) := by
    simp only [freshWriter, replied, http.ResponseWriter.SetHeader,
      http.ResponseWriter.WriteHeader, json.Encode, http.ResponseWriter.Write, http.Header.Set,
      http.StatusOK]
    simp
  simp only [hw] at hr ⊢
  rw [hr]

theorem respondEvents_status (transport : http.Client) (limit : Int) :
    (respondEvents transport freshWriter limit).w.status = 200
      ∨ (respondEvents transport freshWriter limit).w.status = 500 := by
  cases h : ((NewClient transport).FetchActiveEvents (some ⟨limit⟩)).err with
  | none => rw [respondEvents_of_ok transport limit h]; exact Or.inl rfl
  | some e => rw [respondEvents_of_err transport limit e h]; exact Or.inr rfl

end HandlerLemmas

end GoPractice

namespace GoPractice

/-! ## Which JSON values `Unmarshal` stores in a `[]Event` -/

section AcceptLemmas

open json polymarket

theorem isOk_map {ε α β : Type} (f : α → β) (x : Except ε α) :
    (x.map f).isOk = x.isOk := by
  cases x <;> rfl

theorem unmarshalString_isOk (cur : String) (v : JSON) :
    (unmarshalString cur v).isOk = stringOrNull v := by
  cases v <;> rfl

theorem unmarshalBool_isOk (cur : Bool) (v : JSON) :
    (unmarshalBool cur v).isOk = boolOrNull v := by
  cases v <;> rfl

theorem unmarshalMembers_isOk {α : Type} (field : α → String → JSON → Except String α)
    (ok : String × JSON → Bool) (h : ∀ cur k v, (field cur k v).isOk = ok (k, v))
    (ms : List (String × JSON)) :
    ∀ cur, (unmarshalMembers field cur ms).isOk = ms.all ok := by
  induction ms with
  | nil => intro cur; rfl
  | cons m rest ih =>
    intro cur
    obtain ⟨k, v⟩ := m
    have hk := h cur k v
    simp only [unmarshalMembers, List.all_cons]
    cases hf : field cur k v with
    | error e =>
      rw [hf] at hk
      rw [← hk]
      rfl
    | ok next =>
      rw [hf] at hk
      rw [← hk, ih next]
      rfl

theorem unmarshalElems_isOk {α : Type} (elem : α → JSON → Except String α) (zero : α)
    (ok : JSON → Bool) (h : ∀ cur v, (elem cur v).isOk = ok v) (vs : List JSON) :
    ∀ old, (unmarshalElems elem zero old vs).isOk = vs.all ok := by
  induction vs with
  | nil => intro old; rfl
  | cons v rest ih =>
    intro old
    have hv := h (old.headD zero) v
    simp only [unmarshalElems, List.all_cons]
    cases he : elem (old.headD zero) v with
    | error e =>
      rw [he] at hv
      rw [← hv]
      rfl
    | ok a =>
      rw [he] at hv
      rw [← hv, ← ih old.tail]
      cases unmarshalElems elem zero old.tail rest <;> rfl

theorem unmarshalSlice_isOk {α : Type} (elem : α → JSON → Except String α) (zero : α)
    (ok : JSON → Bool) (goType : String) (h : ∀ cur v, (elem cur v).isOk = ok v)
    (old : List α) (v : JSON) :
    (unmarshalSlice elem zero goType old v).isOk = sliceAccepted ok v := by
  cases v with
  | array vs =>
    simp only [unmarshalSlice, sliceAccepted]
    rw [← unmarshalElems_isOk elem zero ok h vs old]
    cases unmarshalElems elem zero old vs <;> rfl
  | _ => rfl

theorem tagField_isOk (cur : Tag) (k : String) (v : JSON) :
    (tagField cur k v).isOk = tagMemberAccepted (k, v) := by
  unfold tagField tagMemberAccepted
  split
  · rw [isOk_map, unmarshalString_isOk]
  · split
    · rw [isOk_map, unmarshalString_isOk]
    · split
      · rw [isOk_map, unmarshalString_isOk]
      · rfl

theorem unmarshalTag_isOk (cur : Tag) (v : JSON) :
    (unmarshalTag cur v).isOk = tagAccepted v := by
  cases v with
  | object ms => exact unmarshalMembers_isOk tagField _ tagField_isOk ms cur
  | _ => rfl

theorem marketField_isOk (cur : Market) (k : String) (v : JSON) :
    (marketField cur k v).isOk = marketMemberAccepted (k, v) := by
  unfold marketField marketMemberAccepted
  split
  · rw [isOk_map, unmarshalString_isOk]
  · split
    · rw [isOk_map, unmarshalString_isOk]
    · split
      · rw [isOk_map, unmarshalString_isOk]
      · split
        · rw [isOk_map, unmarshalString_isOk]
        · split
          · rw [isOk_map, unmarshalString_isOk]
          · rfl

theorem unmarshalMarket_isOk (cur : Market) (v : JSON) :
    (unmarshalMarket cur v).isOk = marketAccepted v := by
  cases v with
  | object ms => exact unmarshalMembers_isOk marketField _ marketField_isOk ms cur
  | _ => rfl

theorem eventField_isOk (cur : EventTarget) (k : String) (v : JSON) :
    (eventField cur k v).isOk = eventMemberAccepted (k, v) := by
  unfold eventField eventMemberAccepted
  split
  · rw [isOk_map, unmarshalString_isOk]
  · split
    · rw [isOk_map, unmarshalString_isOk]
    · split
      · rw [isOk_map, unmarshalString_isOk]
      · split
        · rw [isOk_map, unmarshalBool_isOk]
        · split
          · rw [isOk_map, unmarshalBool_isOk]
          · split
            · rw [isOk_map, unmarshalSlice_isOk _ _ _ _ unmarshalTag_isOk]
            · split
              · rw [isOk_map, unmarshalSlice_isOk _ _ _ _ unmarshalMarket_isOk]
              · rfl

theorem unmarshalEvent_isOk (cur : EventTarget) (v : JSON) :
    (unmarshalEvent cur v).isOk = eventAccepted v := by
  cases v with
  | object ms => exact unmarshalMembers_isOk eventField _ eventField_isOk ms cur
  | _ => rfl

theorem unmarshalEvents_isOk (v : JSON) : (unmarshalEvents v).isOk = eventsAccepted v := by
  unfold unmarshalEvents
  rw [isOk_map]
  exact unmarshalSlice_isOk _ _ _ _ unmarshalEvent_isOk [] v

/-- `Unmarshal` fails exactly on text that is not valid JSON and on JSON
values that cannot be stored in a `[]Event`. -/
theorem Unmarshal_error_iff (body : String) :
    (∃ e, Unmarshal body = .error e)
      ↔ parse body = none ∨ ∃ v, parse body = some v ∧ eventsAccepted v = false := by
  unfold Unmarshal
  cases hp : parse body with
  | none => simp
  | some v =>
    simp only [reduceCtorEq, Option.some.injEq, exists_eq_left', false_or]
    rw [← unmarshalEvents_isOk]
    cases unmarshalEvents v with
    | error e => simp [Except.isOk, Except.toBool]
    | ok a => simp [Except.isOk, Except.toBool]

end AcceptLemmas

end GoPractice

namespace GoPractice

/-! ## What `Unmarshal` stores for an array of Event objects -/

section DecodeLemmas

open json polymarket

theorem char_eq_iff_toNat (a b : Char) : a = b ↔ a.toNat = b.toNat := by
  constructor
  · intro h
    rw [h]
  · intro h
    rw [← Char.ofNat_toNat a, ← Char.ofNat_toNat b, h]

theorem foldChar_lower (n : Nat) (h1 : 97 ≤ n) (h2 : n ≤ 122) :
    (Char.ofNat (n - 32)).toNat = n - 32 := by
  interval_cases n <;> rfl

theorem foldChar_toNat (c : Char) :
    (foldChar c).toNat
      = if 97 ≤ c.toNat ∧ c.toNat ≤ 122 then c.toNat - 32
        else if c.toNat = 0x17F then 83
        else if c.toNat = 0x212A then 75
        else c.toNat := by
  unfold foldChar
  split
  · rename_i h
    exact foldChar_lower _ h.1 h.2
  · split
    · rfl
    · split
      · rfl
      · rfl

/-- Two characters fold onto the same character exactly when they differ at
most in case. -/
theorem sameLetter_iff (a b : Char) : sameLetter a b = true ↔ foldChar a = foldChar b := by
  rw [char_eq_iff_toNat (foldChar a), foldChar_toNat, foldChar_toNat]
  simp only [sameLetter, asciiLetter, isLetterS, isLetterK, Bool.or_eq_true, Bool.and_eq_true,
    decide_eq_true_eq, char_eq_iff_toNat a b]
  constructor
  · intro h
    split_ifs <;> omega
  · intro h
    split_ifs at h <;> omega

theorem sameLetters_iff (k n : List Char) :
    sameLetters k n = true ↔ k.map foldChar = n.map foldChar := by
  induction k generalizing n with
  | nil =>
    cases n with
    | nil => simp [sameLetters]
    | cons y ys => simp [sameLetters]
  | cons x xs ih =>
    cases n with
    | nil => simp [sameLetters]
    | cons y ys =>
      simp only [sameLetters, Bool.and_eq_true, sameLetter_iff, ih, List.map_cons,
        List.cons.injEq]

/-- The decoder takes a key for a field exactly when the key is the name of
the field up to case. -/
theorem namedLike_eq (key name : String) : namedLike key name = keyMatches key name := by
  rw [Bool.eq_iff_iff]
  unfold namedLike
  rw [sameLetters_iff]
  unfold keyMatches
  rw [decide_eq_true_eq]

/-- A key names at most one of two fields whose names differ up to case. -/
theorem keyMatches_unique (k a b : String)
    (hab : a.data.map foldChar ≠ b.data.map foldChar) (ha : keyMatches k a = true) :
    keyMatches k b = false := by
  unfold keyMatches at ha ⊢
  rw [decide_eq_true_eq] at ha
  rw [decide_eq_false_iff_not, ha]
  exact hab

theorem member_cons_match (k : String) (v : JSON) (rest : List (String × JSON))
    (name : String) (h : keyMatches k name = true) :
    member ((k, v) :: rest) name = some v := by
  simp only [member, List.find?, namedLike_eq, h, Option.map_some']

theorem member_cons_other (k : String) (v : JSON) (rest : List (String × JSON))
    (name : String) (h : keyMatches k name = false) :
    member ((k, v) :: rest) name = member rest name := by
  simp only [member, List.find?, namedLike_eq, h]

theorem namedOnce_tail (m : String × JSON) (rest : List (String × JSON)) (name : String)
    (h : namedOnce (m :: rest) name = true) : namedOnce rest name = true := by
  unfold namedOnce at h ⊢
  simp only [namedLike_eq] at h ⊢
  rw [decide_eq_true_eq] at h ⊢
  rw [List.filter_cons] at h
  split at h
  · simp only [List.length_cons] at h
    omega
  · exact h

theorem member_none_of_namedOnce (k : String) (v : JSON) (rest : List (String × JSON))
    (name : String) (hk : keyMatches k name = true)
    (h : namedOnce ((k, v) :: rest) name = true) : member rest name = none := by
  unfold namedOnce at h
  simp only [namedLike_eq] at h
  rw [decide_eq_true_eq, List.filter_cons, if_pos hk] at h
  have h0 : rest.filter (fun m => keyMatches m.1 name) = [] :=
    List.length_eq_zero.mp (by simp only [List.length_cons] at h; omega)
  unfold member
  simp only [namedLike_eq]
  rw [Option.map_eq_none', List.find?_eq_none]
  intro x hx hkx
  have : x ∈ rest.filter fun m => keyMatches m.1 name := List.mem_filter.mpr ⟨hx, hkx⟩
  rw [h0] at this
  exact absurd this (List.not_mem_nil x)

/-- What a member named like a string field stores, and that no later member
changes it. -/
theorem unmarshalString_member (cur : String) (k : String) (v : JSON)
    (rest : List (String × JSON)) (name : String) (hk : keyMatches k name = true)
    (hv : stringOrNull v = true) (h1 : namedOnce ((k, v) :: rest) name = true) :
    unmarshalString cur v = .ok (stringField cur (member ((k, v) :: rest) name))
      ∧ ∀ s, stringField s (member rest name) = s := by
  rw [member_cons_match k v rest name hk, member_none_of_namedOnce k v rest name hk h1]
  refine ⟨?_, fun _ => rfl⟩
  cases v with
  | null => rfl
  | string s => rfl
  | _ => simp [stringOrNull] at hv

/-- What a member named like a boolean field stores. -/
theorem unmarshalBool_member (cur : Bool) (k : String) (v : JSON)
    (rest : List (String × JSON)) (name : String) (hk : keyMatches k name = true)
    (hv : boolOrNull v = true) (h1 : namedOnce ((k, v) :: rest) name = true) :
    unmarshalBool cur v = .ok (boolField cur (member ((k, v) :: rest) name))
      ∧ ∀ b, boolField b (member rest name) = b := by
  rw [member_cons_match k v rest name hk, member_none_of_namedOnce k v rest name hk h1]
  refine ⟨?_, fun _ => rfl⟩
  cases v with
  | null => rfl
  | bool b => rfl
  | _ => simp [boolOrNull] at hv

/-- The members of a Tag object stored in a `Tag`: each field ends as the
member of its name, or as it was. -/
theorem unmarshalMembers_tag (ms : List (String × JSON)) :
    ∀ cur : Tag, ms.all tagObjectMember = true →
      namedOnce ms "id" = true → namedOnce ms "label" = true → namedOnce ms "slug" = true →
      unmarshalMembers tagField cur ms
        = .ok { ID := stringField cur.ID (member ms "id")
                Label := stringField cur.Label (member ms "label")
                Slug := stringField cur.Slug (member ms "slug") } := by
  induction ms with
  | nil => intro cur _ _ _ _; rfl
  | cons m rest ih =>
    obtain ⟨k, v⟩ := m
    intro cur hacc h1 h2 h3
    rw [List.all_cons, Bool.and_eq_true] at hacc
    obtain ⟨hm, hrest⟩ := hacc
    have IH := fun next => ih next hrest (namedOnce_tail _ _ _ h1) (namedOnce_tail _ _ _ h2)
      (namedOnce_tail _ _ _ h3)
    simp only [unmarshalMembers]
    unfold tagObjectMember at hm
    simp only [namedLike_eq] at hm
    by_cases c1 : keyMatches k "id" = true
    · have n2 := keyMatches_unique k "id" "label" (by decide) c1
      have n3 := keyMatches_unique k "id" "slug" (by decide) c1
      simp only [c1, if_true] at hm
      obtain ⟨e1, e2⟩ := unmarshalString_member cur.ID k v rest "id" c1 hm h1
      have hf : tagField cur k v
          = .ok { cur with ID := stringField cur.ID (member ((k, v) :: rest) "id") } := by
        simp only [tagField, c1, if_true, e1, Except.map]
      rw [hf]
      simp only [IH, e2, member_cons_other k v rest _ n2, member_cons_other k v rest _ n3]
    · rw [Bool.not_eq_true] at c1
      by_cases c2 : keyMatches k "label" = true
      · have n3 := keyMatches_unique k "label" "slug" (by decide) c2
        simp only [c1, c2, if_true, Bool.false_eq_true, if_false] at hm
        obtain ⟨e1, e2⟩ := unmarshalString_member cur.Label k v rest "label" c2 hm h2
        have hf : tagField cur k v
            = .ok { cur with Label := stringField cur.Label (member ((k, v) :: rest) "label") } := by
          simp only [tagField, c1, c2, if_true, Bool.false_eq_true, if_false, e1, Except.map]
        rw [hf]
        simp only [IH, e2, member_cons_other k v rest _ c1, member_cons_other k v rest _ n3]
      · rw [Bool.not_eq_true] at c2
        by_cases c3 : keyMatches k "slug" = true
        · simp only [c1, c2, c3, if_true, Bool.false_eq_true, if_false] at hm
          obtain ⟨e1, e2⟩ := unmarshalString_member cur.Slug k v rest "slug" c3 hm h3
          have hf : tagField cur k v
              = .ok { cur with Slug := stringField cur.Slug (member ((k, v) :: rest) "slug") } := by
            simp only [tagField, c1, c2, c3, if_true, Bool.false_eq_true, if_false, e1,
              Except.map]
          rw [hf]
          simp only [IH, e2, member_cons_other k v rest _ c1, member_cons_other k v rest _ c2]
        · rw [Bool.not_eq_true] at c3
          have hf : tagField cur k v = .ok cur := by
            simp only [tagField, c1, c2, c3, Bool.false_eq_true, if_false]
          rw [hf]
          simp only [IH, member_cons_other k v rest _ c1, member_cons_other k v rest _ c2,
            member_cons_other k v rest _ c3]

/-- A Tag object stored in a zero `Tag` gives the `Tag` it describes. -/
theorem unmarshalTag_tagOf (v : JSON) (h : tagObject v = true) :
    unmarshalTag zeroTag v = .ok (tagOf v) := by
  cases v with
  | object ms =>
    simp only [tagObject, Bool.and_eq_true, List.all_cons, List.all_nil, Bool.and_true] at h
    obtain ⟨hacc, h1, h2, h3⟩ := h
    exact unmarshalMembers_tag ms zeroTag hacc h1 h2 h3
  | _ => simp [tagObject] at h

/-- The members of a Market object stored in a `Market`. -/
theorem unmarshalMembers_market (ms : List (String × JSON)) :
    ∀ cur : Market, ms.all marketObjectMember = true →
      namedOnce ms "id" = true →
      namedOnce ms "question" = true →
      namedOnce ms "clobTokenIds" = true →
      namedOnce ms "outcomes" = true →
      namedOnce ms "outcomePrices" = true →
      unmarshalMembers marketField cur ms
        = .ok { ID := stringField cur.ID (member ms "id")
                Question := stringField cur.Question (member ms "question")
                ClobTokenIds := stringField cur.ClobTokenIds (member ms "clobTokenIds")
                Outcomes := stringField cur.Outcomes (member ms "outcomes")
                OutcomePrices := stringField cur.OutcomePrices (member ms "outcomePrices") } := by
  induction ms with
  | nil => intro cur _ _ _ _ _ _; rfl
  | cons m rest ih =>
    obtain ⟨k, v⟩ := m
    intro cur hacc h1 h2 h3 h4 h5
    rw [List.all_cons, Bool.and_eq_true] at hacc
    obtain ⟨hm, hrest⟩ := hacc
    have IH := fun next => ih next hrest
      (namedOnce_tail _ _ _ h1) (namedOnce_tail _ _ _ h2) (namedOnce_tail _ _ _ h3) (namedOnce_tail _ _ _ h4) (namedOnce_tail _ _ _ h5)
    simp only [unmarshalMembers]
    unfold marketObjectMember at hm
    simp only [namedLike_eq] at hm
    by_cases c1 : keyMatches k "id" = true
    · have n2 := keyMatches_unique k "id" "question" (by decide) c1
      have n3 := keyMatches_unique k "id" "clobTokenIds" (by decide) c1
      have n4 := keyMatches_unique k "id" "outcomes" (by decide) c1
      have n5 := keyMatches_unique k "id" "outcomePrices" (by decide) c1
      simp only [c1, if_true, Bool.false_eq_true, if_false] at hm
      obtain ⟨e1, e2⟩ := unmarshalString_member cur.ID k v rest "id" c1 hm h1
      have hf : marketField cur k v
          = .ok { cur with ID := stringField cur.ID (member ((k, v) :: rest) "id") } := by
        simp only [marketField, c1, if_true, Bool.false_eq_true, if_false, e1, Except.map]
      rw [hf]
      simp only [IH, e2, member_cons_other k v rest _ n2, member_cons_other k v rest _ n3, member_cons_other k v rest _ n4, member_cons_other k v rest _ n5]
    · rw [Bool.not_eq_true] at c1
      by_cases c2 : keyMatches k "question" = true
      · have n3 := keyMatches_unique k "question" "clobTokenIds" (by decide) c2
        have n4 := keyMatches_unique k "question" "outcomes" (by decide) c2
        have n5 := keyMatches_unique k "question" "outcomePrices" (by decide) c2
        simp only [c1, c2, if_true, Bool.false_eq_true, if_false] at hm
        obtain ⟨e1, e2⟩ := unmarshalString_member cur.Question k v rest "question" c2 hm h2
        have hf : marketField cur k v
            = .ok { cur with Question := stringField cur.Question (member ((k, v) :: rest) "question") } := by
          simp only [marketField, c1, c2, if_true, Bool.false_eq_true, if_false, e1, Except.map]
        rw [hf]
        simp only [IH, e2, member_cons_other k v rest _ c1, member_cons_other k v rest _ n3, member_cons_other k v rest _ n4, member_cons_other k v rest _ n5]
      · rw [Bool.not_eq_true] at c2
        by_cases c3 : keyMatches k "clobTokenIds" = true
        · have n4 := keyMatches_unique k "clobTokenIds" "outcomes" (by decide) c3
          have n5 := keyMatches_unique k "clobTokenIds" "outcomePrices" (by decide) c3
          simp only [c1, c2, c3, if_true, Bool.false_eq_true, if_false] at hm
          obtain ⟨e1, e2⟩ := unmarshalString_member cur.ClobTokenIds k v rest "clobTokenIds" c3 hm h3
          have hf : marketField cur k v
              = .ok { cur with ClobTokenIds := stringField cur.ClobTokenIds (member ((k, v) :: rest) "clobTokenIds") } := by
            simp only [marketField, c1, c2, c3, if_true, Bool.false_eq_true, if_false, e1, Except.map]
          rw [hf]
          simp only [IH, e2, member_cons_other k v rest _ c1, member_cons_other k v rest _ c2, member_cons_other k v rest _ n4, member_cons_other k v rest _ n5]
        · rw [Bool.not_eq_true] at c3
          by_cases c4 : keyMatches k "outcomes" = true
          · have n5 := keyMatches_unique k "outcomes" "outcomePrices" (by decide) c4
            simp only [c1, c2, c3, c4, if_true, Bool.false_eq_true, if_false] at hm
            obtain ⟨e1, e2⟩ := unmarshalString_member cur.Outcomes k v rest "outcomes" c4 hm h4
            have hf : marketField cur k v
                = .ok { cur with Outcomes := stringField cur.Outcomes (member ((k, v) :: rest) "outcomes") } := by
              simp only [marketField, c1, c2, c3, c4, if_true, Bool.false_eq_true, if_false, e1, Except.map]
            rw [hf]
            simp only [IH, e2, member_cons_other k v rest _ c1, member_cons_other k v rest _ c2, member_cons_other k v rest _ c3, member_cons_other k v rest _ n5]
          · rw [Bool.not_eq_true] at c4
            by_cases c5 : keyMatches k "outcomePrices" = true
            · simp only [c1, c2, c3, c4, c5, if_true, Bool.false_eq_true, if_false] at hm
              obtain ⟨e1, e2⟩ := unmarshalString_member cur.OutcomePrices k v rest "outcomePrices" c5 hm h5
              have hf : marketField cur k v
                  = .ok { cur with OutcomePrices := stringField cur.OutcomePrices (member ((k, v) :: rest) "outcomePrices") } := by
                simp only [marketField, c1, c2, c3, c4, c5, if_true, Bool.false_eq_true, if_false, e1, Except.map]
              rw [hf]
              simp only [IH, e2, member_cons_other k v rest _ c1, member_cons_other k v rest _ c2, member_cons_other k v rest _ c3, member_cons_other k v rest _ c4]
            · rw [Bool.not_eq_true] at c5
              have hf : marketField cur k v = .ok cur := by
                simp only [marketField, c1, c2, c3, c4, c5, Bool.false_eq_true, if_false]
              rw [hf]
              simp only [IH, member_cons_other k v rest _ c1, member_cons_other k v rest _ c2, member_cons_other k v rest _ c3, member_cons_other k v rest _ c4, member_cons_other k v rest _ c5]


/-- A Market object stored in a zero `Market` gives the `Market` it describes. -/
theorem unmarshalMarket_marketOf (v : JSON) (h : marketObject v = true) :
    unmarshalMarket zeroMarket v = .ok (marketOf v) := by
  cases v with
  | object ms =>
    simp only [marketObject, Bool.and_eq_true, List.all_cons, List.all_nil, Bool.and_true] at h
    obtain ⟨hacc, h1, h2, h3, h4, h5⟩ := h
    exact unmarshalMembers_market ms zeroMarket hacc h1 h2 h3 h4 h5
  | _ => simp [marketObject] at h

/-- The elements of an array stored in fresh memory: each gives what it gives
when stored in a zero value. -/
theorem unmarshalElems_all {α β : Type} (elem : α → JSON → Except String α) (zero : α)
    (g : α → β) (f : JSON → β) (ok : JSON → Bool)
    (h : ∀ v, ok v = true → ∃ t, elem zero v = .ok t ∧ g t = f v) (vs : List JSON)
    (hall : vs.all ok = true) :
    ∃ ts, unmarshalElems elem zero [] vs = .ok ts ∧ ts.map g = vs.map f := by
  induction vs with
  | nil => exact ⟨[], rfl, rfl⟩
  | cons v rest ih =>
    rw [List.all_cons, Bool.and_eq_true] at hall
    obtain ⟨t, ht, hg⟩ := h v hall.1
    obtain ⟨ts, hts, hgs⟩ := ih hall.2
    refine ⟨t :: ts, ?_, ?_⟩
    · simp only [unmarshalElems, List.headD_nil, List.tail_nil, ht, hts]
    · simp only [List.map_cons, hg, hgs]

/-- What a member named like a slice field stores in a slice with fresh
memory, and that no later member changes it. -/
theorem unmarshalSlice_member {α : Type} (elem : α → JSON → Except String α) (zero : α)
    (f : JSON → α) (ok : JSON → Bool) (h : ∀ v, ok v = true → elem zero v = .ok (f v))
    (goType : String) (cur : Option (List α)) (k : String) (v : JSON)
    (rest : List (String × JSON)) (name : String) (hk : keyMatches k name = true)
    (hv : sliceAccepted ok v = true) (h1 : namedOnce ((k, v) :: rest) name = true) :
    unmarshalSlice elem zero goType [] v
        = .ok (sliceField f cur (member ((k, v) :: rest) name), [])
      ∧ ∀ c, sliceField f c (member rest name) = c := by
  rw [member_cons_match k v rest name hk, member_none_of_namedOnce k v rest name hk h1]
  refine ⟨?_, fun _ => rfl⟩
  cases v with
  | null => rfl
  | array vs =>
    obtain ⟨ts, hts, hmap⟩ := unmarshalElems_all elem zero id f ok
      (fun v hv => ⟨f v, h v hv, rfl⟩) vs hv
    rw [List.map_id] at hmap
    simp only [unmarshalSlice, hts, hmap, sliceField, List.drop_nil, ite_self]
  | _ => simp [sliceAccepted] at hv

/-- The members of an Event object stored in an `Event` whose slices have fresh
memory wherever the object names them: each field ends as the member of its
name, or as it was. -/
theorem unmarshalMembers_event (ms : List (String × JSON)) :
    ∀ cur : EventTarget, ms.all eventObjectMember = true →
      namedOnce ms "id" = true →
      namedOnce ms "slug" = true →
      namedOnce ms "title" = true →
      namedOnce ms "active" = true →
      namedOnce ms "closed" = true →
      namedOnce ms "tags" = true →
      namedOnce ms "markets" = true →
      (member ms "tags" = none ∨ cur.val.Tags.getD [] ++ cur.tagsSpare = []) →
      (member ms "markets" = none ∨ cur.val.Markets.getD [] ++ cur.marketsSpare = []) →
      ∃ t, unmarshalMembers eventField cur ms = .ok t ∧
        t.val = { ID := stringField cur.val.ID (member ms "id")
                  Slug := stringField cur.val.Slug (member ms "slug")
                  Title := stringField cur.val.Title (member ms "title")
                  Active := boolField cur.val.Active (member ms "active")
                  Closed := boolField cur.val.Closed (member ms "closed")
                  Tags := sliceField tagOf cur.val.Tags (member ms "tags")
                  Markets := sliceField marketOf cur.val.Markets (member ms "markets") } := by
  induction ms with
  | nil => intro cur _ _ _ _ _ _ _ _ _ _; exact ⟨cur, rfl, rfl⟩
  | cons m rest ih =>
    obtain ⟨k, v⟩ := m
    intro cur hacc h1 h2 h3 h4 h5 h6 h7 hT hM
    rw [List.all_cons, Bool.and_eq_true] at hacc
    obtain ⟨hm, hrest⟩ := hacc
    have IH := fun next => ih next hrest (namedOnce_tail _ _ _ h1) (namedOnce_tail _ _ _ h2)
      (namedOnce_tail _ _ _ h3) (namedOnce_tail _ _ _ h4) (namedOnce_tail _ _ _ h5)
      (namedOnce_tail _ _ _ h6) (namedOnce_tail _ _ _ h7)
    have mco := member_cons_other k v rest
    simp only [unmarshalMembers]
    unfold eventObjectMember at hm
    simp only [namedLike_eq] at hm
    by_cases c1 : keyMatches k "id" = true
    · have n2 := keyMatches_unique k "id" "slug" (by decide) c1
      have n3 := keyMatches_unique k "id" "title" (by decide) c1
      have n4 := keyMatches_unique k "id" "active" (by decide) c1
      have n5 := keyMatches_unique k "id" "closed" (by decide) c1
      have n6 := keyMatches_unique k "id" "tags" (by decide) c1
      have n7 := keyMatches_unique k "id" "markets" (by decide) c1
      simp only [c1, if_true, Bool.false_eq_true, if_false] at hm
      obtain ⟨e1, e2⟩ := unmarshalString_member cur.val.ID k v rest "id" c1 hm h1
      have hf : eventField cur k v
          = .ok ({ cur with val := { cur.val with ID := stringField cur.val.ID (member ((k, v) :: rest) "id") } } : EventTarget) := by
        simp only [eventField, c1, if_true, Bool.false_eq_true, if_false, e1, Except.map]
      obtain ⟨t, ht, hv⟩ := IH ({ cur with val := { cur.val with ID := stringField cur.val.ID (member ((k, v) :: rest) "id") } } : EventTarget)
        (hT.imp (fun h => by rwa [mco _ n6] at h) id)
        (hM.imp (fun h => by rwa [mco _ n7] at h) id)
      refine ⟨t, ?_, ?_⟩
      · rw [hf]; exact ht
      · rw [hv]
        simp only [e2, mco _ n2, mco _ n3, mco _ n4, mco _ n5, mco _ n6, mco _ n7]
    · rw [Bool.not_eq_true] at c1
      by_cases c2 : keyMatches k "slug" = true
      · have n3 := keyMatches_unique k "slug" "title" (by decide) c2
        have n4 := keyMatches_unique k "slug" "active" (by decide) c2
        have n5 := keyMatches_unique k "slug" "closed" (by decide) c2
        have n6 := keyMatches_unique k "slug" "tags" (by decide) c2
        have n7 := keyMatches_unique k "slug" "markets" (by decide) c2
        simp only [c1, c2, if_true, Bool.false_eq_true, if_false] at hm
        obtain ⟨e1, e2⟩ := unmarshalString_member cur.val.Slug k v rest "slug" c2 hm h2
        have hf : eventField cur k v
            = .ok ({ cur with val := { cur.val with Slug := stringField cur.val.Slug (member ((k, v) :: rest) "slug") } } : EventTarget) := by
          simp only [eventField, c1, c2, if_true, Bool.false_eq_true, if_false, e1, Except.map]
        obtain ⟨t, ht, hv⟩ := IH ({ cur with val := { cur.val with Slug := stringField cur.val.Slug (member ((k, v) :: rest) "slug") } } : EventTarget)
          (hT.imp (fun h => by rwa [mco _ n6] at h) id)
          (hM.imp (fun h => by rwa [mco _ n7] at h) id)
        refine ⟨t, ?_, ?_⟩
        · rw [hf]; exact ht
        · rw [hv]
          simp only [e2, mco _ c1, mco _ n3, mco _ n4, mco _ n5, mco _ n6, mco _ n7]
      · rw [Bool.not_eq_true] at c2
        by_cases c3 : keyMatches k "title" = true
        · have n4 := keyMatches_unique k "title" "active" (by decide) c3
          have n5 := keyMatches_unique k "title" "closed" (by decide) c3
          have n6 := keyMatches_unique k "title" "tags" (by decide) c3
          have n7 := keyMatches_unique k "title" "markets" (by decide) c3
          simp only [c1, c2, c3, if_true, Bool.false_eq_true, if_false] at hm
          obtain ⟨e1, e2⟩ := unmarshalString_member cur.val.Title k v rest "title" c3 hm h3
          have hf : eventField cur k v
              = .ok ({ cur with val := { cur.val with Title := stringField cur.val.Title (member ((k, v) :: rest) "title") } } : EventTarget) := by
            simp only [eventField, c1, c2, c3, if_true, Bool.false_eq_true, if_false, e1, Except.map]
          obtain ⟨t, ht, hv⟩ := IH ({ cur with val := { cur.val with Title := stringField cur.val.Title (member ((k, v) :: rest) "title") } } : EventTarget)
            (hT.imp (fun h => by rwa [mco _ n6] at h) id)
            (hM.imp (fun h => by rwa [mco _ n7] at h) id)
          refine ⟨t, ?_, ?_⟩
          · rw [hf]; exact ht
          · rw [hv]
            simp only [e2, mco _ c1, mco _ c2, mco _ n4, mco _ n5, mco _ n6, mco _ n7]
        · rw [Bool.not_eq_true] at c3
          by_cases c4 : keyMatches k "active" = true
          · have n5 := keyMatches_unique k "active" "closed" (by decide) c4
            have n6 := keyMatches_unique k "active" "tags" (by decide) c4
            have n7 := keyMatches_unique k "active" "markets" (by decide) c4
            simp only [c1, c2, c3, c4, if_true, Bool.false_eq_true, if_false] at hm
            obtain ⟨e1, e2⟩ := unmarshalBool_member cur.val.Active k v rest "active" c4 hm h4
            have hf : eventField cur k v
                = .ok ({ cur with val := { cur.val with Active := boolField cur.val.Active (member ((k, v) :: rest) "active") } } : EventTarget) := by
              simp only [eventField, c1, c2, c3, c4, if_true, Bool.false_eq_true, if_false, e1, Except.map]
            obtain ⟨t, ht, hv⟩ := IH ({ cur with val := { cur.val with Active := boolField cur.val.Active (member ((k, v) :: rest) "active") } } : EventTarget)
              (hT.imp (fun h => by rwa [mco _ n6] at h) id)
              (hM.imp (fun h => by rwa [mco _ n7] at h) id)
            refine ⟨t, ?_, ?_⟩
            · rw [hf]; exact ht
            · rw [hv]
              simp only [e2, mco _ c1, mco _ c2, mco _ c3, mco _ n5, mco _ n6, mco _ n7]
          · rw [Bool.not_eq_true] at c4
            by_cases c5 : keyMatches k "closed" = true
            · have n6 := keyMatches_unique k "closed" "tags" (by decide) c5
              have n7 := keyMatches_unique k "closed" "markets" (by decide) c5
              simp only [c1, c2, c3, c4, c5, if_true, Bool.false_eq_true, if_false] at hm
              obtain ⟨e1, e2⟩ := unmarshalBool_member cur.val.Closed k v rest "closed" c5 hm h5
              have hf : eventField cur k v
                  = .ok ({ cur with val := { cur.val with Closed := boolField cur.val.Closed (member ((k, v) :: rest) "closed") } } : EventTarget) := by
                simp only [eventField, c1, c2, c3, c4, c5, if_true, Bool.false_eq_true, if_false, e1, Except.map]
              obtain ⟨t, ht, hv⟩ := IH ({ cur with val := { cur.val with Closed := boolField cur.val.Closed (member ((k, v) :: rest) "closed") } } : EventTarget)
                (hT.imp (fun h => by rwa [mco _ n6] at h) id)
                (hM.imp (fun h => by rwa [mco _ n7] at h) id)
              refine ⟨t, ?_, ?_⟩
              · rw [hf]; exact ht
              · rw [hv]
                simp only [e2, mco _ c1, mco _ c2, mco _ c3, mco _ c4, mco _ n6, mco _ n7]
            · rw [Bool.not_eq_true] at c5
              by_cases c6 : keyMatches k "tags" = true
              · have n7 := keyMatches_unique k "tags" "markets" (by decide) c6
                simp only [c1, c2, c3, c4, c5, c6, if_true, Bool.false_eq_true, if_false] at hm
                obtain ⟨e1, e2⟩ := unmarshalSlice_member unmarshalTag zeroTag tagOf tagObject
                  unmarshalTag_tagOf "[]polymarket.Tag" cur.val.Tags k v rest "tags" c6 hm h6
                have hold := hT.resolve_left (by rw [member_cons_match k v rest _ c6]; exact Option.some_ne_none v)
                have hf : eventField cur k v
                    = .ok ({ cur with
                          val := { cur.val with Tags := sliceField tagOf cur.val.Tags (member ((k, v) :: rest) "tags") }
                          tagsSpare := [] } : EventTarget) := by
                  simp only [eventField, c1, c2, c3, c4, c5, c6, if_true, Bool.false_eq_true, if_false, hold, e1, Except.map]
                obtain ⟨t, ht, hv⟩ := IH ({ cur with
                          val := { cur.val with Tags := sliceField tagOf cur.val.Tags (member ((k, v) :: rest) "tags") }
                          tagsSpare := [] } : EventTarget)
                  (Or.inl (member_none_of_namedOnce k v rest _ c6 h6))
                  (hM.imp (fun h => by rwa [mco _ n7] at h) id)
                refine ⟨t, ?_, ?_⟩
                · rw [hf]; exact ht
                · rw [hv]
                  simp only [e2, mco _ c1, mco _ c2, mco _ c3, mco _ c4, mco _ c5, mco _ n7]
              · rw [Bool.not_eq_true] at c6
                by_cases c7 : keyMatches k "markets" = true
                · simp only [c1, c2, c3, c4, c5, c6, c7, if_true, Bool.false_eq_true, if_false] at hm
                  obtain ⟨e1, e2⟩ := unmarshalSlice_member unmarshalMarket zeroMarket marketOf marketObject
                    unmarshalMarket_marketOf "[]polymarket.Market" cur.val.Markets k v rest "markets" c7 hm h7
                  have hold := hM.resolve_left (by rw [member_cons_match k v rest _ c7]; exact Option.some_ne_none v)
                  have hf : eventField cur k v
                      = .ok ({ cur with
                            val := { cur.val with Markets := sliceField marketOf cur.val.Markets (member ((k, v) :: rest) "markets") }
                            marketsSpare := [] } : EventTarget) := by
                    simp only [eventField, c1, c2, c3, c4, c5, c6, c7, if_true, Bool.false_eq_true, if_false, hold, e1, Except.map]
                  obtain ⟨t, ht, hv⟩ := IH ({ cur with
                            val := { cur.val with Markets := sliceField marketOf cur.val.Markets (member ((k, v) :: rest) "markets") }
                            marketsSpare := [] } : EventTarget)
                    (hT.imp (fun h => by rwa [mco _ c6] at h) id)
                    (Or.inl (member_none_of_namedOnce k v rest _ c7 h7))
                  refine ⟨t, ?_, ?_⟩
                  · rw [hf]; exact ht
                  · rw [hv]
                    simp only [e2, mco _ c1, mco _ c2, mco _ c3, mco _ c4, mco _ c5, mco _ c6]
                · rw [Bool.not_eq_true] at c7
                  have hf : eventField cur k v = .ok cur := by
                    simp only [eventField, c1, c2, c3, c4, c5, c6, c7, Bool.false_eq_true, if_false]
                  obtain ⟨t, ht, hv⟩ := IH cur
                    (hT.imp (fun h => by rwa [mco _ c6] at h) id)
                    (hM.imp (fun h => by rwa [mco _ c7] at h) id)
                  refine ⟨t, ?_, ?_⟩
                  · rw [hf]; exact ht
                  · rw [hv]
                    simp only [mco _ c1, mco _ c2, mco _ c3, mco _ c4, mco _ c5, mco _ c6, mco _ c7]

/-- An Event object stored in a zero `Event` in fresh memory gives the
`Event` it describes. -/
theorem unmarshalEvent_eventOf (v : JSON) (h : eventObject v = true) :
    ∃ t, unmarshalEvent zeroEventTarget v = .ok t ∧ t.val = eventOf v := by
  cases v with
  | object ms =>
    simp only [eventObject, Bool.and_eq_true, List.all_cons, List.all_nil, Bool.and_true] at h
    obtain ⟨hacc, h1, h2, h3, h4, h5, h6, h7⟩ := h
    exact unmarshalMembers_event ms zeroEventTarget hacc h1 h2 h3 h4 h5 h6 h7 (Or.inr rfl)
      (Or.inr rfl)
  | _ => simp [eventObject] at h

/-- An array of Event objects stored in a nil `[]Event` gives the events its
elements describe, in the order of the array. -/
theorem unmarshalEvents_eventOf (vs : List JSON) (h : vs.all eventObject = true) :
    unmarshalEvents (.array vs) = .ok (some (vs.map eventOf)) := by
  obtain ⟨ts, hts, hmap⟩ := unmarshalElems_all unmarshalEvent zeroEventTarget EventTarget.val
    eventOf eventObject unmarshalEvent_eventOf vs h
  simp only [unmarshalEvents, unmarshalSlice, hts, Except.map, Option.map_some', hmap]

/-- The text of an array of Event objects is decoded to the events its
elements describe. -/
theorem Unmarshal_eventObjects (body : String) (vs : List JSON)
    (hp : parse body = some (.array vs)) (h : vs.all eventObject = true) :
    Unmarshal body = .ok (some (vs.map eventOf)) := by
  unfold Unmarshal
  rw [hp]
  exact unmarshalEvents_eventOf vs h

theorem tagOf_tagJSON (t : Tag) : tagObject (tagJSON t) = true ∧ tagOf (tagJSON t) = t :=
  ⟨rfl, rfl⟩

theorem marketOf_marketJSON (m : Market) :
    marketObject (marketJSON m) = true ∧ marketOf (marketJSON m) = m :=
  ⟨rfl, rfl⟩

theorem sliceField_sliceJSON {α : Type} (toJ : α → JSON) (f : JSON → α) (ok : JSON → Bool)
    (h : ∀ x, ok (toJ x) = true ∧ f (toJ x) = x) (xs : Option (List α)) :
    sliceAccepted ok (sliceJSON toJ xs) = true
      ∧ sliceField f none (some (sliceJSON toJ xs)) = xs := by
  cases xs with
  | none => exact ⟨rfl, rfl⟩
  | some l =>
    constructor
    · simp only [sliceJSON, sliceAccepted, List.all_eq_true, List.mem_map]
      rintro v ⟨x, _, rfl⟩
      exact (h x).1
    · simp only [sliceJSON, sliceField, List.map_map, Option.some.injEq]
      exact (List.map_congr_left fun x _ => (h x).2).trans (List.map_id l)

/-- The JSON object of an `Event` is an Event object, and it describes that
`Event`. -/
theorem eventOf_eventJSON (e : Event) :
    eventObject (eventJSON e) = true ∧ eventOf (eventJSON e) = e := by
  obtain ⟨t1, t2⟩ := sliceField_sliceJSON tagJSON tagOf tagObject tagOf_tagJSON e.Tags
  obtain ⟨m1, m2⟩ := sliceField_sliceJSON marketJSON marketOf marketObject marketOf_marketJSON
    e.Markets
  constructor
  · unfold eventJSON eventObject
    rw [Bool.and_eq_true]
    refine ⟨?_, rfl⟩
    simp only [List.all_cons, List.all_nil, Bool.and_true, Bool.and_eq_true]
    exact ⟨rfl, rfl, rfl, rfl, rfl, t1, m1⟩
  · have h : eventOf (eventJSON e)
        = ⟨e.ID, e.Slug, e.Title, e.Active, e.Closed,
            sliceField tagOf none (some (sliceJSON tagJSON e.Tags)),
            sliceField marketOf none (some (sliceJSON marketJSON e.Markets))⟩ := rfl
    rw [h, t2, m2]

end DecodeLemmas

end GoPractice

namespace GoPractice

/-! ## The models on inputs whose outcome in Go is known

Each statement evaluates a model on concrete inputs; the outcomes are the
ones the Go standard library gives (its own tests and documentation). -/

section Vectors

open polymarket

set_option maxRecDepth 20000

/-- White space between tokens is space, tab, carriage return and line feed;
the three literal names and the forms of a number are read as they stand. -/
theorem parse_scalars :
    json.parse " \t\r\n[ ]\n" = some (.array []) ∧
    json.parse "true" = some (.bool true) ∧
    json.parse "false" = some (.bool false) ∧
    json.parse "null" = some .null ∧
    json.parse "0" = some (.number "0") ∧
    json.parse "-0" = some (.number "-0") ∧
    json.parse "12" = some (.number "12") ∧
    json.parse "1.5" = some (.number "1.5") ∧
    json.parse "1e5" = some (.number "1e5") ∧
    json.parse "1E+5" = some (.number "1E+5") ∧
    json.parse "-1.25e-3" = some (.number "-1.25e-3") ∧
    json.parse " 10.0E-0 " = some (.number "10.0E-0") :=
  ⟨rfl, rfl, rfl, rfl, rfl, rfl, rfl, rfl, rfl, rfl, rfl, rfl⟩

/-- Texts that are not a number or a literal name are syntax errors. -/
theorem parse_rejects_scalars :
    (["01", "-", "1.", ".5", "1e", "1e+", "+1", "0x1", "--1", "1.e1", "tru", "nul", "True",
      "NaN", "1a", "-a", "1 2", "truefalse", "nullnull", "", " "].all
        fun s => (json.parse s).isNone) = true := by
  decide

/-- The escapes of a string literal: the eight one-letter escapes, `\u` with
four hexadecimal digits of either case, a surrogate pair as one character, and
U+FFFD for a surrogate without its partner. -/
theorem parse_strings :
    json.parse "\"\\\"\\\\\\/\\b\\f\\n\\r\\t\""
      = some (.string (String.mk ['"', '\\', '/', Char.ofNat 8, Char.ofNat 12, '\n', '\r', '\t'])) ∧
    json.parse "\"\\u0041\\u00e9\\u00E9\\u20aC\"" = some (.string "Aéé€") ∧
    json.parse "\"\\ud83d\\ude00\"" = some (.string "😀") ∧
    json.parse "\"\\uD83D\\uDE00\"" = some (.string "😀") ∧
    json.parse "\"\\ud83d\"" = some (.string "\uFFFD") ∧
    json.parse "\"\\ude00\"" = some (.string "\uFFFD") ∧
    json.parse "\"\\ud83dA\"" = some (.string "\uFFFDA") ∧
    json.parse "\"\\ud83d\\u0041\"" = some (.string "\uFFFDA") ∧
    json.parse "\"\\ud83d\\n\"" = some (.string "\uFFFD\n") ∧
    json.parse "\"\\ud83d\\ud83d\\ude00\"" = some (.string "\uFFFD😀") ∧
    json.parse "\"\\ude00\\ud83d\"" = some (.string "\uFFFD\uFFFD") ∧
    json.parse "\"a\x7fb é😀\"" = some (.string "a\x7fb é😀") :=
  ⟨rfl, rfl, rfl, rfl, rfl, rfl, rfl, rfl, rfl, rfl, rfl, rfl⟩

/-- Escapes that JSON does not have, control characters in a string and a
string without its closing quote are syntax errors. -/
theorem parse_rejects_strings :
    (["\"\\x\"", "\"\\u12\"", "\"\\u12G4\"", "\"a\nb\"", "\"abc", "\"\\'\"", "'a'",
      "\"\\ud83d\\u12\"", "\"\\U0041\"", "\"\t\"", "\"\\\"", "\""].all
        fun s => (json.parse s).isNone) = true := by
  decide

/-- Arrays and objects, nested and with white space around every token; the
members of an object stay in their order, duplicates included. -/
theorem parse_structures :
    json.parse "\x7b\"a\":\x7b\"b\":[1,\x7b\"c\":null\x7d]\x7d\x7d"
      = some (.object [("a", .object [("b",
          .array [.number "1", .object [("c", .null)]])])]) ∧
    json.parse "[ 1 , \"x\" , [ ] , \x7b \x7d ,true]"
      = some (.array [.number "1", .string "x", .array [], .object [], .bool true]) ∧
    json.parse "\x7b\"\":1,\"a\":2,\"a\":3\x7d"
      = some (.object [("", .number "1"), ("a", .number "2"), ("a", .number "3")]) ∧
    json.parse "\x7b \"k\" : [ ] \x7d" = some (.object [("k", .array [])]) :=
  ⟨rfl, rfl, rfl, rfl⟩

/-- Texts that break the grammar of arrays and objects, and text after the
value, are syntax errors. -/
theorem parse_rejects_structures :
    (["[1,]", "[,1]", "\x7b\"a\"\x7d", "\x7b\"a\":1,\x7d", "[1 2]", "\x7b1:2\x7d", "[]]", "[",
      "\x7b", "[] x", "[][]", "\uFEFF[]", "\x7b\"a\":1 \"b\":2\x7d", "[1,,2]", "\x7b,\x7d",
      "[\"a\" \"b\"]", "[1\"a\"]", "[true false]", "[truefalse]", "\x7b\"a\":\x7d",
      "\x7b:1\x7d", "[1\x7d", "\x7b\"a\":1]", "]", "\x7d", ",", ":"].all
        fun s => (json.parse s).isNone) = true := by
  decide

/-- The scanner refuses an array or object that would be nested deeper than
`maxNestingDepth`, and no other. -/
theorem nesting_limit (stack : List json.Frame) :
    (stack.length + 1 ≤ 10000 →
      json.step (stack, .beginValue) .beginArray = some (.arr [] :: stack, .beginValueOrEmpty)
      ∧ json.step (stack, .beginValue) .beginObject
          = some (.obj [] none :: stack, .beginStringOrEmpty)) ∧
    (10000 < stack.length + 1 →
      json.step (stack, .beginValue) .beginArray = none
      ∧ json.step (stack, .beginValue) .beginObject = none) := by
  constructor
  · intro h
    exact ⟨step_beginArray stack _ (Or.inl rfl) h, step_beginObject stack _ (Or.inl rfl) h⟩
  · intro h
    have h' : ¬ stack.length + 1 ≤ json.maxNestingDepth := by
      unfold json.maxNestingDepth
      omega
    constructor <;> simp only [json.step, json.beginValue, if_neg h']

end Vectors

end GoPractice

namespace GoPractice

/-! ## The claims -/

open polymarket

set_option maxRecDepth 20000

/-- Claim C7: for every request to the events handler whose method is not GET,
whatever its query, the reply has status 405, the header
`Content-Type: application/json` and the body `{"error":"Method not allowed"}`
(followed by the line feed `Encode` appends); nothing is logged and no
outbound request is made, and the outcome does not depend on the query, so
the limit is not looked at. -/
theorem handleEvents_method_not_allowed (transport : http.Client) (r : http.Request)
    (h : r.Method ≠ "GET") :
    handleEvents transport freshWriter r
      = { w := replied 405 "application/json" "\x7b\"error\":\"Method not allowed\"\x7d\n",
          log := [], requests := [] } := by
  rw [handleEvents_of_not_get transport freshWriter r h, writeError_fresh]
  rfl

/-- Witness for C7: a POST with an invalid limit is answered 405. -/
theorem handleEvents_method_not_allowed_witness :
    (eventsRequest "POST" "limit=abc").Method ≠ "GET" ∧
    handleEvents (upstream ⟨200, "[]", none⟩) freshWriter (eventsRequest "POST" "limit=abc")
      = { w := replied 405 "application/json" "\x7b\"error\":\"Method not allowed\"\x7d\n",
          log := [], requests := [] } :=
  ⟨by decide, handleEvents_method_not_allowed _ _ (by decide)⟩

/-- Counterexample to C5 as stated: in `GET /api/events?limit=` the limit
parameter is present and its value, the empty string, is not numeric, yet the
handler does not answer 400: it treats the parameter as absent, calls the
upstream without a limit and answers 200.  The same holds for `?limit=%zz` and
`?limit=abc;`, whose pairs `url.ParseQuery` drops. -/
theorem empty_limit_is_not_rejected :
    ((eventsRequest "GET" "limit=").URL.Query.Has "limit" = true ∧
      limitOf (eventsRequest "GET" "limit=") = "" ∧
      isIntegerString (limitOf (eventsRequest "GET" "limit=")) = false ∧
      handleEvents (upstream ⟨200, "[]", none⟩) freshWriter (eventsRequest "GET" "limit=")
        = { w := replied 200 "application/json" "[]\n", log := [],
            requests := ["https://gamma-api.polymarket.com/events?active=true&closed=false"] }) ∧
    (limitOf (eventsRequest "GET" "limit=%zz") = "" ∧
      handleEvents (upstream ⟨200, "[]", none⟩) freshWriter (eventsRequest "GET" "limit=%zz")
        = { w := replied 200 "application/json" "[]\n", log := [],
            requests := ["https://gamma-api.polymarket.com/events?active=true&closed=false"] }) ∧
    (limitOf (eventsRequest "GET" "limit=abc;") = "" ∧
      handleEvents (upstream ⟨200, "[]", none⟩) freshWriter (eventsRequest "GET" "limit=abc;")
        = { w := replied 200 "application/json" "[]\n", log := [],
            requests := ["https://gamma-api.polymarket.com/events?active=true&closed=false"] }) := by
  decide

/-- Claim C5, amended: for every GET request, let the limit be what
`r.URL.Query().Get("limit")` reads.  When it is not empty and is not an integer
string, or denotes a negative integer, the reply has status 400, the header
`Content-Type: application/json` and the body
`{"error":"Invalid limit parameter"}` (and a line feed), and no outbound call
is made.  When it is empty the request is not rejected: the handler goes on
as for an absent limit.  The limit read is empty when the raw query has more
than 10000 parameters (10000 or more `&`), and it is `v` for the raw query
`limit=v` when `v` has no `&`, `;`, `%` or `+`. -/
theorem handleEvents_invalid_limit (transport : http.Client) (r : http.Request)
    (hm : r.Method = "GET") :
    (limitOf r ≠ "" →
      (isIntegerString (limitOf r) = false ∨ integerValue (limitOf r) < 0) →
      handleEvents transport freshWriter r
        = { w := replied 400 "application/json"
              "\x7b\"error\":\"Invalid limit parameter\"\x7d\n",
            log := [], requests := [] }) ∧
    (limitOf r = "" →
      handleEvents transport freshWriter r = respondEvents transport freshWriter 0 ∧
      (handleEvents transport freshWriter r).requests = [requestURL (some ⟨0⟩)] ∧
      (handleEvents transport freshWriter r).w.status ≠ 400) ∧
    (10000 ≤ r.URL.RawQuery.data.count '&' → limitOf r = "") ∧
    (∀ v, plainValue v = true → r.URL.RawQuery = "limit=" ++ v → limitOf r = v) := by
  refine ⟨?_, ?_, ?_, ?_⟩
  · intro hne hbad
    have hl : ¬ limitAccepted (limitOf r) := by
      rintro (h0 | ⟨h1, h2, _⟩)
      · exact hne h0
      · rcases hbad with hb | hb
        · rw [h1] at hb
          cases hb
        · omega
    rw [handleEvents_of_rejected transport freshWriter r hm hl, writeError_fresh]
    rfl
  · intro he
    have hh := handleEvents_of_accepted transport freshWriter r hm (Or.inl he)
    have hp : parsedLimit (limitOf r) = 0 := by
      unfold parsedLimit
      rw [if_pos he]
    rw [hp] at hh
    refine ⟨hh, ?_, ?_⟩
    · rw [hh, respondEvents_requests]
    · rw [hh]
      rcases respondEvents_status transport 0 with h | h <;> rw [h] <;> decide
  · intro hc
    show (url.ParseQuery r.URL.RawQuery).Get "limit" = ""
    rw [ParseQuery_too_many _ hc]
    rfl
  · intro v hv hq
    have := limitOf_plain r.Method v hv
    unfold limitOf eventsRequest url.URL.Query at this
    unfold limitOf url.URL.Query
    rw [hq]
    exact this

/-- Witness for C5: `limit=abc` and `limit=-5` are answered 400. -/
theorem handleEvents_invalid_limit_witness :
    (limitOf (eventsRequest "GET" "limit=abc") = "abc" ∧
      isIntegerString (limitOf (eventsRequest "GET" "limit=abc")) = false ∧
      handleEvents (upstream ⟨200, "[]", none⟩) freshWriter (eventsRequest "GET" "limit=abc")
        = { w := replied 400 "application/json"
              "\x7b\"error\":\"Invalid limit parameter\"\x7d\n",
            log := [], requests := [] }) ∧
    (limitOf (eventsRequest "GET" "limit=-5") = "-5" ∧
      integerValue (limitOf (eventsRequest "GET" "limit=-5")) < 0 ∧
      handleEvents (upstream ⟨200, "[]", none⟩) freshWriter (eventsRequest "GET" "limit=-5")
        = { w := replied 400 "application/json"
              "\x7b\"error\":\"Invalid limit parameter\"\x7d\n",
            log := [], requests := [] }) :=
  ⟨⟨by decide, by decide,
      (handleEvents_invalid_limit (upstream ⟨200, "[]", none⟩)
        (eventsRequest "GET" "limit=abc") (by decide)).1 (by decide) (Or.inl (by decide))⟩,
   ⟨by decide, by decide,
      (handleEvents_invalid_limit (upstream ⟨200, "[]", none⟩)
        (eventsRequest "GET" "limit=-5") (by decide)).1 (by decide) (Or.inr (by decide))⟩⟩

/-- Counterexample to C6 as stated: `9223372036854775808` is a non-negative
integer string, but `strconv.Atoi` reports a range error for it and the
handler answers 400 without calling the upstream. -/
theorem limit_beyond_int_range_is_rejected :
    isIntegerString "9223372036854775808" = true ∧
    integerValue "9223372036854775808" = 9223372036854775808 ∧
    limitOf (eventsRequest "GET" "limit=9223372036854775808") = "9223372036854775808" ∧
    strconv.Atoi "9223372036854775808" = .error .ErrRange ∧
    handleEvents (upstream ⟨200, "[]", none⟩) freshWriter
        (eventsRequest "GET" "limit=9223372036854775808")
      = { w := replied 400 "application/json" "\x7b\"error\":\"Invalid limit parameter\"\x7d\n",
          log := [], requests := [] } := by
  decide

/-- Claim C6, amended: for every GET request, let the limit be what
`r.URL.Query().Get("limit")` reads, and let it be an integer string that
denotes a number that is not negative.  When the number is at most 2^63 - 1,
`strconv.Atoi` yields exactly that number, the handler goes on with that
number as the limit (so `FetchActiveEvents` is called with it as `Limit`, and
the one outbound call is the one for that limit), and the reply is not a 400.
When the number is beyond 2^63 - 1, `strconv.Atoi` reports a range error and
the reply is the 400 for an invalid limit, without an outbound call. -/
theorem handleEvents_valid_limit (transport : http.Client) (r : http.Request)
    (hm : r.Method = "GET") (hint : isIntegerString (limitOf r) = true)
    (h0 : 0 ≤ integerValue (limitOf r)) :
    (integerValue (limitOf r) < 9223372036854775808 →
      strconv.Atoi (limitOf r) = .ok (integerValue (limitOf r)) ∧
      handleEvents transport freshWriter r
        = respondEvents transport freshWriter (integerValue (limitOf r)) ∧
      (handleEvents transport freshWriter r).requests
        = [requestURL (some ⟨integerValue (limitOf r)⟩)] ∧
      (handleEvents transport freshWriter r).w.status ≠ 400) ∧
    (9223372036854775808 ≤ integerValue (limitOf r) →
      strconv.Atoi (limitOf r) = .error .ErrRange ∧
      handleEvents transport freshWriter r
        = { w := replied 400 "application/json"
              "\x7b\"error\":\"Invalid limit parameter\"\x7d\n",
            log := [], requests := [] }) := by
  have hne : limitOf r ≠ "" := by
    intro e
    rw [e] at hint
    revert hint
    decide
  constructor
  · intro hr
    have hp : parsedLimit (limitOf r) = integerValue (limitOf r) := by
      unfold parsedLimit
      rw [if_neg hne]
    have hh := handleEvents_of_accepted transport freshWriter r hm (Or.inr ⟨hint, h0, hr⟩)
    rw [hp] at hh
    refine ⟨(Atoi_eq_ok_iff _ _).mpr ⟨hint, rfl, by omega, hr⟩, hh, ?_, ?_⟩
    · rw [hh, respondEvents_requests]
    · rw [hh]
      rcases respondEvents_status transport (integerValue (limitOf r)) with h | h <;> rw [h] <;>
        decide
  · intro hr
    have hl : ¬ limitAccepted (limitOf r) := by
      rintro (h | ⟨_, _, h3⟩)
      · exact hne h
      · omega
    constructor
    · rw [Atoi_integerString _ hint, if_neg (by omega)]
    · rw [handleEvents_of_rejected transport freshWriter r hm hl, writeError_fresh]
      rfl

/-- Witness for C6: `limit=5` is passed on as the limit 5. -/
theorem handleEvents_valid_limit_witness :
    limitOf (eventsRequest "GET" "limit=5") = "5" ∧
    isIntegerString (limitOf (eventsRequest "GET" "limit=5")) = true ∧
    integerValue (limitOf (eventsRequest "GET" "limit=5")) = 5 ∧
    (strconv.Atoi (limitOf (eventsRequest "GET" "limit=5"))
        = .ok (integerValue (limitOf (eventsRequest "GET" "limit=5"))) ∧
      handleEvents (upstream ⟨200, "[]", none⟩) freshWriter (eventsRequest "GET" "limit=5")
        = respondEvents (upstream ⟨200, "[]", none⟩) freshWriter
            (integerValue (limitOf (eventsRequest "GET" "limit=5"))) ∧
      (handleEvents (upstream ⟨200, "[]", none⟩) freshWriter
          (eventsRequest "GET" "limit=5")).requests
        = [requestURL (some ⟨integerValue (limitOf (eventsRequest "GET" "limit=5"))⟩)] ∧
      (handleEvents (upstream ⟨200, "[]", none⟩) freshWriter
          (eventsRequest "GET" "limit=5")).w.status ≠ 400) :=
  ⟨by decide, by decide, by decide,
    ((handleEvents_valid_limit (upstream ⟨200, "[]", none⟩) (eventsRequest "GET" "limit=5")
      (by decide) (by decide) (by decide)).1 (by decide)).1,
    ((handleEvents_valid_limit (upstream ⟨200, "[]", none⟩) (eventsRequest "GET" "limit=5")
      (by decide) (by decide) (by decide)).1 (by decide)).2.1,
    ((handleEvents_valid_limit (upstream ⟨200, "[]", none⟩) (eventsRequest "GET" "limit=5")
      (by decide) (by decide) (by decide)).1 (by decide)).2.2.1,
    ((handleEvents_valid_limit (upstream ⟨200, "[]", none⟩) (eventsRequest "GET" "limit=5")
      (by decide) (by decide) (by decide)).1 (by decide)).2.2.2⟩

/-- Counterexample to C10 as stated: a POST, and a GET with an invalid limit,
are answered without any outbound request. -/
theorem rejected_request_makes_no_outbound_call :
    (handleEvents (upstream ⟨200, "[]", none⟩) freshWriter
        (eventsRequest "POST" "")).requests = [] ∧
    (handleEvents (upstream ⟨200, "[]", none⟩) freshWriter
        (eventsRequest "GET" "limit=abc")).requests = [] := by
  decide

/-- Claim C10, amended: every invocation of the events handler makes at most
one outbound call, and it makes exactly one if and only if the method is GET
and the limit that `r.URL.Query().Get("limit")` reads is empty (no limit
parameter, one without a value, one that `url.ParseQuery` drops) or an integer
string that denotes a number from 0 to 2^63 - 1; that call is the one the
client the handler constructs makes for the parsed limit. -/
theorem handleEvents_outbound_calls (transport : http.Client) (r : http.Request) :
    (handleEvents transport freshWriter r).requests.length ≤ 1 ∧
    ((handleEvents transport freshWriter r).requests.length = 1
      ↔ r.Method = "GET" ∧ limitAccepted (limitOf r)) ∧
    (r.Method = "GET" → limitAccepted (limitOf r) →
      (handleEvents transport freshWriter r).requests
        = ((NewClient transport).FetchActiveEvents
            (some ⟨parsedLimit (limitOf r)⟩)).requests) := by
  by_cases hm : r.Method = "GET"
  · by_cases hl : limitAccepted (limitOf r)
    · have hh := handleEvents_of_accepted transport freshWriter r hm hl
      have hq := respondEvents_requests transport freshWriter (parsedLimit (limitOf r))
      rw [hh, hq]
      refine ⟨by simp, ⟨fun _ => ⟨hm, hl⟩, fun _ => rfl⟩, fun _ _ => ?_⟩
      rw [NewClient_FetchActiveEvents, readResponse_requests]
    · rw [handleEvents_of_rejected transport freshWriter r hm hl]
      refine ⟨by simp, ⟨fun h => ?_, fun h => absurd h.2 hl⟩, fun _ h => absurd h hl⟩
      simp at h
  · rw [handleEvents_of_not_get transport freshWriter r hm]
    refine ⟨by simp, ⟨fun h => ?_, fun h => absurd h.1 hm⟩, fun h => absurd h hm⟩
    simp at h

/-- Counterexample to C1 as stated: for the base URL `http://example.com`
followed by a line feed, `url.Parse` fails and `FetchActiveEvents` returns the
error `failed to parse base URL: ...` without requesting any URL. -/
theorem malformed_base_url_breaks_request :
    (Client.FetchActiveEvents ⟨"http://example.com\n", upstream ⟨200, "[]", none⟩⟩
        none).requests = [] ∧
    (Client.FetchActiveEvents ⟨"http://example.com\n", upstream ⟨200, "[]", none⟩⟩
        none).events = none ∧
    ∃ e, (Client.FetchActiveEvents ⟨"http://example.com\n", upstream ⟨200, "[]", none⟩⟩
        none).err = some ("failed to parse base URL: " ++ e) :=
  ⟨by decide, by decide, _, rfl⟩

/-- Claim C1, amended: for every base URL without `?` and `#` for which
`url.Parse` accepts `<base>/events`, and for every options value (nil
included), `FetchActiveEvents` makes exactly one outbound call, for the URL
that `url.Parse` read from `<base>/events`, written back by `URL.String`, and
followed by `?active=true&closed=false` and then by the limit parameter.  The
limit parameter is `&limit=<N>`, `<N>` being the limit in decimal, when the
options are not nil and their limit `N` is greater than zero, and it is
nothing at all otherwise. -/
theorem FetchActiveEvents_request_URL (c : Client) (options : Option FetchActiveEventsOptions)
    (u : url.URL) (hq : c.BaseURL.data.contains '?' = false)
    (hf : c.BaseURL.data.contains '#' = false)
    (hparse : url.Parse (c.BaseURL ++ "/events") = .ok u) :
    (c.FetchActiveEvents options).requests
      = [u.String ++ "?" ++ ("active=true&closed=false" ++ limitParam options)] ∧
    (∀ o, options = some o → 0 < o.Limit →
      limitParam options = "&limit=" ++ strconv.FormatInt o.Limit ∧
      isIntegerString (strconv.FormatInt o.Limit) = true ∧
      integerValue (strconv.FormatInt o.Limit) = o.Limit) ∧
    ((∀ o, options = some o → o.Limit ≤ 0) → limitParam options = "") := by
  have hq' : (c.BaseURL ++ "/events").data.contains '?' = false := by
    rw [String.data_append, contains_append, hq]
    decide
  have hf' : (c.BaseURL ++ "/events").data.contains '#' = false := by
    rw [String.data_append, contains_append, hf]
    decide
  obtain ⟨h1, h2, h3⟩ := Parse_no_query _ hq' hf' u hparse
  refine ⟨?_, ?_, ?_⟩
  · rw [FetchActiveEvents_of_parse c options u hparse, readResponse_requests]
    have hQ : u.Query = [] := by
      unfold url.URL.Query
      rw [h1]
      decide
    rw [hQ, buildQuery_nil_Encode, String_with_query u h1 h2 h3]
    intro e
    have := congrArg String.length e
    simp [String.length_append] at this
    exact absurd this.1 (by decide)
  · intro o ho hl
    subst ho
    refine ⟨?_, (FormatInt_value o.Limit).1, (FormatInt_value o.Limit).2⟩
    simp only [limitParam, hl, if_true]
  · intro h
    cases options with
    | none => rfl
    | some o =>
      have := h o rfl
      simp only [limitParam]
      rw [if_neg (by omega)]

/-- Witness for C1: the default client with the limit 5 requests
`https://gamma-api.polymarket.com/events?active=true&closed=false&limit=5`, and
a client for the base URL `http://127.0.0.1:8080/api` without options requests
`http://127.0.0.1:8080/api/events?active=true&closed=false`. -/
theorem FetchActiveEvents_request_URL_witness :
    (url.Parse ((NewClient (upstream ⟨200, "[]", none⟩)).BaseURL ++ "/events")
        = .ok (eventsURL "") ∧
      ((NewClient (upstream ⟨200, "[]", none⟩)).FetchActiveEvents (some ⟨5⟩)).requests
        = ["https://gamma-api.polymarket.com/events?active=true&closed=false&limit=5"]) ∧
    (Client.FetchActiveEvents ⟨"http://127.0.0.1:8080/api", upstream ⟨200, "[]", none⟩⟩
        none).requests
      = ["http://127.0.0.1:8080/api/events?active=true&closed=false"] :=
  ⟨⟨by decide,
    (FetchActiveEvents_request_URL (NewClient (upstream ⟨200, "[]", none⟩)) (some ⟨5⟩)
      (eventsURL "") (by decide) (by decide) (by decide)).1.trans (by decide)⟩,
   (FetchActiveEvents_request_URL ⟨"http://127.0.0.1:8080/api", upstream ⟨200, "[]", none⟩⟩
      none { Scheme := "http", Host := "127.0.0.1:8080", Path := "/api/events" }
      (by decide) (by decide) (by decide)).1.trans (by decide)⟩

/-- Claim C2: for every upstream response with status 200 whose body was read
in full and is the JSON text of an array of Event objects,
`FetchActiveEvents` (of the client `NewClient` constructs, for any options)
returns no error and the events the elements of the array describe: as many as
the array has elements, in its order, each with the fields id, slug, title,
active, closed, tags and markets of the object at its position (the zero value
for a member the object does not have or that is `null`).  An Event object is
a JSON object in which every member named like a field holds a value of the
field's JSON type or `null` and no field is named twice, the elements of `tags`
and `markets` being such objects for `Tag` and `Market`; its members may come
in any order and be named in any case, and members that are no field of the
data model are skipped. -/
theorem FetchActiveEvents_returns_events (transport : http.Client)
    (options : Option FetchActiveEventsOptions) (resp : http.Response)
    (vs : List json.JSON)
    (hget : transport (requestURL options) = .ok resp)
    (hs : resp.StatusCode = 200) (hread : resp.ReadErr = none)
    (hbody : json.parse resp.Body = some (.array vs))
    (hobj : vs.all json.eventObject = true) :
    (NewClient transport).FetchActiveEvents options
      = ⟨some (vs.map json.eventOf), none, [requestURL options]⟩ := by
  rw [NewClient_FetchActiveEvents, hget]
  unfold readResponse
  simp only [hs, http.StatusOK, ne_eq, not_true_eq_false, if_false, hread]
  rw [Unmarshal_eventObjects resp.Body vs hbody hobj]

/-- Witness for C2: an array of one event with one tag and one market, whose
objects name their members in another order and another case than the data
model (`ID`, `Title`, `ACTIVE`, `Markets`, `clobtokenids`), have members of
their own, and write the title with the escapes `\ud83d\ude00` (one character),
`\u00e9` and `\/`, is returned field for field, the market's three
JSON-in-a-string fields included. -/
theorem FetchActiveEvents_returns_events_witness :
    json.parse exampleBody = some (.array exampleArray) ∧
    exampleArray.all json.eventObject = true ∧
    exampleArray.map json.eventOf = exampleEvents ∧
    (NewClient (upstream ⟨200, exampleBody, none⟩)).FetchActiveEvents none
      = ⟨some exampleEvents, none,
          ["https://gamma-api.polymarket.com/events?active=true&closed=false"]⟩ :=
  ⟨rfl, by decide, by decide,
    (FetchActiveEvents_returns_events (upstream ⟨200, exampleBody, none⟩) none
      ⟨200, exampleBody, none⟩ exampleArray rfl rfl rfl rfl (by decide)).trans (by decide)⟩

/-- Claim C3: for every upstream response whose status code is not 200,
whatever its body, `FetchActiveEvents` (of the client `NewClient` constructs,
for any options) returns no events and the error
`API returned status <status>: <body>`, and the events handler, for a GET
request whose limit is absent or valid, replies with status 500, the header
`Content-Type: application/json` and the JSON object whose member `error` is
`Failed to fetch events: ` followed by that error; read as JSON, the reply body
is that object with that message. -/
theorem upstream_error_is_reported (transport : http.Client) (r : http.Request)
    (resp : http.Response) (hs : resp.StatusCode ≠ 200)
    (hup : ∀ target, transport target = .ok resp)
    (hm : r.Method = "GET") (hl : limitAccepted (limitOf r)) :
    (∀ options, (NewClient transport).FetchActiveEvents options
      = ⟨none, some ("API returned status " ++ strconv.FormatInt resp.StatusCode ++ ": "
            ++ resp.Body), [requestURL options]⟩) ∧
    (handleEvents transport freshWriter r).w
      = replied 500 "application/json"
          (json.MarshalError ("Failed to fetch events: " ++ ("API returned status "
            ++ strconv.FormatInt resp.StatusCode ++ ": " ++ resp.Body)) ++ "\n") ∧
    json.parse (handleEvents transport freshWriter r).w.body
      = some (.object [("error", .string ("Failed to fetch events: " ++ ("API returned status "
          ++ strconv.FormatInt resp.StatusCode ++ ": " ++ resp.Body)))]) := by
  have hread : ∀ target, readResponse target (.ok resp)
      = ⟨none, some ("API returned status " ++ strconv.FormatInt resp.StatusCode ++ ": "
          ++ resp.Body), [target]⟩ := by
    intro target
    unfold readResponse
    simp only [http.StatusOK, ne_eq, hs, not_false_eq_true, if_true]
  have hfetch : ∀ options, (NewClient transport).FetchActiveEvents options
      = ⟨none, some ("API returned status " ++ strconv.FormatInt resp.StatusCode ++ ": "
            ++ resp.Body), [requestURL options]⟩ := by
    intro options
    rw [NewClient_FetchActiveEvents, hup, hread]
  have hh : (handleEvents transport freshWriter r).w
      = replied 500 "application/json"
          (json.MarshalError ("Failed to fetch events: " ++ ("API returned status "
            ++ strconv.FormatInt resp.StatusCode ++ ": " ++ resp.Body)) ++ "\n") := by
    rw [handleEvents_of_accepted transport freshWriter r hm hl,
      respondEvents_of_err transport _ _ (by rw [hfetch])]
  refine ⟨hfetch, hh, ?_⟩
  rw [hh]
  exact parse_MarshalError _

/-- Witness for C3: the upstream answers 500 with the body `oops`. -/
theorem upstream_error_is_reported_witness :
    (handleEvents (upstream ⟨500, "oops", none⟩) freshWriter (eventsRequest "GET" "")).w
      = replied 500 "application/json"
          "\x7b\"error\":\"Failed to fetch events: API returned status 500: oops\"\x7d\n" ∧
    (NewClient (upstream ⟨500, "oops", none⟩)).FetchActiveEvents none
      = ⟨none, some "API returned status 500: oops",
          ["https://gamma-api.polymarket.com/events?active=true&closed=false"]⟩ :=
  ⟨(upstream_error_is_reported (upstream ⟨500, "oops", none⟩) (eventsRequest "GET" "")
      ⟨500, "oops", none⟩ (by decide) (fun _ => rfl) (by decide) (Or.inl (by decide))).2.1.trans
      (by decide),
   ((upstream_error_is_reported (upstream ⟨500, "oops", none⟩) (eventsRequest "GET" "")
      ⟨500, "oops", none⟩ (by decide) (fun _ => rfl) (by decide) (Or.inl (by decide))).1
      none).trans (by decide)⟩

/-- Counterexample to C4 as stated: the body `null` is valid JSON that is not
an array of events, yet with status 200 `FetchActiveEvents` returns no error
(and a nil slice), and the handler replies 200. -/
theorem null_body_is_not_a_decode_error :
    json.parse "null" = some .null ∧
    (NewClient (upstream ⟨200, "null", none⟩)).FetchActiveEvents none
      = ⟨none, none, ["https://gamma-api.polymarket.com/events?active=true&closed=false"]⟩ ∧
    (handleEvents (upstream ⟨200, "null", none⟩) freshWriter
        (eventsRequest "GET" "")).w.status = 200 :=
  ⟨rfl, by decide, by decide⟩

/-- Claim C4, amended: for every upstream response with status 200 whose
body, read in full, is not valid JSON, or is a JSON value that cannot be stored
in a `[]Event` (a value other than an array or `null`; an array with an element
other than an object or `null`; an object with a member named like a field whose
value has another JSON type than the field and is not `null`),
`FetchActiveEvents` returns no events and the error `failed to unmarshal JSON:
...`, and the events handler, for a GET request whose limit is absent or
valid, replies with status 500 and the error envelope for it. -/
theorem decode_error_is_reported (transport : http.Client) (r : http.Request)
    (resp : http.Response) (hs : resp.StatusCode = 200) (hread : resp.ReadErr = none)
    (hup : ∀ target, transport target = .ok resp)
    (hm : r.Method = "GET") (hl : limitAccepted (limitOf r))
    (hbad : json.parse resp.Body = none
      ∨ ∃ v, json.parse resp.Body = some v ∧ json.eventsAccepted v = false) :
    ∃ e, json.Unmarshal resp.Body = .error e ∧
      (∀ options, (NewClient transport).FetchActiveEvents options
        = ⟨none, some ("failed to unmarshal JSON: " ++ e), [requestURL options]⟩) ∧
      handleEvents transport freshWriter r
        = { w := replied 500 "application/json"
              (json.MarshalError ("Failed to fetch events: " ++ ("failed to unmarshal JSON: " ++ e))
                ++ "\n"),
            log := ["Error fetching events: " ++ ("failed to unmarshal JSON: " ++ e)],
            requests := [requestURL (some ⟨parsedLimit (limitOf r)⟩)] } := by
  obtain ⟨e, he⟩ := (Unmarshal_error_iff resp.Body).mpr hbad
  have hf : ∀ options, (NewClient transport).FetchActiveEvents options
      = ⟨none, some ("failed to unmarshal JSON: " ++ e), [requestURL options]⟩ := by
    intro options
    rw [NewClient_FetchActiveEvents, hup]
    unfold readResponse
    simp only [hs, http.StatusOK, ne_eq, not_true_eq_false, if_false, hread, he]
  refine ⟨e, he, hf, ?_⟩
  rw [handleEvents_of_accepted transport freshWriter r hm hl,
    respondEvents_of_err transport _ ("failed to unmarshal JSON: " ++ e) (by rw [hf])]

/-- Witness for C4: the body `not json` is a decode error, answered 500. -/
theorem decode_error_is_reported_witness :
    json.parse "not json" = none ∧
    ∃ e, json.Unmarshal "not json" = .error e ∧
      (∀ options, (NewClient (upstream ⟨200, "not json", none⟩)).FetchActiveEvents options
        = ⟨none, some ("failed to unmarshal JSON: " ++ e), [requestURL options]⟩) ∧
      handleEvents (upstream ⟨200, "not json", none⟩) freshWriter (eventsRequest "GET" "")
        = { w := replied 500 "application/json"
              (json.MarshalError ("Failed to fetch events: " ++ ("failed to unmarshal JSON: " ++ e))
                ++ "\n"),
            log := ["Error fetching events: " ++ ("failed to unmarshal JSON: " ++ e)],
            requests := [requestURL (some ⟨parsedLimit (limitOf (eventsRequest "GET" ""))⟩)] } :=
  ⟨rfl, decode_error_is_reported (upstream ⟨200, "not json", none⟩) (eventsRequest "GET" "")
    ⟨200, "not json", none⟩ rfl rfl (fun _ => rfl) (by decide) (Or.inl (by decide))
    (Or.inl rfl)⟩

/-- Counterexample to C8 as stated: when the upstream answers 200 with the
body `null`, `FetchActiveEvents` succeeds (with a nil slice) and the handler
replies 200 with the body `null`, which is not a JSON array. -/
theorem nil_events_are_written_as_null :
    ((NewClient (upstream ⟨200, "null", none⟩)).FetchActiveEvents (some ⟨0⟩)).err = none ∧
    handleEvents (upstream ⟨200, "null", none⟩) freshWriter (eventsRequest "GET" "")
      = { w := replied 200 "application/json" "null\n", log := [],
          requests := ["https://gamma-api.polymarket.com/events?active=true&closed=false"] } ∧
    json.parse "null\n" = some .null :=
  ⟨by decide, by decide, rfl⟩

/-- Claim C8, amended: for every GET request with an absent or valid limit on
which `FetchActiveEvents` succeeds, the events handler (writing to a working
connection) replies with status 200, the header `Content-Type:
application/json` and, followed by a line feed, the text `json.Marshal` gives
for the returned slice: for a non-nil slice the JSON array of the events in
their order (read as JSON, the body is the array of the events' objects), and
for the nil slice the text `null`. -/
theorem handleEvents_success (transport : http.Client) (r : http.Request)
    (events : Option (List Event)) (reqs : List String)
    (hm : r.Method = "GET") (hl : limitAccepted (limitOf r))
    (hfetch : (NewClient transport).FetchActiveEvents (some ⟨parsedLimit (limitOf r)⟩)
      = ⟨events, none, reqs⟩) :
    handleEvents transport freshWriter r
      = { w := replied 200 "application/json" (json.MarshalEvents events ++ "\n"),
          log := [], requests := [requestURL (some ⟨parsedLimit (limitOf r)⟩)] } ∧
    json.MarshalEvents events
      = (match events with
        | none => "null"
        | some l => String.mk ('[' :: (json.joinComma (l.map json.marshalEvent) ++ [']']))) ∧
    json.parse (handleEvents transport freshWriter r).w.body
      = some (match events with
        | none => .null
        | some l => .array (l.map json.eventJSON)) := by
  have hh : handleEvents transport freshWriter r
      = { w := replied 200 "application/json" (json.MarshalEvents events ++ "\n"),
          log := [], requests := [requestURL (some ⟨parsedLimit (limitOf r)⟩)] } := by
    rw [handleEvents_of_accepted transport freshWriter r hm hl,
      respondEvents_of_ok transport _ (by rw [hfetch]), hfetch]
  refine ⟨hh, ?_, ?_⟩
  · cases events <;> rfl
  · rw [hh]
    have := (parse_MarshalEvents events).2
    cases events <;> exact this

/-- Witness for C8: the upstream answers 200 with `[]`, the handler replies
200 with `[]`. -/
theorem handleEvents_success_witness :
    handleEvents (upstream ⟨200, "[]", none⟩) freshWriter (eventsRequest "GET" "")
      = { w := replied 200 "application/json" "[]\n", log := [],
          requests := ["https://gamma-api.polymarket.com/events?active=true&closed=false"] } :=
  (handleEvents_success (upstream ⟨200, "[]", none⟩) (eventsRequest "GET" "") (some [])
    ["https://gamma-api.polymarket.com/events?active=true&closed=false"]
    (by decide) (Or.inl (by decide)) (by decide)).1.trans (by decide)

/-- Claim C9: for every GET request with an absent or valid limit on which
`FetchActiveEvents` succeeds, reading the body of the handler's reply with
`json.Unmarshal` gives back exactly the events `FetchActiveEvents` returned:
the same number of events in the same order, every field of every Event, Tag
and Market equal, the Market fields clobTokenIds, outcomes and outcomePrices
the same strings. -/
theorem response_round_trip (transport : http.Client) (r : http.Request)
    (events : Option (List Event)) (reqs : List String)
    (hm : r.Method = "GET") (hl : limitAccepted (limitOf r))
    (hfetch : (NewClient transport).FetchActiveEvents (some ⟨parsedLimit (limitOf r)⟩)
      = ⟨events, none, reqs⟩) :
    json.Unmarshal (handleEvents transport freshWriter r).w.body = .ok events := by
  rw [handleEvents_of_accepted transport freshWriter r hm hl,
    respondEvents_of_ok transport _ (by rw [hfetch]), hfetch]
  exact (Unmarshal_MarshalEvents events).2

/-- Witness for C9: an event whose strings hold quotes, a backslash, a line
feed, `<` and a non-ASCII letter, with a market whose fields hold JSON arrays as
text, comes back unchanged. -/
theorem response_round_trip_witness :
    json.Unmarshal (handleEvents (upstream ⟨200,
        "[\x7b\"id\":\"a\\\"b\\\\c\\nd<e\",\"title\":\"caf\\u00e9\",\"markets\":[\x7b\"outcomes\":\"[\\\"Yes\\\",\\\"No\\\"]\"\x7d]\x7d]",
        none⟩) freshWriter (eventsRequest "GET" "limit=3")).w.body
      = .ok (some [⟨"a\"b\\c\nd<e", "", "café", false, false, none,
          some [⟨"", "", "", "[\"Yes\",\"No\"]", ""⟩]⟩]) :=
  response_round_trip _ (eventsRequest "GET" "limit=3") _
    ["https://gamma-api.polymarket.com/events?active=true&closed=false&limit=3"]
    (by decide) (Or.inr (by decide)) (by decide)

end GoPractice
